import Mathlib

/-!
Verification development for the `beacon` mesh-messaging daemon
(Python backend under `backend/`).

This file shallowly embeds the data model and the operations of the
messaging core — the message protocol (`messaging/protocol.py`), the
flood router (`messaging/router.py`), the sanitizer
(`messaging/sanitizer.py`), the rate limiter and handler
(`messaging/handler.py`), the connection pool
(`bluetooth/connection_pool.py`) and the adaptive discovery interval
(`bluetooth/discovery.py`) — and proves or refutes the specified
properties of those operations.

Modelling conventions:
* Python `str` is Lean `String`; Python `int` is Lean `Int`/`Nat`.
* Python `float` timestamps and scores are modelled as `ℚ` (the code
  only adds, subtracts, compares and clamps them, so exact rational
  arithmetic is faithful for every property stated here); the message
  `timestamp` field is modelled at whole-second granularity as `Int`.
* Mutation of objects is modelled by explicit state passing: a method
  that mutates `self` becomes a function returning the new state.
* `None` of optional arguments becomes `Option`.  A Python truthiness
  test `if x:` on a string becomes `x ≠ ""`.
* Config values are embedded at their defaults from `config.py`.
-/

namespace Beacon

/-! ### Configuration constants (`backend/config.py`, defaults) -/

def MESSAGE_TTL : Int := 3
def MAX_MESSAGE_SIZE : Nat := 500
def MAX_CONTENT_LENGTH : Nat := 450
def MESSAGE_CACHE_TTL : Int := 300
def RATE_LIMIT_PER_CONNECTION : Nat := 10
def RATE_LIMIT_PER_DEVICE : Nat := 30
def RATE_LIMIT_GLOBAL : Nat := 100
def MAX_CONCURRENT_CONNECTIONS : Nat := 4

/-! ### `MessageType` (`messaging/protocol.py`) -/

inductive MessageType where
  | broadcast
  | heartbeat
  | ack
  | discovery
  | system
deriving DecidableEq, Repr

/-- The `.value` string of each enum member. -/
def MessageType.value : MessageType → String
  | .broadcast => "broadcast"
  | .heartbeat => "heartbeat"
  | .ack => "ack"
  | .discovery => "discovery"
  | .system => "system"

/-- `MessageType(s)`: look a member up by value, `none` on `ValueError`. -/
def MessageType.ofValue (s : String) : Option MessageType :=
  if s = "broadcast" then some .broadcast
  else if s = "heartbeat" then some .heartbeat
  else if s = "ack" then some .ack
  else if s = "discovery" then some .discovery
  else if s = "system" then some .system
  else none

/-! ### `Message` (`messaging/protocol.py`) -/

structure Message where
  message_id : String
  sender_id : String
  content : String
  timestamp : Int
  ttl : Int
  seen_by : List String
  message_type : MessageType
  sender_name : Option String
deriving DecidableEq, Repr

/-- `Message.__post_init__`: after dataclass construction, append the
sender to `seen_by` when the sender id is truthy and not yet present.
Every construction of a `Message` object in the source goes through
this. -/
def mkMessage (message_id sender_id content : String) (timestamp ttl : Int)
    (seen_by : List String) (message_type : MessageType)
    (sender_name : Option String) : Message :=
  let seen_by :=
    if sender_id ≠ "" ∧ sender_id ∉ seen_by then seen_by ++ [sender_id]
    else seen_by
  ⟨message_id, sender_id, content, timestamp, ttl, seen_by, message_type, sender_name⟩

/-- `Message.add_seen_by`: append a truthy, not-yet-present device id. -/
def Message.add_seen_by (m : Message) (device_id : String) : Message :=
  if device_id ≠ "" ∧ device_id ∉ m.seen_by then
    { m with seen_by := m.seen_by ++ [device_id] }
  else m

/-- `Message.has_been_seen_by`. -/
def Message.has_been_seen_by (m : Message) (device_id : String) : Bool :=
  device_id ∈ m.seen_by

/-- `Message.can_forward`: TTL strictly positive. -/
def Message.can_forward (m : Message) : Bool :=
  m.ttl > 0

/-! ### `MeshRouter` (`messaging/router.py`)

The router's mutable state that the routing decisions read is the
dedup cache (a set of message ids; LRU/TTL eviction of `TTLCache` only
removes entries and is not exercised by the claims below) and the
local device id.  Statistics counters do not feed back into decisions
and are omitted.  `route_message` mutates the message (adding the
local id to `seen_by`) and the cache; both are returned. -/

structure RouteResult where
  cache : List String
  message : Message
  should_process : Bool
  forward_to : List String
deriving Repr

/-- `MeshRouter.route_message` (router.py lines 160-237).
`local_id` is `self._local_device_id` (modelled as a `String`, with
`""` for the falsy `None`/empty cases); `cache` is the set of message
ids currently in the dedup cache. -/
def route_message (cache : List String) (local_id : String) (m : Message)
    (source_device : Option String) (connected_devices : List String) :
    RouteResult :=
  if m.message_id ∈ cache then
    ⟨cache, m, false, []⟩
  else if local_id ≠ "" ∧ m.has_been_seen_by local_id then
    ⟨cache, m, false, []⟩
  else
    let cache := m.message_id :: cache
    let m := if local_id ≠ "" then m.add_seen_by local_id else m
    let forward_to :=
      if m.can_forward then
        connected_devices.filter fun d =>
          ¬ (some d = source_device) ∧ ¬ m.has_been_seen_by d
      else []
    ⟨cache, m, true, forward_to⟩

/-- `MeshRouter.originate_message` (router.py lines 239-269): overwrite
the sender id with the local id (when the local id is truthy), add the
local id to `seen_by`, cache the message id, and return a copy of the
connected-devices list. -/
def originate_message (cache : List String) (local_id : String) (m : Message)
    (connected_devices : List String) :
    List String × Message × List String :=
  let m := if local_id ≠ "" then
             ({ m with sender_id := local_id }).add_seen_by local_id
           else m
  let cache := m.message_id :: cache
  (cache, m, connected_devices)

/-- `MessageProtocol.prepare_for_forwarding` (protocol.py lines
308-337): `none` when the message cannot be forwarded, otherwise a
fresh `Message` (built through the dataclass constructor, hence
through `__post_init__`) with decremented TTL and a copied `seen_by`,
to which the forwarder is then added.  The input message is only read,
never written. -/
def prepare_for_forwarding (m : Message) (forwarder_id : String) :
    Option Message :=
  if ¬ m.can_forward then none
  else
    some ((mkMessage m.message_id m.sender_id m.content
      m.timestamp (m.ttl - 1) m.seen_by m.message_type m.sender_name).add_seen_by
        forwarder_id)

/-! ### `DeviceDiscovery` adaptive interval (`bluetooth/discovery.py`) -/

inductive NetworkState where
  | no_devices
  | discovering
  | moderate
  | stable
deriving DecidableEq, Repr

def DISCOVERY_INTERVAL_INITIAL : ℚ := 5
def DISCOVERY_INTERVAL_MODERATE : ℚ := 15
def DISCOVERY_INTERVAL_STABLE : ℚ := 30
def DISCOVERY_INTERVAL_NO_DEVICES : ℚ := 10
def MIN_SCAN_INTERVAL : ℚ := 3
def MAX_SCAN_INTERVAL : ℚ := 60

/-- Network-state classification in
`DeviceDiscovery._update_network_state` (discovery.py lines 391-399). -/
def networkStateOf (app_device_count connected_count : Nat) : NetworkState :=
  if app_device_count = 0 then .no_devices
  else if connected_count = 0 then .discovering
  else if connected_count < MAX_CONCURRENT_CONNECTIONS then .moderate
  else .stable

/-- Scan-interval adjustment in `DeviceDiscovery._update_network_state`
(discovery.py lines 401-419).  Note: the source tests
`consecutive_empty_scans > 5` with an `if` and `> 10` with an `elif`,
in that order, so the `> 10` (×2) branch is unreachable — every count
above 10 is also above 5 and is caught by the ×1.5 branch. -/
def update_scan_interval (current : ℚ) (ns : NetworkState)
    (consecutive_empty_scans : Nat) : ℚ :=
  let target :=
    match ns with
    | .no_devices => DISCOVERY_INTERVAL_NO_DEVICES
    | .discovering => DISCOVERY_INTERVAL_INITIAL
    | .moderate => DISCOVERY_INTERVAL_MODERATE
    | .stable => DISCOVERY_INTERVAL_STABLE
  let target :=
    if consecutive_empty_scans > 5 then min (target * (3/2)) MAX_SCAN_INTERVAL
    else if consecutive_empty_scans > 10 then min (target * 2) MAX_SCAN_INTERVAL
    else target
  let current := (current + target) / 2
  max MIN_SCAN_INTERVAL (min current MAX_SCAN_INTERVAL)

/-! ### `MessageSanitizer` (`messaging/sanitizer.py`)

The sanitizer is embedded at character-list level.  The instance used
by the protocol and the handler has `strict_mode = False` and
`ENABLE_INPUT_SANITIZATION = True` (config default), so `sanitize`
performs steps 1-5 and skips the strict-mode category filter;
`Config.security.BLOCKED_PATTERNS` is the empty list, so the
blocked-substring loop of `validate` never fires. -/

namespace Sanitizer

/-- The `CONTROL_CHARS` regex class:
`\x00-\x08`, `\x0b`, `\x0c`, `\x0e-\x1f`, `\x7f-\x9f`. -/
def isControlChar (c : Char) : Bool :=
  c.toNat ≤ 0x08 || c.toNat = 0x0b || c.toNat = 0x0c ||
  (0x0e ≤ c.toNat && c.toNat ≤ 0x1f) ||
  (0x7f ≤ c.toNat && c.toNat ≤ 0x9f)

/-- ASCII lowercasing, as applied by `re.IGNORECASE` comparisons. -/
def pyLower (c : Char) : Char :=
  if 0x41 ≤ c.toNat ∧ c.toNat ≤ 0x5a then Char.ofNat (c.toNat + 0x20) else c

/-- `\s` of the `re` module (ASCII range). -/
def isRegexSpace (c : Char) : Bool :=
  c = ' ' || c.toNat = 0x09 || c.toNat = 0x0a || c.toNat = 0x0b ||
  c.toNat = 0x0c || c.toNat = 0x0d

/-- `\w` of the `re` module (ASCII range). -/
def isWordChar (c : Char) : Bool :=
  (0x30 ≤ c.toNat && c.toNat ≤ 0x39) || (0x41 ≤ c.toNat && c.toNat ≤ 0x5a) ||
  (0x61 ≤ c.toNat && c.toNat ≤ 0x7a) || c = '_'

/-- Python `str.isspace` over the ASCII range (what `str.strip`
removes): the `\s` characters plus `\x1c-\x1f`. -/
def isPySpace (c : Char) : Bool :=
  isRegexSpace c || (0x1c ≤ c.toNat && c.toNat ≤ 0x1f)

/-- Tokens of the `DANGEROUS_PATTERNS` regexes: case-insensitive
literals, `\s*`, and `\w+`. -/
inductive Tok where
  | lit (c : Char)
  | wsStar
  | wordPlus
deriving DecidableEq, Repr

/-- Greedy anchored matcher: the length consumed by the token sequence
at the head of the input, or `none`.  In every pattern of the source a
`\s*` or `\w+` is followed by a literal that is neither a space nor a
word character, so the backtracking regex engine accepts exactly the
strings this greedy matcher accepts, with the same match length. -/
def matchToks : List Tok → List Char → Option Nat
  | [], _ => some 0
  | .lit _ :: _, [] => none
  | .lit c :: toks, x :: xs =>
      if pyLower x = c then (matchToks toks xs).map (· + 1) else none
  | .wsStar :: toks, xs =>
      let n := (xs.takeWhile isRegexSpace).length
      (matchToks toks (xs.drop n)).map (· + n)
  | .wordPlus :: toks, xs =>
      let n := (xs.takeWhile isWordChar).length
      if n = 0 then none else (matchToks toks (xs.drop n)).map (· + n)

def lits (s : List Char) : List Tok := s.map .lit

/-- `<\s*script` (re.IGNORECASE). -/
def patScript : List Tok := .lit '<' :: .wsStar :: lits ['s','c','r','i','p','t']
/-- `javascript\s*:` (re.IGNORECASE). -/
def patJavascript : List Tok :=
  lits ['j','a','v','a','s','c','r','i','p','t'] ++ [.wsStar, .lit ':']
/-- `on\w+\s*=` (re.IGNORECASE), the event-handler pattern. -/
def patOnEvent : List Tok := [.lit 'o', .lit 'n', .wordPlus, .wsStar, .lit '=']
/-- `<\s*iframe` (re.IGNORECASE). -/
def patIframe : List Tok := .lit '<' :: .wsStar :: lits ['i','f','r','a','m','e']
/-- `<\s*object` (re.IGNORECASE). -/
def patObject : List Tok := .lit '<' :: .wsStar :: lits ['o','b','j','e','c','t']
/-- `<\s*embed` (re.IGNORECASE). -/
def patEmbed : List Tok := .lit '<' :: .wsStar :: lits ['e','m','b','e','d']
/-- `<\s*form` (re.IGNORECASE). -/
def patForm : List Tok := .lit '<' :: .wsStar :: lits ['f','o','r','m']
/-- `data\s*:` (re.IGNORECASE). -/
def patData : List Tok := lits ['d','a','t','a'] ++ [.wsStar, .lit ':']

/-- `DANGEROUS_PATTERNS`, in source order. -/
def DANGEROUS_PATTERNS : List (List Tok) :=
  [patScript, patJavascript, patOnEvent, patIframe, patObject, patEmbed,
   patForm, patData]

/-- The replacement text of `pattern.sub('[blocked]', ...)`. -/
def blockedChars : List Char := ['[','b','l','o','c','k','e','d',']']

/-- Fuel-indexed scanner for `pattern.sub`; the fuel only bounds the
recursion depth (each step consumes at least one character, so fuel
equal to the input length always suffices) and is never exhausted on
the wrapper's call. -/
def subToksFuel (toks : List Tok) : Nat → List Char → List Char
  | _, [] => []
  | 0, l => l
  | fuel + 1, c :: cs =>
      match matchToks toks (c :: cs) with
      | some (n + 1) => blockedChars ++ subToksFuel toks fuel ((c :: cs).drop (n + 1))
      | _ => c :: subToksFuel toks fuel cs

/-- `pattern.sub('[blocked]', s)`: scan left to right, replace each
leftmost non-overlapping match.  (The zero-length-match guard of the
fuelled scanner cannot fire: every pattern of the source begins with a
literal and therefore matches at least one character.) -/
def subToks (toks : List Tok) (l : List Char) : List Char :=
  subToksFuel toks l.length l

/-- `pattern.search(s) is not None`: a match exists at some position. -/
def hasMatch (toks : List Tok) : List Char → Bool
  | [] => (matchToks toks []).isSome
  | c :: cs => (matchToks toks (c :: cs)).isSome || hasMatch toks cs

/-- `_normalize_unicode`: `unicodedata.normalize('NFC', content)`.
Modelled as the identity; NFC is the identity on the ASCII strings
over which every theorem below quantifies and on which every concrete
input below is taken. -/
def normalizeNFC (s : String) : String := s

/-- Space-run collapsing, `re.sub(' +', ' ', content)`. -/
def collapseSpaces : List Char → List Char
  | [] => []
  | [c] => [c]
  | c1 :: c2 :: rest =>
      if c1 = ' ' && c2 = ' ' then collapseSpaces (c2 :: rest)
      else c1 :: collapseSpaces (c2 :: rest)

/-- `_remove_control_chars`: control characters become spaces, then
space runs are collapsed. -/
def removeControlChars (l : List Char) : List Char :=
  collapseSpaces (l.map fun c => if isControlChar c then ' ' else c)

/-- `_filter_dangerous_patterns`: substitute each pattern in turn. -/
def filterDangerous (l : List Char) : List Char :=
  DANGEROUS_PATTERNS.foldl (fun acc toks => subToks toks acc) l

/-- One character of `html.escape(content, quote=True)`.  The source's
sequential `str.replace` calls are equivalent to this character map:
the ampersands introduced by later replacements are never rescanned by
the earlier, already-finished `&` pass. -/
def htmlEscapeChar (c : Char) : List Char :=
  if c = '&' then ['&','a','m','p',';']
  else if c = '<' then ['&','l','t',';']
  else if c = '>' then ['&','g','t',';']
  else if c = Char.ofNat 34 then ['&','q','u','o','t',';']
  else if c = Char.ofNat 39 then ['&','#','x','2','7',';']
  else [c]

/-- `_html_escape`. -/
def htmlEscape (l : List Char) : List Char :=
  (l.map htmlEscapeChar).flatten

/-- Python `str.strip()` (whitespace from both ends). -/
def pyStrip (l : List Char) : List Char :=
  ((l.dropWhile isPySpace).reverse.dropWhile isPySpace).reverse

/-- Python `content.rfind(' ')`: highest index holding a space,
`-1` when there is none. -/
def rfindSpace : List Char → Int
  | [] => -1
  | c :: cs =>
      let r := rfindSpace cs
      if r ≥ 0 then r + 1 else if c = ' ' then 0 else -1

/-- `_trim_and_limit`: strip, then truncate to `MAX_CONTENT_LENGTH`,
preferring the last space boundary when it lies beyond
`MAX_CONTENT_LENGTH * 0.8 = 360.0` (exact, since 450·0.8 = 360). -/
def trimAndLimit (l : List Char) : List Char :=
  let l := pyStrip l
  if l.length > MAX_CONTENT_LENGTH then
    let t := l.take MAX_CONTENT_LENGTH
    let ls := rfindSpace t
    if ls > 360 then t.take ls.toNat else t
  else l

/-- `MessageSanitizer.sanitize` (sanitizer.py lines 57-92), with
sanitization enabled and strict mode off. -/
def sanitize (s : String) : String :=
  if s = "" then ""
  else
    String.mk (trimAndLimit (htmlEscape (filterDangerous
      (removeControlChars ((normalizeNFC s).toList)))))

/-- `MessageSanitizer.validate` (sanitizer.py lines 94-127);
`BLOCKED_PATTERNS` is empty by default, so its loop is vacuous. -/
def validate (content : String) : Bool × Option String :=
  if content = "" then (false, some "Message content cannot be empty")
  else if content.length > MAX_CONTENT_LENGTH then
    (false, some "Message exceeds maximum length of 450 characters")
  else if content.utf8ByteSize > MAX_MESSAGE_SIZE then
    (false, some "Message exceeds maximum size of 500 bytes")
  else if DANGEROUS_PATTERNS.any (fun toks => hasMatch toks content.toList) then
    (false, some "Message contains blocked content")
  else (true, none)

/-- `MessageSanitizer.sanitize_and_validate`. -/
def sanitizeAndValidate (content : String) : String × Bool × Option String :=
  let sanitized := sanitize content
  let v := validate sanitized
  (sanitized, v.1, v.2)

/-- `MessageSanitizer.sanitize_device_name`. -/
def sanitizeDeviceName (name : String) : String :=
  if name = "" then "Unknown Device"
  else
    let l := name.toList.filter (fun c => ¬ isControlChar c)
    let l := htmlEscape l
    let l := if l.length > 50 then l.take 50 else l
    let r := pyStrip l
    if r.isEmpty then "Unknown Device" else String.mk r

/-- `MessageSanitizer.is_valid_uuid` (sanitizer.py lines 237-252):
`re.match` of `^[0-9a-f]{8}-(4)-(4)-(4)-(12)$` with `re.IGNORECASE`.
`$` also matches just before a single trailing newline, faithfully to
Python `re`. -/
def isHexChar (c : Char) : Bool :=
  (0x30 ≤ c.toNat && c.toNat ≤ 0x39) || (0x61 ≤ c.toNat && c.toNat ≤ 0x66) ||
  (0x41 ≤ c.toNat && c.toNat ≤ 0x46)

def hexRun : Nat → List Char → Option (List Char)
  | 0, l => some l
  | _ + 1, [] => none
  | n + 1, c :: cs => if isHexChar c then hexRun n cs else none

def uuidTail (l : List Char) : Bool :=
  match l with
  | [] => true
  | [c] => c.toNat = 0x0a
  | _ => false

/-- Consume the literal dash between two hex groups. -/
def dash : List Char → Option (List Char)
  | '-' :: l => some l
  | _ => none

def isValidUuid (s : String) : Bool :=
  match ((((((((hexRun 8 s.toList).bind dash).bind (hexRun 4)).bind
      dash).bind (hexRun 4)).bind dash).bind (hexRun 4)).bind dash).bind
      (hexRun 12) with
  | some l => uuidTail l
  | none => false

end Sanitizer

/-! ### JSON encoding (`Message.to_dict` / `to_json` / `to_bytes`)

`json.dumps` of the `to_dict` dictionary, with the default separators
and `ensure_ascii=True`.  The textual JSON layer is used for the
byte-size computation (`get_byte_size`); `json.loads ∘ json.dumps` is
the identity on these dictionaries, so parsing is modelled at the
dictionary level (`MsgDict`). -/

namespace Json

def hexDigit (n : Nat) : Char :=
  if n < 10 then Char.ofNat (0x30 + n) else Char.ofNat (0x61 + n - 10)

/-- A `\uXXXX` escape (lowercase hex, as CPython emits). -/
def u4 (n : Nat) : List Char :=
  [Char.ofNat 92, 'u', hexDigit (n / 4096 % 16), hexDigit (n / 256 % 16),
   hexDigit (n / 16 % 16), hexDigit (n % 16)]

/-- One character of a JSON string as `json.dumps` emits it:
the two-character escapes for quote, backslash and `\b \t \n \f \r`,
`\u00XX` for other controls, literal ASCII for `0x20-0x7e`, and
`\uXXXX` (with surrogate pairs above `0xffff`) for the rest. -/
def escapeChar (c : Char) : List Char :=
  let n := c.toNat
  if n = 34 then [Char.ofNat 92, Char.ofNat 34]
  else if n = 92 then [Char.ofNat 92, Char.ofNat 92]
  else if n = 8 then [Char.ofNat 92, 'b']
  else if n = 9 then [Char.ofNat 92, 't']
  else if n = 10 then [Char.ofNat 92, 'n']
  else if n = 12 then [Char.ofNat 92, 'f']
  else if n = 13 then [Char.ofNat 92, 'r']
  else if n < 0x20 then u4 n
  else if n < 0x7f then [c]
  else if n ≤ 0xffff then u4 n
  else u4 (0xd800 + (n - 0x10000) / 0x400) ++ u4 (0xdc00 + (n - 0x10000) % 0x400)

def encStr (s : String) : String :=
  String.mk (Char.ofNat 34 :: ((s.toList.map escapeChar).flatten ++ [Char.ofNat 34]))

def encStrList (l : List String) : String :=
  "[" ++ String.intercalate ", " (l.map encStr) ++ "]"

def encOptStr : Option String → String
  | none => "null"
  | some s => encStr s

end Json

/-- `Message.to_json` / `to_bytes`: `json.dumps(self.to_dict())`, keys
in `to_dict` insertion order, default separators. -/
def Message.to_json (m : Message) : String :=
  "\x7b\"message_id\": " ++ Json.encStr m.message_id ++
  ", \"sender_id\": " ++ Json.encStr m.sender_id ++
  ", \"content\": " ++ Json.encStr m.content ++
  ", \"timestamp\": " ++ toString m.timestamp ++
  ", \"ttl\": " ++ toString m.ttl ++
  ", \"seen_by\": " ++ Json.encStrList m.seen_by ++
  ", \"type\": " ++ Json.encStr m.message_type.value ++
  ", \"sender_name\": " ++ Json.encOptStr m.sender_name ++ "\x7d"

/-- `Message.get_byte_size`: UTF-8 length of `to_bytes()`. -/
def Message.get_byte_size (m : Message) : Nat :=
  m.to_json.utf8ByteSize

/-- `Message.is_expired` with the default
`max_age = MESSAGE_CACHE_TTL`. -/
def Message.is_expired (m : Message) (now : Int) : Bool :=
  (now - m.timestamp) > MESSAGE_CACHE_TTL

/-! ### Parsing (`Message.from_dict`, `MessageProtocol`) -/

/-- The JSON object of a datagram, after `json.loads`: each known key
is present (`some`) or absent (`none`); `sender_name: null` and a
missing `sender_name` are both `none`, exactly as `dict.get` treats
them.  Unknown extra keys are ignored by `from_dict` and are not
modelled.  -/
structure MsgDict where
  message_id : Option String := none
  sender_id : Option String := none
  content : Option String := none
  timestamp : Option Int := none
  ttl : Option Int := none
  seen_by : Option (List String) := none
  type : Option String := none
  sender_name : Option String := none
deriving DecidableEq, Repr

/-- `Message.to_dict`. -/
def Message.to_dict (m : Message) : MsgDict :=
  ⟨some m.message_id, some m.sender_id, some m.content, some m.timestamp,
   some m.ttl, some m.seen_by, some m.message_type.value, m.sender_name⟩

/-- `Message.from_dict` (protocol.py lines 83-102).  The two
environment-supplied defaults are parameters: `fresh_id` is the
`str(uuid.uuid4())` drawn when `message_id` is absent, `now` is the
`time.time()` drawn when `timestamp` is absent. -/
def Message.from_dict (d : MsgDict) (fresh_id : String) (now : Int) : Message :=
  let message_type :=
    match d.type with
    | some s => (MessageType.ofValue s).getD .broadcast
    | none => .broadcast
  mkMessage (d.message_id.getD fresh_id) (d.sender_id.getD "")
    (d.content.getD "") (d.timestamp.getD now) (d.ttl.getD MESSAGE_TTL)
    (d.seen_by.getD []) message_type d.sender_name

/-- `MessageProtocol.validate_message` (protocol.py lines 233-283),
checks in source order. -/
def validate_message (m : Message) (now : Int) : Bool × Option String :=
  if m.message_id = "" then (false, some "Message ID is required")
  else if ¬ Sanitizer.isValidUuid m.message_id then
    (false, some "Invalid message ID format")
  else if m.sender_id = "" then (false, some "Sender ID is required")
  else if m.message_type = .broadcast ∧ m.content = "" then
    (false, some "Content is required for broadcast messages")
  else if m.message_type = .broadcast ∧
      (Sanitizer.sanitizeAndValidate m.content).2.1 = false then
    (false, (Sanitizer.sanitizeAndValidate m.content).2.2)
  else if m.ttl < 0 then (false, some "TTL cannot be negative")
  else if m.ttl > MESSAGE_TTL then (false, some "TTL exceeds maximum (3)")
  else if m.timestamp > now + 60 then
    (false, some "Message timestamp is in the future")
  else if m.is_expired now then (false, some "Message has expired")
  else if m.get_byte_size > MAX_MESSAGE_SIZE then
    (false, some ("Message size (" ++ toString m.get_byte_size ++ ") exceeds limit"))
  else (true, none)

/-- `MessageProtocol.parse_message` (protocol.py lines 285-306), with
the wire bytes modelled at the JSON-object level (see `MsgDict`):
decode the dictionary into a `Message`, then validate; raising
`MessageValidationError` becomes `Except.error`. -/
def parse_message (d : MsgDict) (fresh_id : String) (now : Int) :
    Except String Message :=
  if (validate_message (Message.from_dict d fresh_id now) now).1 then
    .ok (Message.from_dict d fresh_id now)
  else
    .error ((validate_message (Message.from_dict d fresh_id now) now).2.getD "")

/-- `str(uuid.uuid4())`: 32 lowercase hex digits of the 128-bit value
(with the version nibble forced to 4 and the variant nibble forced
into 8..b) in 8-4-4-4-12 grouping.  The randomness is the parameter
`r`. -/
def uuid4String (r : Nat) : String :=
  let digits := (List.range 32).map fun i => r / 16 ^ (31 - i) % 16
  let digits := (digits.set 12 4).set 16 (8 + r / 16 ^ 15 % 4)
  let ds := digits.map Json.hexDigit
  String.mk (ds.take 8 ++ '-' :: ((ds.drop 8).take 4 ++ '-' ::
    ((ds.drop 12).take 4 ++ '-' :: ((ds.drop 16).take 4 ++ '-' :: ds.drop 20))))

/-- Errors of `MessageProtocol.create_broadcast_message`. -/
inductive CreateError where
  | validation (error : Option String)
  | size (actual : Nat)
deriving DecidableEq, Repr

/-- `MessageProtocol.create_broadcast_message` (protocol.py lines
158-203): sanitize and validate the content, build the message (fresh
id, current time, initial TTL, empty `seen_by` completed by
`__post_init__`), then enforce the encoded-size bound. -/
def create_broadcast_message (content sender_id : String)
    (sender_name : Option String) (fresh_id : String) (now : Int) :
    Except CreateError Message :=
  let s := Sanitizer.sanitizeAndValidate content
  if s.2.1 = false then .error (.validation s.2.2)
  else
    let message := mkMessage fresh_id sender_id s.1 now MESSAGE_TTL []
      .broadcast
      (match sender_name with
       | some n => if n ≠ "" then some (Sanitizer.sanitizeDeviceName n) else none
       | none => none)
    if message.get_byte_size > MAX_MESSAGE_SIZE then
      .error (.size message.get_byte_size)
    else .ok message

/-! ### `RateLimitTracker` (`messaging/handler.py` lines 37-104)

The tracker's state is three sliding-window buckets of timestamps.
Python dictionaries are modelled as association lists in insertion
order. -/

/-- `dict.get(k, [])`-style lookup in a timestamp map. -/
def lookupD (m : List (String × List ℚ)) (k : String) : List ℚ :=
  match m with
  | [] => []
  | (k', v) :: rest => if k' = k then v else lookupD rest k

/-- `d[k] = v`: overwrite in place, or append a new binding (Python
dict insertion order). -/
def setEntry (m : List (String × List ℚ)) (k : String) (v : List ℚ) :
    List (String × List ℚ) :=
  match m with
  | [] => [(k, v)]
  | (k', v') :: rest =>
      if k' = k then (k, v) :: rest else (k', v') :: setEntry rest k v

structure RateState where
  connection_counts : List (String × List ℚ)
  device_counts : List (String × List ℚ)
  global_timestamps : List ℚ
deriving DecidableEq, Repr

structure RateRefusal where
  limit_type : String
  retry_after : ℚ
deriving DecidableEq, Repr

/-- The recording step of `check_and_record` on success: append `now`
to the global bucket and to the device/connection buckets whose ids
were supplied. -/
def recordStep (st : RateState) (now : ℚ)
    (connection_id device_id : Option String) : RateState :=
  let st := { st with global_timestamps := st.global_timestamps ++ [now] }
  let st :=
    match device_id with
    | some d =>
        { st with device_counts := setEntry st.device_counts d (lookupD st.device_counts d ++ [now]) }
    | none => st
  match connection_id with
  | some c =>
      { st with connection_counts := setEntry st.connection_counts c (lookupD st.connection_counts c ++ [now]) }
  | none => st

/-- The connection-bucket check of `check_and_record` (runs after the
global and device checks passed). -/
def connStep (st : RateState) (now cutoff : ℚ)
    (connection_id device_id : Option String) :
    RateState × Option RateRefusal :=
  match connection_id with
  | none => (recordStep st now connection_id device_id, none)
  | some c =>
      let l := (lookupD st.connection_counts c).filter (fun t => t > cutoff)
      let st := { st with connection_counts := setEntry st.connection_counts c l }
      if l.length ≥ RATE_LIMIT_PER_CONNECTION then
        (st, some ⟨"connection", l.headD 0 + 60 - now⟩)
      else (recordStep st now connection_id device_id, none)

/-- The device-bucket check of `check_and_record` (runs after the
global check passed). -/
def deviceStep (st : RateState) (now cutoff : ℚ)
    (connection_id device_id : Option String) :
    RateState × Option RateRefusal :=
  match device_id with
  | none => connStep st now cutoff connection_id device_id
  | some d =>
      let l := (lookupD st.device_counts d).filter (fun t => t > cutoff)
      let st := { st with device_counts := setEntry st.device_counts d l }
      if l.length ≥ RATE_LIMIT_PER_DEVICE then
        (st, some ⟨"device", l.headD 0 + 60 - now⟩)
      else connStep st now cutoff connection_id device_id

/-- `RateLimitTracker.check_and_record` (handler.py lines 48-104):
prune each inspected bucket to the 60-second window, test the caps in
the order global → device → connection, refuse with the failing
bucket's `limit_type` and `retry_after = bucket[0] + 60 - now`, and
record `now` in every relevant bucket on success. -/
def check_and_record (st : RateState) (now : ℚ)
    (connection_id device_id : Option String) (enabled : Bool) :
    RateState × Option RateRefusal :=
  if enabled = false then (st, none)
  else
    let cutoff := now - 60
    let g := st.global_timestamps.filter (fun t => t > cutoff)
    let st := { st with global_timestamps := g }
    if g.length ≥ RATE_LIMIT_GLOBAL then
      (st, some ⟨"global", g.headD 0 + 60 - now⟩)
    else deviceStep st now cutoff connection_id device_id

/-! ### `MessageHandler.create_message` (`messaging/handler.py`) -/

inductive HandlerError where
  | rateLimit (limit_type : String) (retry_after : ℚ)
  | create (e : CreateError)
deriving DecidableEq, Repr

/-- `MessageHandler.create_message` (handler.py lines 191-242): the
rate-limit check-and-record runs first (with the handler's local
device id as `device_id`); only if it allows is
`create_broadcast_message` invoked, and a validation or size failure
propagates without touching the rate-limiter state again. -/
def handler_create_message (rate : RateState) (now : ℚ)
    (local_device_id : Option String) (content : String)
    (sender_name : Option String) (connection_id : Option String)
    (fresh_id : String) (msg_now : Int) :
    RateState × Except HandlerError Message :=
  let r := check_and_record rate now connection_id local_device_id true
  match r.2 with
  | some ref => (r.1, .error (.rateLimit ref.limit_type ref.retry_after))
  | none =>
      match create_broadcast_message content (local_device_id.getD "")
          sender_name fresh_id msg_now with
      | .error e => (r.1, .error (.create e))
      | .ok m => (r.1, .ok m)

/-! ### `ConnectionPool` (`bluetooth/connection_pool.py`)

The pool's `connections` dictionary (address → entry, insertion order)
is an association-ordered list of entries; the blacklist maps
addresses to unblock times.  Health scores depend on the current time,
which is passed explicitly. -/

inductive ConnectionPriority where
  | high
  | normal
  | low
deriving DecidableEq, Repr

/-- The `.value` of the `ConnectionPriority` enum (HIGH = 1,
NORMAL = 2, LOW = 3: a smaller value is a higher priority). -/
def ConnectionPriority.value : ConnectionPriority → Nat
  | .high => 1
  | .normal => 2
  | .low => 3

/-- `DeviceInfo`, reduced to the fields the pool reads (the stored
base health score; the other fields do not feed any claim below). -/
structure DeviceInfo where
  address : String
  health_score : ℚ := 1
deriving DecidableEq, Repr

structure ConnectionEntry where
  address : String
  device_info : DeviceInfo
  priority : ConnectionPriority
  created_at : ℚ
  last_activity : ℚ
  messages_sent : Nat := 0
  messages_received : Nat := 0
  bytes_sent : Nat := 0
  bytes_received : Nat := 0
  errors : Nat := 0
  reconnect_attempts : Nat := 0
deriving DecidableEq, Repr

/-- `ConnectionEntry.health_score` (connection_pool.py lines 45-61). -/
def ConnectionEntry.health_score (e : ConnectionEntry) (now : ℚ) : ℚ :=
  let base_score := e.device_info.health_score
  let error_penalty := min ((e.errors : ℚ) * (1/10)) (1/2)
  let inactivity_penalty := min ((now - e.last_activity) / 300) (3/10)
  let throughput_bonus :=
    min (((e.messages_sent + e.messages_received : Nat) : ℚ) * (1/100)) (1/5)
  max 0 (min 1 (base_score - error_penalty - inactivity_penalty + throughput_bonus))

structure ConnectionPool where
  connections : List ConnectionEntry
  blacklist : List (String × ℚ)
deriving DecidableEq, Repr

/-- `a` sorts no later than `b` under
`sort(key=lambda e: (e.priority.value, -e.health_score), reverse=True)`:
`a`'s key pair is lexicographically at least `b`'s. -/
def evictKeyGE (now : ℚ) (a b : ConnectionEntry) : Bool :=
  (b.priority.value < a.priority.value) ||
  (a.priority.value == b.priority.value && a.health_score now ≤ b.health_score now)

/-- Stable insertion for the descending candidate sort. -/
def insertDesc (now : ℚ) (x : ConnectionEntry) :
    List ConnectionEntry → List ConnectionEntry
  | [] => [x]
  | y :: ys => if evictKeyGE now y x then y :: insertDesc now x ys else x :: y :: ys

/-- The stable descending sort of `candidates.sort(..., reverse=True)`. -/
def sortCandidatesDesc (now : ℚ) : List ConnectionEntry → List ConnectionEntry
  | [] => []
  | x :: xs => insertDesc now x (sortCandidatesDesc now xs)

/-- `ConnectionPool._evict_lowest_priority` (connection_pool.py lines
328-360): candidates are the entries with same-or-lower priority
(numeric value ≥ the new one); the head of the descending sort — the
lowest-priority entry, lowest health first among equals — is deleted
from the dictionary. -/
def evict_lowest_priority (pool : ConnectionPool) (now : ℚ)
    (new_priority : ConnectionPriority) : ConnectionPool × Bool :=
  if pool.connections = [] then (pool, false)
  else
    match sortCandidatesDesc now (pool.connections.filter
        (fun e => e.priority.value ≥ new_priority.value)) with
    | [] => (pool, false)
    | victim :: _ =>
        ({ pool with connections :=
            pool.connections.eraseP (fun e => e.address == victim.address) },
         true)

/-- A fresh `ConnectionEntry` as `add_connection` builds it. -/
def newEntry (address : String) (device_info : DeviceInfo)
    (priority : ConnectionPriority) (now : ℚ) : ConnectionEntry :=
  ⟨address, device_info, priority, now, now, 0, 0, 0, 0, 0, 0⟩

/-- The body of `add_connection` after the blacklist gate. -/
def addAfterBlacklist (pool : ConnectionPool) (now : ℚ) (address : String)
    (device_info : DeviceInfo) (priority : ConnectionPriority) :
    ConnectionPool × Bool :=
  if pool.connections.any (fun e => e.address == address) then (pool, true)
  else if pool.connections.length ≥ MAX_CONCURRENT_CONNECTIONS then
    match evict_lowest_priority pool now priority with
    | (pool2, false) => (pool2, false)
    | (pool2, true) =>
        ({ pool2 with connections :=
            pool2.connections ++ [newEntry address device_info priority now] },
         true)
  else
    ({ pool with connections :=
        pool.connections ++ [newEntry address device_info priority now] },
     true)

/-- `ConnectionPool.add_connection` (connection_pool.py lines
152-201): refuse while actively blacklisted (clearing an expired
entry), succeed idempotently on a known address, evict under pressure,
insert a fresh entry. -/
def add_connection (pool : ConnectionPool) (now : ℚ) (address : String)
    (device_info : DeviceInfo) (priority : ConnectionPriority) :
    ConnectionPool × Bool :=
  match pool.blacklist.lookup address with
  | some unblock =>
      if now < unblock then (pool, false)
      else
        addAfterBlacklist
          { pool with blacklist := pool.blacklist.eraseP (fun p => p.1 == address) }
          now address device_info priority
  | none => addAfterBlacklist pool now address device_info priority

/-- `d[k] = v` on the blacklist dictionary. -/
def setBlacklist (m : List (String × ℚ)) (k : String) (v : ℚ) :
    List (String × ℚ) :=
  match m with
  | [] => [(k, v)]
  | (k', v') :: rest =>
      if k' = k then (k, v) :: rest else (k', v') :: setBlacklist rest k v

/-- `ConnectionPool.remove_connection` (connection_pool.py lines
203-229). -/
def remove_connection (pool : ConnectionPool) (now : ℚ) (address : String)
    (blacklist : Bool) : ConnectionPool × Bool :=
  if pool.connections.any (fun e => e.address == address) then
    let pool := { pool with connections :=
      pool.connections.eraseP (fun e => e.address == address) }
    let pool :=
      if blacklist then
        { pool with blacklist := setBlacklist pool.blacklist address (now + 60) }
      else pool
    (pool, true)
  else (pool, false)

/-! ### Analysis predicates for the sanitizer

These predicates do not come from the source; they name the character
classes and matcher properties used to settle the idempotence claim
about `sanitize`. -/

namespace Sanitizer

/-- Characters outside the HTML-escape set `& < > " '` and outside the
whitespace characters other than the plain space that `str.strip`
removes but the control-character pass does not replace (`\t`, `\n`,
`\r`); restricted to ASCII so that NFC normalization is the
identity. -/
def plainChar (c : Char) : Bool :=
  c.toNat < 128 && c.toNat ≠ 38 && c.toNat ≠ 60 && c.toNat ≠ 62 &&
  c.toNat ≠ 34 && c.toNat ≠ 39 && c.toNat ≠ 9 && c.toNat ≠ 10 && c.toNat ≠ 13

/-- `plainChar` and additionally not in the control class: the
character set of every intermediate string of `sanitize` on `plainChar`
input. -/
def scChar (c : Char) : Bool :=
  plainChar c && !isControlChar c

/-- No two adjacent plain spaces. -/
def noDoubleB : List Char → Bool
  | c1 :: c2 :: rest => !(c1 = ' ' && c2 = ' ') && noDoubleB (c2 :: rest)
  | _ => true

/-- The token list ends with a literal (true of all eight patterns):
under this condition the matcher consumes at least one character and
its verdict depends only on the consumed prefix. -/
def endsWithLit (toks : List Tok) : Prop :=
  ∃ c, toks.getLast? = some (.lit c)

/-- No literal of the pattern is a square bracket (true of all eight
patterns), so no match segment can contain a character of the
`[blocked]` replacement's delimiters. -/
def litsOK (toks : List Tok) : Prop :=
  ∀ t ∈ toks, ∀ c, t = .lit c → c ≠ '[' ∧ c ≠ ']'

/-- `pattern.search` fails at every position. -/
def NM (toks : List Tok) (l : List Char) : Prop :=
  ∀ i, matchToks toks (l.drop i) = none

end Sanitizer

/-! ### Small facts about `Message` updates -/

theorem Message.mem_seen_by_add (m : Message) (d a : String)
    (h : a ∈ m.seen_by) : a ∈ (m.add_seen_by d).seen_by := by
  unfold Message.add_seen_by
  split
  · simpa using Or.inl h
  · exact h

theorem Message.ttl_add_seen_by (m : Message) (d : String) :
    (m.add_seen_by d).ttl = m.ttl := by
  unfold Message.add_seen_by
  split <;> rfl

theorem Message.sender_id_add_seen_by (m : Message) (d : String) :
    (m.add_seen_by d).sender_id = m.sender_id := by
  unfold Message.add_seen_by
  split <;> rfl

theorem Message.message_id_add_seen_by (m : Message) (d : String) :
    (m.add_seen_by d).message_id = m.message_id := by
  unfold Message.add_seen_by
  split <;> rfl

theorem Message.mem_add_seen_by_self (m : Message) (d : String) (hd : d ≠ "") :
    d ∈ (m.add_seen_by d).seen_by := by
  unfold Message.add_seen_by
  by_cases hmem : d ∈ m.seen_by
  · rw [if_neg (by simp [hmem])]
    exact hmem
  · rw [if_pos ⟨hd, hmem⟩]
    simp


theorem MessageType.ofValue_value (mt : MessageType) :
    MessageType.ofValue mt.value = some mt := by
  cases mt <;> rfl

theorem mkMessage_of_seen (message_id sender_id content : String)
    (timestamp ttl : Int) (seen_by : List String) (mt : MessageType)
    (sn : Option String) (h : sender_id = "" ∨ sender_id ∈ seen_by) :
    mkMessage message_id sender_id content timestamp ttl seen_by mt sn =
    ⟨message_id, sender_id, content, timestamp, ttl, seen_by, mt, sn⟩ := by
  unfold mkMessage
  rw [if_neg (by rcases h with h | h <;> simp [h])]

theorem from_dict_to_dict (m : Message) (fresh : String) (now : Int)
    (h : m.sender_id = "" ∨ m.sender_id ∈ m.seen_by) :
    Message.from_dict m.to_dict fresh now = m := by
  unfold Message.from_dict Message.to_dict
  simp only [Option.getD_some]
  rw [MessageType.ofValue_value]
  exact mkMessage_of_seen _ _ _ _ _ _ _ _ h

theorem validate_message_ok (m : Message) (now : Int)
    (hid : Sanitizer.isValidUuid m.message_id = true)
    (hsender : m.sender_id ≠ "")
    (hcontent : m.message_type = .broadcast → m.content ≠ "" ∧
      (Sanitizer.sanitizeAndValidate m.content).2.1 = true)
    (httl0 : 0 ≤ m.ttl) (httl1 : m.ttl ≤ MESSAGE_TTL)
    (hfut : m.timestamp ≤ now + 60)
    (hexp : now - m.timestamp ≤ MESSAGE_CACHE_TTL)
    (hsize : m.get_byte_size ≤ MAX_MESSAGE_SIZE) :
    validate_message m now = (true, none) := by
  have hid' : m.message_id ≠ "" := by
    intro h
    rw [h] at hid
    exact absurd hid (by decide)
  unfold validate_message
  rw [if_neg hid', if_neg (by simp [hid]), if_neg hsender,
    if_neg (by rintro ⟨hb, hc⟩; exact (hcontent hb).1 hc),
    if_neg (by rintro ⟨hb, hf⟩; rw [(hcontent hb).2] at hf; cases hf),
    if_neg (by omega), if_neg (by omega), if_neg (by omega),
    if_neg (by simp only [Message.is_expired]; simp; omega),
    if_neg (by omega)]

theorem parse_message_ok_inv (d : MsgDict) (f : String) (now : Int)
    (m' : Message) (h : parse_message d f now = .ok m') :
    m' = Message.from_dict d f now := by
  unfold parse_message at h
  split at h
  · exact (Except.ok.inj h).symm
  · cases h

theorem hexRun_all (l rest : List Char) (h : ∀ c ∈ l, Sanitizer.isHexChar c = true) :
    Sanitizer.hexRun l.length (l ++ rest) = some rest := by
  induction l with
  | nil => rfl
  | cons c cs ih =>
    simp only [List.length_cons, List.cons_append, Sanitizer.hexRun]
    rw [if_pos (h c (by simp))]
    exact ih fun x hx => h x (by simp [hx])

theorem isHexChar_hexDigit (n : Nat) (h : n < 16) :
    Sanitizer.isHexChar (Json.hexDigit n) = true := by
  interval_cases n <;> decide

theorem isValidUuid_uuid4String (r : Nat) :
    Sanitizer.isValidUuid (uuid4String r) = true := by
  unfold uuid4String
  set digits := (((List.range 32).map fun i => r / 16 ^ (31 - i) % 16).set 12 4).set 16
    (8 + r / 16 ^ 15 % 4) with hdig
  have hlt : ∀ n ∈ digits, n < 16 := by
    intro n hn
    rw [hdig] at hn
    rcases List.mem_or_eq_of_mem_set hn with hn | hn
    · rcases List.mem_or_eq_of_mem_set hn with hn | hn
      · obtain ⟨i, _, hi⟩ := List.mem_map.mp hn
        omega
      · omega
    · omega
  set ds := digits.map Json.hexDigit with hds
  have hhex : ∀ c ∈ ds, Sanitizer.isHexChar c = true := by
    intro c hc
    obtain ⟨n, hn, rfl⟩ := List.mem_map.mp hc
    exact isHexChar_hexDigit n (hlt n hn)
  have hlen : ds.length = 32 := by
    rw [hds, hdig]
    simp
  have l8 : (ds.take 8).length = 8 := by
    rw [List.length_take, hlen]
    decide
  have l4a : ((ds.drop 8).take 4).length = 4 := by
    rw [List.length_take, List.length_drop, hlen]
    decide
  have l4b : ((ds.drop 12).take 4).length = 4 := by
    rw [List.length_take, List.length_drop, hlen]
    decide
  have l4c : ((ds.drop 16).take 4).length = 4 := by
    rw [List.length_take, List.length_drop, hlen]
    decide
  have l12 : (ds.drop 20).length = 12 := by
    rw [List.length_drop, hlen]
  unfold Sanitizer.isValidUuid
  have htake : ∀ (u : List Char), u.Sublist ds → ∀ c ∈ u, Sanitizer.isHexChar c = true :=
    fun u hu c hc => hhex c (hu.subset hc)
  have h8 := hexRun_all (ds.take 8) ('-' :: ((ds.drop 8).take 4 ++ '-' ::
    ((ds.drop 12).take 4 ++ '-' :: ((ds.drop 16).take 4 ++ '-' :: ds.drop 20))))
    (htake _ (List.take_sublist _ _))
  rw [l8] at h8
  have h4a := hexRun_all ((ds.drop 8).take 4) ('-' ::
    ((ds.drop 12).take 4 ++ '-' :: ((ds.drop 16).take 4 ++ '-' :: ds.drop 20)))
    (htake _ ((List.take_sublist _ _).trans (List.drop_sublist _ _)))
  rw [l4a] at h4a
  have h4b := hexRun_all ((ds.drop 12).take 4) ('-' ::
    ((ds.drop 16).take 4 ++ '-' :: ds.drop 20))
    (htake _ ((List.take_sublist _ _).trans (List.drop_sublist _ _)))
  rw [l4b] at h4b
  have h4c := hexRun_all ((ds.drop 16).take 4) ('-' :: ds.drop 20)
    (htake _ ((List.take_sublist _ _).trans (List.drop_sublist _ _)))
  rw [l4c] at h4c
  have h12 := hexRun_all (ds.drop 20) [] (htake _ (List.drop_sublist _ _))
  rw [l12, List.append_nil] at h12
  have hstr : (String.mk (ds.take 8 ++ '-' :: ((ds.drop 8).take 4 ++ '-' ::
      ((ds.drop 12).take 4 ++ '-' :: ((ds.drop 16).take 4 ++ '-' :: ds.drop 20))))).toList =
      ds.take 8 ++ '-' :: ((ds.drop 8).take 4 ++ '-' ::
      ((ds.drop 12).take 4 ++ '-' :: ((ds.drop 16).take 4 ++ '-' :: ds.drop 20))) := rfl
  rw [hstr, h8]
  simp only [Option.some_bind, Sanitizer.dash]
  rw [h4a]
  simp only [Option.some_bind, Sanitizer.dash]
  rw [h4b]
  simp only [Option.some_bind, Sanitizer.dash]
  rw [h4c]
  simp only [Option.some_bind, Sanitizer.dash]
  rw [h12]
  rfl

/-! ### Facts about the rate-limiter state -/

theorem lookupD_setEntry_self (m : List (String × List ℚ)) (k : String)
    (v : List ℚ) : lookupD (setEntry m k v) k = v := by
  induction m with
  | nil => simp [setEntry, lookupD]
  | cons p rest ih =>
    obtain ⟨k', v'⟩ := p
    by_cases h : k' = k
    · simp [setEntry, lookupD, h]
    · simp [setEntry, lookupD, h, ih]

theorem lookupD_setEntry_ne (m : List (String × List ℚ)) (k k' : String)
    (v : List ℚ) (h : k ≠ k') :
    lookupD (setEntry m k v) k' = lookupD m k' := by
  induction m with
  | nil => simp [setEntry, lookupD, h]
  | cons p rest ih =>
    obtain ⟨k'', v''⟩ := p
    by_cases h2 : k'' = k
    · subst h2
      simp [setEntry, lookupD, h]
    · simp [setEntry, lookupD, h2, ih]

theorem headD_le_of_sorted (l : List ℚ) (hs : l.Sorted (· ≤ ·)) :
    ∀ t ∈ l, l.headD 0 ≤ t := by
  cases l with
  | nil => simp
  | cons x xs =>
    intro t ht
    rcases List.mem_cons.mp ht with rfl | ht
    · simp
    · simpa using (List.sorted_cons.mp hs).1 t ht

theorem mem_global_recordStep (st : RateState) (now : ℚ)
    (cid did : Option String) :
    now ∈ (recordStep st now cid did).global_timestamps := by
  unfold recordStep
  cases did <;> cases cid <;> simp

theorem mem_device_recordStep (st : RateState) (now : ℚ)
    (cid : Option String) (d : String) :
    now ∈ lookupD (recordStep st now cid (some d)).device_counts d := by
  unfold recordStep
  cases cid <;> simp [lookupD_setEntry_self]

theorem mem_conn_recordStep (st : RateState) (now : ℚ)
    (did : Option String) (c : String) :
    now ∈ lookupD (recordStep st now (some c) did).connection_counts c := by
  unfold recordStep
  cases did <;> simp [lookupD_setEntry_self]

theorem lookupD_setEntry_sub (m : List (String × List ℚ)) (k : String)
    (v : List ℚ) (hv : ∀ t ∈ v, t ∈ lookupD m k) :
    ∀ k' , ∀ t ∈ lookupD (setEntry m k v) k', t ∈ lookupD m k' := by
  intro k' t ht
  by_cases h : k = k'
  · subst h
    rw [lookupD_setEntry_self] at ht
    exact hv t ht
  · rwa [lookupD_setEntry_ne m k k' v h] at ht


theorem check_and_record_true_eq (st : RateState) (now : ℚ)
    (cid did : Option String) :
    check_and_record st now cid did true =
    (if (st.global_timestamps.filter (fun t => t > now - 60)).length ≥
        RATE_LIMIT_GLOBAL then
       ({ st with global_timestamps :=
            st.global_timestamps.filter (fun t => t > now - 60) },
        some ⟨"global", (st.global_timestamps.filter
          (fun t => t > now - 60)).headD 0 + 60 - now⟩)
     else deviceStep { st with global_timestamps :=
            st.global_timestamps.filter (fun t => t > now - 60) }
          now (now - 60) cid did) := rfl

theorem deviceStep_none (st : RateState) (now cutoff : ℚ)
    (cid : Option String) :
    deviceStep st now cutoff cid none = connStep st now cutoff cid none := rfl

theorem deviceStep_some (st : RateState) (now cutoff : ℚ)
    (cid : Option String) (d : String) :
    deviceStep st now cutoff cid (some d) =
    (if ((lookupD st.device_counts d).filter (fun t => t > cutoff)).length ≥
        RATE_LIMIT_PER_DEVICE then
       ({ st with device_counts := setEntry st.device_counts d ((lookupD st.device_counts d).filter (fun t => t > cutoff)) },
        some ⟨"device", ((lookupD st.device_counts d).filter
          (fun t => t > cutoff)).headD 0 + 60 - now⟩)
     else connStep { st with device_counts := setEntry st.device_counts d ((lookupD st.device_counts d).filter (fun t => t > cutoff)) }
          now cutoff cid (some d)) := rfl

theorem connStep_none (st : RateState) (now cutoff : ℚ)
    (did : Option String) :
    connStep st now cutoff none did = (recordStep st now none did, none) := rfl

theorem connStep_some (st : RateState) (now cutoff : ℚ)
    (did : Option String) (c : String) :
    connStep st now cutoff (some c) did =
    (if ((lookupD st.connection_counts c).filter (fun t => t > cutoff)).length ≥
        RATE_LIMIT_PER_CONNECTION then
       ({ st with connection_counts := setEntry st.connection_counts c ((lookupD st.connection_counts c).filter (fun t => t > cutoff)) },
        some ⟨"connection", ((lookupD st.connection_counts c).filter
          (fun t => t > cutoff)).headD 0 + 60 - now⟩)
     else (recordStep { st with connection_counts := setEntry st.connection_counts c ((lookupD st.connection_counts c).filter (fun t => t > cutoff)) }
          now (some c) did, none)) := rfl

theorem retry_bounds (orig : List ℚ) (now : ℚ) (hle : ∀ t ∈ orig, t ≤ now)
    (hne : orig.filter (fun t => t > now - 60) ≠ []) :
    0 < (orig.filter (fun t => t > now - 60)).headD 0 + 60 - now ∧
    (orig.filter (fun t => t > now - 60)).headD 0 + 60 - now ≤ 60 := by
  have hmem : (orig.filter (fun t => t > now - 60)).headD 0 ∈
      orig.filter (fun t => t > now - 60) := by
    cases h : orig.filter (fun t => t > now - 60) with
    | nil => exact absurd h hne
    | cons x xs => simp
  have h1 : (orig.filter (fun t => t > now - 60)).headD 0 > now - 60 := by
    have := List.of_mem_filter hmem
    simpa using this
  have h2 : (orig.filter (fun t => t > now - 60)).headD 0 ≤ now :=
    hle _ (List.mem_of_mem_filter hmem)
  constructor <;> linarith

theorem headD_min_filter (orig : List ℚ) (p : ℚ → Bool)
    (hs : orig.Sorted (· ≤ ·)) :
    ∀ t ∈ orig.filter p, (orig.filter p).headD 0 ≤ t :=
  headD_le_of_sorted _ (hs.filter p)


/-! ### Facts about the pool's candidate sort -/

theorem evictKeyGE_refl (now : ℚ) (a : ConnectionEntry) :
    evictKeyGE now a a = true := by
  simp [evictKeyGE]

theorem evictKeyGE_total (now : ℚ) (a b : ConnectionEntry) :
    evictKeyGE now a b = true ∨ evictKeyGE now b a = true := by
  simp only [evictKeyGE, Bool.or_eq_true, Bool.and_eq_true, decide_eq_true_eq,
    beq_iff_eq]
  rcases lt_trichotomy a.priority.value b.priority.value with h | h | h
  · right; left; exact h
  · rcases le_total (a.health_score now) (b.health_score now) with h2 | h2
    · left; right; exact ⟨h, h2⟩
    · right; right; exact ⟨h.symm, h2⟩
  · left; left; exact h

theorem evictKeyGE_trans (now : ℚ) (a b c : ConnectionEntry)
    (h1 : evictKeyGE now a b = true) (h2 : evictKeyGE now b c = true) :
    evictKeyGE now a c = true := by
  simp only [evictKeyGE, Bool.or_eq_true, Bool.and_eq_true, decide_eq_true_eq,
    beq_iff_eq] at h1 h2 ⊢
  rcases h1 with h1 | ⟨h1, h1h⟩ <;> rcases h2 with h2 | ⟨h2, h2h⟩
  · left; omega
  · left; omega
  · left; omega
  · right; exact ⟨by omega, le_trans h1h h2h⟩

theorem mem_insertDesc (now : ℚ) (x y : ConnectionEntry)
    (l : List ConnectionEntry) :
    y ∈ insertDesc now x l ↔ y = x ∨ y ∈ l := by
  induction l with
  | nil => simp [insertDesc]
  | cons z zs ih =>
    rw [insertDesc]
    by_cases h : evictKeyGE now z x = true
    · rw [if_pos h]
      simp only [List.mem_cons, ih]
      tauto
    · rw [if_neg h]
      simp only [List.mem_cons]

theorem mem_sortCandidatesDesc (now : ℚ) (y : ConnectionEntry)
    (l : List ConnectionEntry) :
    y ∈ sortCandidatesDesc now l ↔ y ∈ l := by
  induction l with
  | nil => simp [sortCandidatesDesc]
  | cons z zs ih =>
    rw [sortCandidatesDesc, mem_insertDesc]
    simp [ih]

theorem pairwise_insertDesc (now : ℚ) (x : ConnectionEntry)
    (l : List ConnectionEntry)
    (hl : l.Pairwise (fun a b => evictKeyGE now a b = true)) :
    (insertDesc now x l).Pairwise (fun a b => evictKeyGE now a b = true) := by
  induction l with
  | nil => simp [insertDesc]
  | cons y ys ih =>
    rw [insertDesc]
    rcases List.pairwise_cons.mp hl with ⟨hy, hys⟩
    by_cases h : evictKeyGE now y x = true
    · rw [if_pos h]
      refine List.pairwise_cons.mpr ⟨?_, ih hys⟩
      intro z hz
      rcases (mem_insertDesc now x z ys).mp hz with rfl | hz
      · exact h
      · exact hy z hz
    · rw [if_neg h]
      have hxy : evictKeyGE now x y = true :=
        (evictKeyGE_total now y x).resolve_left h
      refine List.pairwise_cons.mpr ⟨?_, hl⟩
      intro z hz
      rcases List.mem_cons.mp hz with rfl | hz
      · exact hxy
      · exact evictKeyGE_trans now x y z hxy (hy z hz)

theorem pairwise_sortCandidatesDesc (now : ℚ) (l : List ConnectionEntry) :
    (sortCandidatesDesc now l).Pairwise (fun a b => evictKeyGE now a b = true) := by
  induction l with
  | nil => simp [sortCandidatesDesc]
  | cons x xs ih => exact pairwise_insertDesc now x _ ih

theorem sort_head_spec (now : ℚ) (l : List ConnectionEntry)
    (h₀ : ConnectionEntry) (t : List ConnectionEntry)
    (heq : sortCandidatesDesc now l = h₀ :: t) :
    h₀ ∈ l ∧ ∀ c ∈ l, evictKeyGE now h₀ c = true := by
  have hmem : h₀ ∈ l := by
    rw [← mem_sortCandidatesDesc now h₀ l, heq]
    simp
  refine ⟨hmem, fun c hc => ?_⟩
  have hcs : c ∈ h₀ :: t := by
    rw [← heq, mem_sortCandidatesDesc]
    exact hc
  rcases List.mem_cons.mp hcs with rfl | hcs
  · exact evictKeyGE_refl now c
  · have hp := pairwise_sortCandidatesDesc now l
    rw [heq] at hp
    exact (List.pairwise_cons.mp hp).1 c hcs


theorem addAfterBlacklist_len (p : ConnectionPool) (now : ℚ)
    (address : String) (di : DeviceInfo) (prio : ConnectionPriority)
    (hinv : p.connections.length ≤ MAX_CONCURRENT_CONNECTIONS) :
    (addAfterBlacklist p now address di prio).1.connections.length ≤
      MAX_CONCURRENT_CONNECTIONS := by
  unfold addAfterBlacklist
  by_cases hany : p.connections.any (fun e => e.address == address) = true
  · rw [if_pos hany]
    exact hinv
  · rw [if_neg hany]
    by_cases hcap : p.connections.length ≥ MAX_CONCURRENT_CONNECTIONS
    · rw [if_pos hcap]
      unfold evict_lowest_priority
      by_cases hnil : p.connections = []
      · rw [if_pos hnil]
        show p.connections.length ≤ MAX_CONCURRENT_CONNECTIONS
        exact hinv
      · rw [if_neg hnil]
        cases hsort : sortCandidatesDesc now (p.connections.filter
            (fun e => e.priority.value ≥ prio.value)) with
        | nil => exact hinv
        | cons victim rest =>
          show (List.eraseP (fun e => e.address == victim.address) p.connections ++
            [newEntry address di prio now]).length ≤ MAX_CONCURRENT_CONNECTIONS
          have hvmem : victim ∈ p.connections :=
            List.mem_of_mem_filter (sort_head_spec now _ _ _ hsort).1
          have hlen := @List.length_eraseP_add_one _
            (fun e => e.address == victim.address) p.connections victim hvmem
            (by simp)
          simp only [List.length_append, List.length_cons, List.length_nil]
          omega
    · rw [if_neg hcap]
      show (p.connections ++ [newEntry address di prio now]).length ≤
        MAX_CONCURRENT_CONNECTIONS
      simp only [List.length_append, List.length_cons, List.length_nil]
      omega

theorem addAfterBlacklist_spec (p : ConnectionPool) (now : ℚ)
    (address : String) (di : DeviceInfo) (prio : ConnectionPriority)
    (hfull : p.connections.length = MAX_CONCURRENT_CONNECTIONS)
    (hfresh : ∀ e ∈ p.connections, e.address ≠ address) :
    ((∀ e ∈ p.connections, e.priority.value < prio.value) →
      addAfterBlacklist p now address di prio = (p, false)) ∧
    ((∃ e ∈ p.connections, e.priority.value ≥ prio.value) →
      (addAfterBlacklist p now address di prio).2 = true ∧
      ∃ victim ∈ p.connections,
        victim.priority.value ≥ prio.value ∧
        (∀ c ∈ p.connections, c.priority.value ≥ prio.value →
          c.priority.value ≤ victim.priority.value ∧
          (c.priority.value = victim.priority.value →
            victim.health_score now ≤ c.health_score now)) ∧
        (addAfterBlacklist p now address di prio).1.connections =
          (p.connections.eraseP (fun e => e.address == victim.address)) ++
            [newEntry address di prio now] ∧
        (addAfterBlacklist p now address di prio).1.connections.length =
          MAX_CONCURRENT_CONNECTIONS) := by
  have hany : ¬ (p.connections.any (fun e => e.address == address) = true) := by
    simp only [List.any_eq_true, beq_iff_eq, not_exists]
    intro e
    rw [not_and]
    intro he
    exact hfresh e he
  have hcap : p.connections.length ≥ MAX_CONCURRENT_CONNECTIONS :=
    le_of_eq hfull.symm
  have hnil : p.connections ≠ [] := by
    intro h
    rw [h] at hfull
    simp [MAX_CONCURRENT_CONNECTIONS] at hfull
  constructor
  · intro hall
    have hcand : p.connections.filter (fun e => e.priority.value ≥ prio.value) = [] := by
      rw [List.filter_eq_nil_iff]
      intro a ha
      simp only [ge_iff_le, decide_eq_true_eq, not_le]
      exact hall a ha
    unfold addAfterBlacklist
    rw [if_neg hany, if_pos hcap]
    unfold evict_lowest_priority
    rw [if_neg hnil, hcand]
    rfl
  · rintro ⟨e, he, hpe⟩ 
    have hcand_ne : e ∈ p.connections.filter (fun e => e.priority.value ≥ prio.value) :=
      List.mem_filter.mpr ⟨he, by simpa using hpe⟩
    obtain ⟨victim, rest, hsort⟩ : ∃ v r, sortCandidatesDesc now
        (p.connections.filter (fun e => e.priority.value ≥ prio.value)) = v :: r := by
      cases hs : sortCandidatesDesc now (p.connections.filter
          (fun e => e.priority.value ≥ prio.value)) with
      | nil =>
        exfalso
        have := (mem_sortCandidatesDesc now e _).mpr hcand_ne
        rw [hs] at this
        simp at this
      | cons v r => exact ⟨v, r, rfl⟩
    obtain ⟨hvmem_f, hvge⟩ := sort_head_spec now _ _ _ hsort
    have hvmem : victim ∈ p.connections := List.mem_of_mem_filter hvmem_f
    have hvpred : victim.priority.value ≥ prio.value := by
      have := List.of_mem_filter hvmem_f
      simpa using this
    have hres : addAfterBlacklist p now address di prio =
        ({ p with connections :=
            (p.connections.eraseP (fun e => e.address == victim.address)) ++
              [newEntry address di prio now] }, true) := by
      unfold addAfterBlacklist
      rw [if_neg hany, if_pos hcap]
      unfold evict_lowest_priority
      rw [if_neg hnil, hsort]
    refine ⟨by rw [hres], victim, hvmem, hvpred, ?_, by rw [hres], ?_⟩
    · intro c hc hcge
      have hkey := hvge c (List.mem_filter.mpr ⟨hc, by simpa using hcge⟩)
      simp only [evictKeyGE, Bool.or_eq_true, Bool.and_eq_true,
        decide_eq_true_eq, beq_iff_eq] at hkey
      rcases hkey with hk | ⟨hk1, hk2⟩
      · exact ⟨le_of_lt hk, fun he2 => absurd he2 (by omega)⟩
      · exact ⟨le_of_eq hk1.symm, fun _ => hk2⟩
    · rw [hres]
      have hlen := @List.length_eraseP_add_one _
        (fun e => e.address == victim.address) p.connections victim hvmem
        (by simp)
      simp only [List.length_append, List.length_cons, List.length_nil]
      omega


/-! ### Matcher lemmas for the sanitizer patterns -/

namespace Sanitizer

theorem endsWithLit_cons (t : Tok) (rest : List Tok) (hne : rest ≠ [])
    (h : endsWithLit (t :: rest)) : endsWithLit rest := by
  obtain ⟨c, hc⟩ := h
  cases rest with
  | nil => exact absurd rfl hne
  | cons a l =>
    rw [List.getLast?_cons_cons] at hc
    exact ⟨c, hc⟩

theorem endsWithLit_of_cons_lit (c : Char) (rest : List Tok)
    (h : endsWithLit (.lit c :: rest)) : rest = [] ∨ endsWithLit rest := by
  cases hr : rest with
  | nil => exact Or.inl rfl
  | cons a l => exact Or.inr (hr ▸ endsWithLit_cons _ rest (by simp [hr]) h)

theorem endsWithLit_rest_ws (rest : List Tok) (h : endsWithLit (.wsStar :: rest)) :
    rest ≠ [] ∧ endsWithLit rest := by
  have hne : rest ≠ [] := by
    rintro rfl
    obtain ⟨c, hc⟩ := h
    simp [List.getLast?] at hc
  exact ⟨hne, endsWithLit_cons _ rest hne h⟩

theorem endsWithLit_rest_word (rest : List Tok)
    (h : endsWithLit (.wordPlus :: rest)) : rest ≠ [] ∧ endsWithLit rest := by
  have hne : rest ≠ [] := by
    rintro rfl
    obtain ⟨c, hc⟩ := h
    simp [List.getLast?] at hc
  exact ⟨hne, endsWithLit_cons _ rest hne h⟩

theorem matchToks_nil_none (toks : List Tok) (h : endsWithLit toks) :
    matchToks toks [] = none := by
  induction toks with
  | nil =>
    obtain ⟨c, hc⟩ := h
    simp [List.getLast?] at hc
  | cons t rest ih =>
    cases t with
    | lit c => rfl
    | wsStar =>
      obtain ⟨hne, hrest⟩ := endsWithLit_rest_ws rest h
      simp [matchToks, ih hrest]
    | wordPlus =>
      simp [matchToks]

theorem one_le_of_match (toks : List Tok) (h : endsWithLit toks) :
    ∀ (l : List Char) (n : Nat), matchToks toks l = some n → 1 ≤ n := by
  induction toks with
  | nil =>
    obtain ⟨c, hc⟩ := h
    simp [List.getLast?] at hc
  | cons t rest ih =>
    intro l n hm
    cases t with
    | lit c =>
      cases l with
      | nil => cases hm
      | cons x xs =>
        rw [matchToks] at hm
        by_cases hx : pyLower x = c
        · rw [if_pos hx] at hm
          obtain ⟨m, _, hn⟩ := Option.map_eq_some'.mp hm
          omega
        · rw [if_neg hx] at hm
          cases hm
    | wsStar =>
      obtain ⟨hne, hrest⟩ := endsWithLit_rest_ws rest h
      rw [matchToks] at hm
      obtain ⟨m, hm', hn⟩ := Option.map_eq_some'.mp hm
      have := ih hrest _ _ hm'
      omega
    | wordPlus =>
      rw [matchToks] at hm
      by_cases hk : (l.takeWhile isWordChar).length = 0
      · rw [if_pos hk] at hm
        cases hm
      · rw [if_neg hk] at hm
        obtain ⟨m, hm', hn⟩ := Option.map_eq_some'.mp hm
        omega

theorem matchToks_le_length (toks : List Tok) :
    ∀ (l : List Char) (n : Nat), matchToks toks l = some n → n ≤ l.length := by
  induction toks with
  | nil =>
    intro l n hm
    rw [matchToks] at hm
    cases hm
    simp
  | cons t rest ih =>
    intro l n hm
    cases t with
    | lit c =>
      cases l with
      | nil => cases hm
      | cons x xs =>
        rw [matchToks] at hm
        by_cases hx : pyLower x = c
        · rw [if_pos hx] at hm
          obtain ⟨m, hm', hn⟩ := Option.map_eq_some'.mp hm
          have := ih xs m hm'
          simp only [List.length_cons]
          omega
        · rw [if_neg hx] at hm
          cases hm
    | wsStar =>
      rw [matchToks] at hm
      obtain ⟨m, hm', hn⟩ := Option.map_eq_some'.mp hm
      have h1 := ih _ m hm'
      have h2 : (l.takeWhile isRegexSpace).length ≤ l.length :=
        (List.takeWhile_sublist _).length_le
      rw [List.length_drop] at h1
      omega
    | wordPlus =>
      rw [matchToks] at hm
      by_cases hk : (l.takeWhile isWordChar).length = 0
      · rw [if_pos hk] at hm
        cases hm
      · rw [if_neg hk] at hm
        obtain ⟨m, hm', hn⟩ := Option.map_eq_some'.mp hm
        have h1 := ih _ m hm'
        have h2 : (l.takeWhile isWordChar).length ≤ l.length :=
          (List.takeWhile_sublist _).length_le
        rw [List.length_drop] at h1
        omega

end Sanitizer


namespace Sanitizer

theorem take_length_takeWhile (p : Char → Bool) (l : List Char) :
    l.take (l.takeWhile p).length = l.takeWhile p := by
  induction l with
  | nil => rfl
  | cons c cs ih =>
    by_cases hc : p c
    · simp [List.takeWhile_cons, hc, ih]
    · simp [List.takeWhile_cons, hc]

theorem dropWhile_eq_drop (p : Char → Bool) (l : List Char) :
    l.dropWhile p = l.drop (l.takeWhile p).length := by
  induction l with
  | nil => rfl
  | cons c cs ih =>
    by_cases hc : p c
    · simp [List.dropWhile_cons, List.takeWhile_cons, hc, ih]
    · simp [List.dropWhile_cons, List.takeWhile_cons, hc]

theorem head_dropWhile_false (p : Char → Bool) (l : List Char) (d : Char)
    (h : (l.dropWhile p).head? = some d) : p d = false := by
  induction l with
  | nil => cases h
  | cons c cs ih =>
    rw [List.dropWhile_cons] at h
    by_cases hc : p c
    · rw [if_pos hc] at h
      exact ih h
    · rw [if_neg hc] at h
      injection h with h
      subst h
      exact Bool.eq_false_iff.mpr hc

theorem takeWhile_append_eq (p : Char → Bool) (W X : List Char)
    (hW : ∀ c ∈ W, p c = true) (hX : ∀ d, X.head? = some d → p d = false) :
    (W ++ X).takeWhile p = W := by
  induction W with
  | nil =>
    cases X with
    | nil => rfl
    | cons d ds =>
      simp only [List.nil_append, List.takeWhile_cons, hX d rfl]
      rfl
  | cons w ws ih =>
    simp only [List.cons_append, List.takeWhile_cons,
      hW w (List.mem_cons_self w ws)]
    rw [if_pos trivial, ih (fun c hc => hW c (List.mem_cons_of_mem w hc))]

/-- The verdict of the greedy matcher depends only on the consumed
prefix: once a match of length `n` is found, any continuation after
those `n` characters yields the same match. -/
theorem matchToks_take_append (toks : List Tok)
    (hE : toks = [] ∨ endsWithLit toks) :
    ∀ (l : List Char) (n : Nat), matchToks toks l = some n →
    ∀ r, matchToks toks (l.take n ++ r) = some n := by
  induction toks with
  | nil =>
    intro l n hm r
    rw [matchToks] at hm
    injection hm with h
    subst h
    rfl
  | cons t rest ih =>
    intro l n hm r
    cases t with
    | lit c =>
      have hrest : rest = [] ∨ endsWithLit rest :=
        endsWithLit_of_cons_lit c rest (hE.resolve_left (by simp))
      cases l with
      | nil => cases hm
      | cons x xs =>
        rw [matchToks] at hm
        by_cases hx : pyLower x = c
        · rw [if_pos hx] at hm
          obtain ⟨m, hm', hn⟩ := Option.map_eq_some'.mp hm
          subst hn
          rw [List.take_succ_cons, List.cons_append, matchToks, if_pos hx,
              ih hrest xs m hm' r]
          rfl
        · rw [if_neg hx] at hm
          cases hm
    | wsStar =>
      obtain ⟨hne, hEr⟩ := endsWithLit_rest_ws rest (hE.resolve_left (by simp))
      simp only [matchToks] at hm
      obtain ⟨m, hm', hn⟩ := Option.map_eq_some'.mp hm
      subst hn
      have hm1 : 1 ≤ m := one_le_of_match rest hEr _ _ hm'
      have hmlen : m ≤ (l.drop (l.takeWhile isRegexSpace).length).length :=
        matchToks_le_length rest _ _ hm'
      obtain ⟨d, ds, hD⟩ : ∃ d ds,
          l.drop (l.takeWhile isRegexSpace).length = d :: ds := by
        cases hD : l.drop (l.takeWhile isRegexSpace).length with
        | nil =>
          rw [hD] at hmlen
          simp at hmlen
          omega
        | cons d ds => exact ⟨d, ds, rfl⟩
      have hdnot : isRegexSpace d = false := by
        apply head_dropWhile_false isRegexSpace l d
        rw [dropWhile_eq_drop, hD]
        rfl
      obtain ⟨ts, hTs⟩ : ∃ ts,
          (l.drop (l.takeWhile isRegexSpace).length).take m = d :: ts := by
        rw [hD]
        cases m with
        | zero => omega
        | succ m' => exact ⟨_, rfl⟩
      have hsplit : l.take (m + (l.takeWhile isRegexSpace).length) =
          l.takeWhile isRegexSpace ++
          (l.drop (l.takeWhile isRegexSpace).length).take m := by
        rw [Nat.add_comm, List.take_add, take_length_takeWhile]
      rw [hsplit, List.append_assoc]
      simp only [matchToks]
      have hWX := takeWhile_append_eq isRegexSpace (l.takeWhile isRegexSpace)
        ((l.drop (l.takeWhile isRegexSpace).length).take m ++ r)
        (fun c hc => List.mem_takeWhile_imp hc)
        (by
          intro e he
          rw [hTs] at he
          injection he with he
          subst he
          exact hdnot)
      rw [hWX, List.drop_left, ih (Or.inr hEr) _ m hm' r]
      rfl
    | wordPlus =>
      obtain ⟨hne, hEr⟩ := endsWithLit_rest_word rest (hE.resolve_left (by simp))
      simp only [matchToks] at hm
      by_cases hk : (l.takeWhile isWordChar).length = 0
      · rw [if_pos hk] at hm
        cases hm
      · rw [if_neg hk] at hm
        obtain ⟨m, hm', hn⟩ := Option.map_eq_some'.mp hm
        subst hn
        have hm1 : 1 ≤ m := one_le_of_match rest hEr _ _ hm'
        have hmlen : m ≤ (l.drop (l.takeWhile isWordChar).length).length :=
          matchToks_le_length rest _ _ hm'
        obtain ⟨d, ds, hD⟩ : ∃ d ds,
            l.drop (l.takeWhile isWordChar).length = d :: ds := by
          cases hD : l.drop (l.takeWhile isWordChar).length with
          | nil =>
            rw [hD] at hmlen
            simp at hmlen
            omega
          | cons d ds => exact ⟨d, ds, rfl⟩
        have hdnot : isWordChar d = false := by
          apply head_dropWhile_false isWordChar l d
          rw [dropWhile_eq_drop, hD]
          rfl
        obtain ⟨ts, hTs⟩ : ∃ ts,
            (l.drop (l.takeWhile isWordChar).length).take m = d :: ts := by
          rw [hD]
          cases m with
          | zero => omega
          | succ m' => exact ⟨_, rfl⟩
        have hsplit : l.take (m + (l.takeWhile isWordChar).length) =
            l.takeWhile isWordChar ++
            (l.drop (l.takeWhile isWordChar).length).take m := by
          rw [Nat.add_comm, List.take_add, take_length_takeWhile]
        rw [hsplit, List.append_assoc]
        simp only [matchToks]
        have hWX := takeWhile_append_eq isWordChar (l.takeWhile isWordChar)
          ((l.drop (l.takeWhile isWordChar).length).take m ++ r)
          (fun c hc => List.mem_takeWhile_imp hc)
          (by
            intro e he
            rw [hTs] at he
            injection he with he
            subst he
            exact hdnot)
        rw [hWX, if_neg hk, List.drop_left, ih (Or.inr hEr) _ m hm' r]
        rfl

end Sanitizer


namespace Sanitizer

/-- No character consumed by a successful match is a square bracket,
provided no literal of the pattern is one. -/
theorem match_take_not_bracket (toks : List Tok) (hL : litsOK toks) :
    ∀ (l : List Char) (n : Nat), matchToks toks l = some n →
    ∀ x ∈ l.take n, x ≠ '[' ∧ x ≠ ']' := by
  induction toks with
  | nil =>
    intro l n hm x hx
    rw [matchToks] at hm
    injection hm with h
    subst h
    exact absurd hx (List.not_mem_nil x)
  | cons t rest ih =>
    have hLr : litsOK rest := fun u hu c hc => hL u (List.mem_cons_of_mem _ hu) c hc
    intro l n hm x hx
    cases t with
    | lit c =>
      cases l with
      | nil => cases hm
      | cons y ys =>
        rw [matchToks] at hm
        by_cases hy : pyLower y = c
        · rw [if_pos hy] at hm
          obtain ⟨m, hm', hn⟩ := Option.map_eq_some'.mp hm
          subst hn
          rw [List.take_succ_cons] at hx
          rcases List.mem_cons.mp hx with rfl | hx'
          · obtain ⟨h1, h2⟩ := hL (.lit c) (List.mem_cons_self _ _) c rfl
            constructor
            · intro hxx
              subst hxx
              exact h1 (hy.symm.trans (show pyLower '[' = '[' from by decide))
            · intro hxx
              subst hxx
              exact h2 (hy.symm.trans (show pyLower ']' = ']' from by decide))
          · exact ih hLr ys m hm' x hx'
        · rw [if_neg hy] at hm
          cases hm
    | wsStar =>
      simp only [matchToks] at hm
      obtain ⟨m, hm', hn⟩ := Option.map_eq_some'.mp hm
      subst hn
      rw [Nat.add_comm, List.take_add, take_length_takeWhile] at hx
      rcases List.mem_append.mp hx with hx1 | hx2
      · have hsp := List.mem_takeWhile_imp hx1
        constructor <;> intro hxx <;> subst hxx <;> exact absurd hsp (by decide)
      · exact ih hLr _ m hm' x hx2
    | wordPlus =>
      simp only [matchToks] at hm
      by_cases hk : (l.takeWhile isWordChar).length = 0
      · rw [if_pos hk] at hm
        cases hm
      · rw [if_neg hk] at hm
        obtain ⟨m, hm', hn⟩ := Option.map_eq_some'.mp hm
        subst hn
        rw [Nat.add_comm, List.take_add, take_length_takeWhile] at hx
        rcases List.mem_append.mp hx with hx1 | hx2
        · have hsp := List.mem_takeWhile_imp hx1
          constructor <;> intro hxx <;> subst hxx <;> exact absurd hsp (by decide)
        · exact ih hLr _ m hm' x hx2

theorem NM_drop (toks : List Tok) (l : List Char) (h : NM toks l) (j : Nat) :
    NM toks (l.drop j) := by
  intro i
  rw [List.drop_drop]
  exact h (j + i)

theorem NM_take (toks : List Tok) (hE : endsWithLit toks) (l : List Char)
    (h : NM toks l) (j : Nat) : NM toks (l.take j) := by
  intro i
  cases hm : matchToks toks ((l.take j).drop i) with
  | none => rfl
  | some n =>
    exfalso
    rw [List.drop_take] at hm
    have h1 := matchToks_le_length toks _ _ hm
    rw [List.length_take] at h1
    have h2 := matchToks_take_append toks (Or.inr hE) _ _ hm ((l.drop i).drop n)
    rw [List.take_take] at h2
    have hmin : min n (j - i) = n := by omega
    rw [hmin, List.take_append_drop] at h2
    rw [h i] at h2
    cases h2

theorem NM_of_short (toks : List Tok) (hE : endsWithLit toks) (l : List Char)
    (h : ∀ i < l.length, matchToks toks (l.drop i) = none) : NM toks l := by
  intro i
  by_cases hi : i < l.length
  · exact h i hi
  · rw [List.drop_eq_nil_of_le (by omega)]
    exact matchToks_nil_none toks hE

/-- A pattern opening with a literal cannot match anywhere in a string
missing that (case-folded) character. -/
theorem NM_of_head_lit (c : Char) (rest : List Tok) (l : List Char)
    (h : ∀ x ∈ l, ¬ pyLower x = c) : NM (.lit c :: rest) l := by
  intro i
  cases hd : l.drop i with
  | nil => rfl
  | cons y ys =>
    have hy : y ∈ l := List.mem_of_mem_drop (hd ▸ List.mem_cons_self y ys)
    rw [matchToks, if_neg (h y hy)]

/-- No pattern matches anywhere inside the `[blocked]` replacement
text, and a match of the combined string starting inside it or
crossing its closing bracket is impossible; so prefixing `[blocked]`
preserves the absence of matches. -/
theorem NM_append_blocked (q : List Tok) (hE : endsWithLit q) (hL : litsOK q)
    (hB : NM q blockedChars) (b : List Char) (h : NM q b) :
    NM q (blockedChars ++ b) := by
  intro i
  by_cases hi : 9 ≤ i
  · have hdr : (blockedChars ++ b).drop i = b.drop (i - 9) := by
      have h9 : i = blockedChars.length + (i - 9) := by
        simp only [blockedChars, List.length_cons, List.length_nil]
        omega
      nth_rewrite 1 [h9]
      rw [List.drop_append]
    rw [hdr]
    exact h (i - 9)
  · cases hm : matchToks q ((blockedChars ++ b).drop i) with
    | none => rfl
    | some n =>
      exfalso
      have hn1 : 1 ≤ n := one_le_of_match q hE _ _ hm
      by_cases hcross : i + n ≤ 9
      · have htk : ((blockedChars ++ b).drop i).take n =
            (blockedChars.drop i).take n := by
          rw [List.drop_append_of_le_length (by simp [blockedChars]; omega),
            List.take_append_of_le_length]
          rw [List.length_drop]
          simp only [blockedChars, List.length_cons, List.length_nil]
          omega
        have h2 := matchToks_take_append q (Or.inr hE) _ _ hm
          ((blockedChars.drop i).drop n)
        rw [htk, List.take_append_drop] at h2
        rw [hB i] at h2
        cases h2
      · have h8 : ((blockedChars ++ b).drop i)[8 - i]? = some ']' := by
          rw [List.getElem?_drop]
          rw [show i + (8 - i) = 8 from by omega]
          rw [List.getElem?_append, if_pos (show (8:Nat) < blockedChars.length from by decide)]
          rfl
        have hmem : ']' ∈ ((blockedChars ++ b).drop i).take n := by
          apply List.getElem?_mem
          show (((blockedChars ++ b).drop i).take n)[8 - i]? = _
          rw [List.getElem?_take, if_pos (show 8 - i < n from by omega), h8]
        exact (match_take_not_bracket q hL _ _ hm _ hmem).2 rfl

end Sanitizer


namespace Sanitizer

theorem subToksFuel_cons_some (toks : List Tok) (f : Nat) (c : Char)
    (cs : List Char) (n : Nat) (hm : matchToks toks (c :: cs) = some (n + 1)) :
    subToksFuel toks (f + 1) (c :: cs) =
      blockedChars ++ subToksFuel toks f (cs.drop n) := by
  rw [subToksFuel, hm]
  rfl

theorem subToksFuel_cons_zero (toks : List Tok) (f : Nat) (c : Char)
    (cs : List Char) (hm : matchToks toks (c :: cs) = some 0) :
    subToksFuel toks (f + 1) (c :: cs) = c :: subToksFuel toks f cs := by
  rw [subToksFuel, hm]

theorem subToksFuel_cons_none (toks : List Tok) (f : Nat) (c : Char)
    (cs : List Char) (hm : matchToks toks (c :: cs) = none) :
    subToksFuel toks (f + 1) (c :: cs) = c :: subToksFuel toks f cs := by
  rw [subToksFuel, hm]

/-- The fuel of the scanner is irrelevant as long as it covers the
input length (each step consumes at least one character). -/
theorem subToksFuel_irrel (toks : List Tok) :
    ∀ (f₁ f₂ : Nat) (l : List Char), l.length ≤ f₁ → l.length ≤ f₂ →
    subToksFuel toks f₁ l = subToksFuel toks f₂ l := by
  intro f₁
  induction f₁ with
  | zero =>
    intro f₂ l h1 h2
    have hl : l = [] := List.eq_nil_of_length_eq_zero (by omega)
    subst hl
    cases f₂ <;> rfl
  | succ f ih =>
    intro f₂ l h1 h2
    cases l with
    | nil => cases f₂ <;> rfl
    | cons c cs =>
      simp only [List.length_cons] at h1 h2
      cases f₂ with
      | zero => omega
      | succ g =>
        cases hm : matchToks toks (c :: cs) with
        | none =>
          rw [subToksFuel_cons_none toks f c cs hm,
            subToksFuel_cons_none toks g c cs hm,
            ih g cs (by omega) (by omega)]
        | some n =>
          cases n with
          | zero =>
            rw [subToksFuel_cons_zero toks f c cs hm,
              subToksFuel_cons_zero toks g c cs hm,
              ih g cs (by omega) (by omega)]
          | succ m =>
            rw [subToksFuel_cons_some toks f c cs m hm,
              subToksFuel_cons_some toks g c cs m hm,
              ih g (cs.drop m) (by rw [List.length_drop]; omega)
                (by rw [List.length_drop]; omega)]

theorem subToks_nil (toks : List Tok) : subToks toks [] = [] := rfl

theorem subToks_cons_some (toks : List Tok) (c : Char) (cs : List Char)
    (n : Nat) (hm : matchToks toks (c :: cs) = some (n + 1)) :
    subToks toks (c :: cs) = blockedChars ++ subToks toks (cs.drop n) := by
  show subToksFuel toks (cs.length + 1) (c :: cs) = _
  rw [subToksFuel_cons_some toks cs.length c cs n hm]
  congr 1
  exact subToksFuel_irrel toks cs.length (cs.drop n).length (cs.drop n)
    (by rw [List.length_drop]; omega) le_rfl

theorem subToks_cons_none (toks : List Tok) (c : Char) (cs : List Char)
    (hm : matchToks toks (c :: cs) = none) :
    subToks toks (c :: cs) = c :: subToks toks cs := by
  show subToksFuel toks (cs.length + 1) (c :: cs) = _
  rw [subToksFuel_cons_none toks cs.length c cs hm]
  rfl

/-- The scanner's output agrees with its input up to the first
replacement, where a `[` of `[blocked]` appears. -/
theorem subToks_agree (toks : List Tok) (hE : endsWithLit toks) (l : List Char) :
    subToks toks l = l ∨
    ∃ k, (subToks toks l).take k = l.take k ∧ (subToks toks l)[k]? = some '[' := by
  suffices H : ∀ N l, l.length ≤ N → subToks toks l = l ∨
      ∃ k, (subToks toks l).take k = l.take k ∧
        (subToks toks l)[k]? = some '[' from H l.length l le_rfl
  intro N
  induction N with
  | zero =>
    intro l hl
    have : l = [] := List.eq_nil_of_length_eq_zero (by omega)
    subst this
    exact Or.inl rfl
  | succ N ih =>
    intro l hl
    cases l with
    | nil => exact Or.inl rfl
    | cons c cs =>
      simp only [List.length_cons] at hl
      cases hm : matchToks toks (c :: cs) with
      | none =>
        rw [subToks_cons_none toks c cs hm]
        rcases ih cs (by omega) with h | ⟨k, h1, h2⟩
        · exact Or.inl (by rw [h])
        · refine Or.inr ⟨k + 1, ?_, ?_⟩
          · rw [List.take_succ_cons, List.take_succ_cons, h1]
          · rw [List.getElem?_cons_succ]
            exact h2
      | some n =>
        have hn1 : 1 ≤ n := one_le_of_match toks hE _ _ hm
        obtain ⟨m, rfl⟩ : ∃ m, n = m + 1 := ⟨n - 1, by omega⟩
        refine Or.inr ⟨0, rfl, ?_⟩
        rw [subToks_cons_some toks c cs m hm]
        rfl

/-- If a pattern (itself or a pattern known absent from the input)
has no match anywhere in the input, it has none in the scanner's
output either. -/
theorem NM_subToks (toks q : List Tok) (hEt : endsWithLit toks)
    (hEq : endsWithLit q) (hLq : litsOK q) (hBq : NM q blockedChars) :
    ∀ l, (q = toks ∨ NM q l) → NM q (subToks toks l) := by
  suffices H : ∀ N l, l.length ≤ N → (q = toks ∨ NM q l) →
      NM q (subToks toks l) from fun l => H l.length l le_rfl
  intro N
  induction N with
  | zero =>
    intro l hl _ i
    have : l = [] := List.eq_nil_of_length_eq_zero (by omega)
    subst this
    rw [subToks_nil, List.drop_nil]
    exact matchToks_nil_none q hEq
  | succ N ih =>
    intro l hl hq
    cases l with
    | nil =>
      intro i
      rw [subToks_nil, List.drop_nil]
      exact matchToks_nil_none q hEq
    | cons c cs =>
      simp only [List.length_cons] at hl
      cases hm : matchToks toks (c :: cs) with
      | some n =>
        have hn1 : 1 ≤ n := one_le_of_match toks hEt _ _ hm
        obtain ⟨m, rfl⟩ : ∃ m, n = m + 1 := ⟨n - 1, by omega⟩
        rw [subToks_cons_some toks c cs m hm]
        apply NM_append_blocked q hEq hLq hBq
        apply ih (cs.drop m) (by rw [List.length_drop]; omega)
        rcases hq with rfl | hN
        · exact Or.inl rfl
        · exact Or.inr (show NM q ((c :: cs).drop (m + 1)) from
            NM_drop q _ hN (m + 1))
      | none =>
        rw [subToks_cons_none toks c cs hm]
        have hS : NM q (subToks toks cs) := by
          apply ih cs (by omega)
          rcases hq with rfl | hN
          · exact Or.inl rfl
          · exact Or.inr (show NM q ((c :: cs).drop 1) from NM_drop q _ hN 1)
        have h0 : matchToks q (c :: cs) = none := by
          rcases hq with rfl | hN
          · exact hm
          · have := hN 0
            rwa [List.drop_zero] at this
        intro i
        cases i with
        | succ i => exact hS i
        | zero =>
          rw [List.drop_zero]
          cases hm0 : matchToks q (c :: subToks toks cs) with
          | none => rfl
          | some n =>
            exfalso
            rcases subToks_agree toks hEt cs with hA | ⟨k, hA1, hA2⟩
            · rw [hA, h0] at hm0
              cases hm0
            · by_cases hnk : n ≤ k + 1
              · have hn1 : 1 ≤ n := one_le_of_match q hEq _ _ hm0
                obtain ⟨p, rfl⟩ : ∃ p, n = p + 1 := ⟨n - 1, by omega⟩
                have htake : (c :: subToks toks cs).take (p + 1) =
                    (c :: cs).take (p + 1) := by
                  rw [List.take_succ_cons, List.take_succ_cons]
                  congr 1
                  calc (subToks toks cs).take p
                      = ((subToks toks cs).take k).take p := by
                        rw [List.take_take, Nat.min_eq_left (by omega)]
                    _ = (cs.take k).take p := by rw [hA1]
                    _ = cs.take p := by
                        rw [List.take_take, Nat.min_eq_left (by omega)]
                have h2 := matchToks_take_append q (Or.inr hEq) _ _ hm0
                  ((c :: cs).drop (p + 1))
                rw [htake, List.take_append_drop] at h2
                rw [h0] at h2
                cases h2
              · have hbr : '[' ∈ (c :: subToks toks cs).take n := by
                  apply List.getElem?_mem
                  show ((c :: subToks toks cs).take n)[k + 1]? = _
                  rw [List.getElem?_take, if_pos (by omega),
                    List.getElem?_cons_succ, hA2]
                exact (match_take_not_bracket q hLq _ _ hm0 _ hbr).1 rfl

theorem subToks_eq_self_of_NM (toks : List Tok) (l : List Char)
    (h : NM toks l) : subToks toks l = l := by
  induction l with
  | nil => rfl
  | cons c cs ih =>
    have h0 : matchToks toks (c :: cs) = none := by
      have := h 0
      rwa [List.drop_zero] at this
    rw [subToks_cons_none toks c cs h0,
      ih (fun i => show matchToks toks ((c :: cs).drop (i + 1)) = none from
        h (i + 1))]

theorem mem_subToks (toks : List Tok) (hE : endsWithLit toks) :
    ∀ (l : List Char) (x : Char), x ∈ subToks toks l →
    x ∈ l ∨ x ∈ blockedChars := by
  suffices H : ∀ N l, l.length ≤ N → ∀ x, x ∈ subToks toks l →
      x ∈ l ∨ x ∈ blockedChars from fun l => H l.length l le_rfl
  intro N
  induction N with
  | zero =>
    intro l hl x hx
    have : l = [] := List.eq_nil_of_length_eq_zero (by omega)
    subst this
    rw [subToks_nil] at hx
    exact absurd hx (List.not_mem_nil x)
  | succ N ih =>
    intro l hl x hx
    cases l with
    | nil =>
      rw [subToks_nil] at hx
      exact absurd hx (List.not_mem_nil x)
    | cons c cs =>
      simp only [List.length_cons] at hl
      cases hm : matchToks toks (c :: cs) with
      | some n =>
        have hn1 : 1 ≤ n := one_le_of_match toks hE _ _ hm
        obtain ⟨m, rfl⟩ : ∃ m, n = m + 1 := ⟨n - 1, by omega⟩
        rw [subToks_cons_some toks c cs m hm] at hx
        rcases List.mem_append.mp hx with hb | hs
        · exact Or.inr hb
        · rcases ih (cs.drop m) (by rw [List.length_drop]; omega) x hs with
            hc | hb
          · exact Or.inl (List.mem_cons_of_mem c (List.mem_of_mem_drop hc))
          · exact Or.inr hb
      | none =>
        rw [subToks_cons_none toks c cs hm] at hx
        rcases List.mem_cons.mp hx with rfl | hs
        · exact Or.inl (List.mem_cons_self _ _)
        · rcases ih cs (by omega) x hs with hc | hb
          · exact Or.inl (List.mem_cons_of_mem c hc)
          · exact Or.inr hb

theorem head_subToks (toks : List Tok) (hE : endsWithLit toks) (l : List Char) :
    (subToks toks l).head? = l.head? ∨ (subToks toks l).head? = some '[' := by
  cases l with
  | nil => exact Or.inl rfl
  | cons c cs =>
    cases hm : matchToks toks (c :: cs) with
    | none =>
      rw [subToks_cons_none toks c cs hm]
      exact Or.inl rfl
    | some n =>
      have hn1 : 1 ≤ n := one_le_of_match toks hE _ _ hm
      obtain ⟨m, rfl⟩ : ∃ m, n = m + 1 := ⟨n - 1, by omega⟩
      rw [subToks_cons_some toks c cs m hm]
      exact Or.inr rfl

theorem noDoubleB_tail (c : Char) (cs : List Char)
    (h : noDoubleB (c :: cs) = true) : noDoubleB cs = true := by
  cases cs with
  | nil => rfl
  | cons b bs =>
    have : noDoubleB (c :: b :: bs) =
        (!(c = ' ' && b = ' ') && noDoubleB (b :: bs)) := rfl
    rw [this, Bool.and_eq_true] at h
    exact h.2

theorem noDoubleB_drop (l : List Char) (h : noDoubleB l = true) (n : Nat) :
    noDoubleB (l.drop n) = true := by
  induction n generalizing l with
  | zero => rwa [List.drop_zero]
  | succ n ih =>
    cases l with
    | nil => rfl
    | cons c cs => exact ih cs (noDoubleB_tail c cs h)

theorem noDoubleB_cons_of_head (x : Char) (B : List Char)
    (hB : noDoubleB B = true)
    (hcond : ∀ b, B.head? = some b → (x = ' ' && b = ' ') = false) :
    noDoubleB (x :: B) = true := by
  cases B with
  | nil => rfl
  | cons b bs =>
    show (!(x = ' ' && b = ' ') && noDoubleB (b :: bs)) = true
    rw [hB, hcond b rfl]
    rfl

theorem noDoubleB_blocked_append (B : List Char) (h : noDoubleB B = true) :
    noDoubleB (blockedChars ++ B) = true := by
  have h9 : ∀ (x : Char) (B' : List Char), x ≠ ' ' → noDoubleB B' = true →
      noDoubleB (x :: B') = true := by
    intro x B' hx hB
    apply noDoubleB_cons_of_head x B' hB
    intro b _
    simp [hx]
  show noDoubleB
    ('[' :: 'b' :: 'l' :: 'o' :: 'c' :: 'k' :: 'e' :: 'd' :: ']' :: B) = true
  apply h9 _ _ (by decide)
  apply h9 _ _ (by decide)
  apply h9 _ _ (by decide)
  apply h9 _ _ (by decide)
  apply h9 _ _ (by decide)
  apply h9 _ _ (by decide)
  apply h9 _ _ (by decide)
  apply h9 _ _ (by decide)
  apply h9 _ _ (by decide)
  exact h

theorem noDoubleB_subToks (toks : List Tok) (hE : endsWithLit toks) :
    ∀ l, noDoubleB l = true → noDoubleB (subToks toks l) = true := by
  suffices H : ∀ N l, l.length ≤ N → noDoubleB l = true →
      noDoubleB (subToks toks l) = true from fun l => H l.length l le_rfl
  intro N
  induction N with
  | zero =>
    intro l hl _
    have : l = [] := List.eq_nil_of_length_eq_zero (by omega)
    subst this
    rfl
  | succ N ih =>
    intro l hl hd
    cases l with
    | nil => rfl
    | cons c cs =>
      simp only [List.length_cons] at hl
      cases hm : matchToks toks (c :: cs) with
      | some n =>
        have hn1 : 1 ≤ n := one_le_of_match toks hE _ _ hm
        obtain ⟨m, rfl⟩ : ∃ m, n = m + 1 := ⟨n - 1, by omega⟩
        rw [subToks_cons_some toks c cs m hm]
        apply noDoubleB_blocked_append
        exact ih (cs.drop m) (by rw [List.length_drop]; omega)
          (noDoubleB_drop cs (noDoubleB_tail c cs hd) m)
      | none =>
        rw [subToks_cons_none toks c cs hm]
        apply noDoubleB_cons_of_head c _
          (ih cs (by omega) (noDoubleB_tail c cs hd))
        intro b hb
        rcases head_subToks toks hE cs with hh | hh
        · rw [hb] at hh
          cases cs with
          | nil => cases hh
          | cons d ds =>
            injection hh.symm with hdb
            subst hdb
            have heq : noDoubleB (c :: d :: ds) =
                (!(c = ' ' && d = ' ') && noDoubleB (d :: ds)) := rfl
            rw [heq, Bool.and_eq_true] at hd
            have h2 := hd.1
            rwa [Bool.not_eq_true'] at h2
        · rw [hb] at hh
          injection hh with hbb
          subst hbb
          rw [show decide (('[' : Char) = ' ') = false from by decide,
            Bool.and_false]

end Sanitizer


namespace Sanitizer

theorem litsOK_of_check (toks : List Tok)
    (h : ∀ t ∈ toks, (match t with
      | Tok.lit c => decide (c ≠ '[' ∧ c ≠ ']')
      | _ => true) = true) : litsOK toks := by
  intro t ht c hc
  subst hc
  exact of_decide_eq_true (h _ ht)

theorem endsWithLit_patScript : endsWithLit patScript := ⟨'t', rfl⟩

theorem endsWithLit_patJavascript : endsWithLit patJavascript := ⟨':', rfl⟩

theorem endsWithLit_patOnEvent : endsWithLit patOnEvent := ⟨'=', rfl⟩

theorem endsWithLit_patIframe : endsWithLit patIframe := ⟨'e', rfl⟩

theorem endsWithLit_patObject : endsWithLit patObject := ⟨'t', rfl⟩

theorem endsWithLit_patEmbed : endsWithLit patEmbed := ⟨'d', rfl⟩

theorem endsWithLit_patForm : endsWithLit patForm := ⟨'m', rfl⟩

theorem endsWithLit_patData : endsWithLit patData := ⟨':', rfl⟩

theorem litsOK_patJavascript : litsOK patJavascript :=
  litsOK_of_check _ (by decide)

theorem litsOK_patOnEvent : litsOK patOnEvent :=
  litsOK_of_check _ (by decide)

theorem litsOK_patData : litsOK patData :=
  litsOK_of_check _ (by decide)

theorem NM_blocked_patJavascript : NM patJavascript blockedChars :=
  NM_of_short _ endsWithLit_patJavascript _ (by decide)

theorem NM_blocked_patOnEvent : NM patOnEvent blockedChars :=
  NM_of_short _ endsWithLit_patOnEvent _ (by decide)

theorem NM_blocked_patData : NM patData blockedChars :=
  NM_of_short _ endsWithLit_patData _ (by decide)

theorem filterDangerous_eq (l : List Char) :
    filterDangerous l =
      subToks patData (subToks patForm (subToks patEmbed (subToks patObject
        (subToks patIframe (subToks patOnEvent (subToks patJavascript
          (subToks patScript l))))))) := by
  simp only [filterDangerous, DANGEROUS_PATTERNS, List.foldl_cons,
    List.foldl_nil]

/-- After the pattern-filtering fold, `javascript\s*:` matches
nowhere: its own substitution pass removed every occurrence and the
later passes cannot reintroduce one. -/
theorem NM_fd_js (l : List Char) : NM patJavascript (filterDangerous l) := by
  rw [filterDangerous_eq]
  apply NM_subToks patData patJavascript endsWithLit_patData
    endsWithLit_patJavascript litsOK_patJavascript NM_blocked_patJavascript
  refine Or.inr ?_
  apply NM_subToks patForm patJavascript endsWithLit_patForm
    endsWithLit_patJavascript litsOK_patJavascript NM_blocked_patJavascript
  refine Or.inr ?_
  apply NM_subToks patEmbed patJavascript endsWithLit_patEmbed
    endsWithLit_patJavascript litsOK_patJavascript NM_blocked_patJavascript
  refine Or.inr ?_
  apply NM_subToks patObject patJavascript endsWithLit_patObject
    endsWithLit_patJavascript litsOK_patJavascript NM_blocked_patJavascript
  refine Or.inr ?_
  apply NM_subToks patIframe patJavascript endsWithLit_patIframe
    endsWithLit_patJavascript litsOK_patJavascript NM_blocked_patJavascript
  refine Or.inr ?_
  apply NM_subToks patOnEvent patJavascript endsWithLit_patOnEvent
    endsWithLit_patJavascript litsOK_patJavascript NM_blocked_patJavascript
  refine Or.inr ?_
  apply NM_subToks patJavascript patJavascript endsWithLit_patJavascript
    endsWithLit_patJavascript litsOK_patJavascript NM_blocked_patJavascript
  exact Or.inl rfl

/-- After the pattern-filtering fold, `on\w+\s*=` matches nowhere. -/
theorem NM_fd_on (l : List Char) : NM patOnEvent (filterDangerous l) := by
  rw [filterDangerous_eq]
  apply NM_subToks patData patOnEvent endsWithLit_patData
    endsWithLit_patOnEvent litsOK_patOnEvent NM_blocked_patOnEvent
  refine Or.inr ?_
  apply NM_subToks patForm patOnEvent endsWithLit_patForm
    endsWithLit_patOnEvent litsOK_patOnEvent NM_blocked_patOnEvent
  refine Or.inr ?_
  apply NM_subToks patEmbed patOnEvent endsWithLit_patEmbed
    endsWithLit_patOnEvent litsOK_patOnEvent NM_blocked_patOnEvent
  refine Or.inr ?_
  apply NM_subToks patObject patOnEvent endsWithLit_patObject
    endsWithLit_patOnEvent litsOK_patOnEvent NM_blocked_patOnEvent
  refine Or.inr ?_
  apply NM_subToks patIframe patOnEvent endsWithLit_patIframe
    endsWithLit_patOnEvent litsOK_patOnEvent NM_blocked_patOnEvent
  refine Or.inr ?_
  apply NM_subToks patOnEvent patOnEvent endsWithLit_patOnEvent
    endsWithLit_patOnEvent litsOK_patOnEvent NM_blocked_patOnEvent
  exact Or.inl rfl

/-- After the pattern-filtering fold, `data\s*:` matches nowhere. -/
theorem NM_fd_data (l : List Char) : NM patData (filterDangerous l) := by
  rw [filterDangerous_eq]
  apply NM_subToks patData patData endsWithLit_patData
    endsWithLit_patData litsOK_patData NM_blocked_patData
  exact Or.inl rfl

theorem mem_filterDangerous (l : List Char) (x : Char)
    (hx : x ∈ filterDangerous l) : x ∈ l ∨ x ∈ blockedChars := by
  rw [filterDangerous_eq] at hx
  rcases mem_subToks patData endsWithLit_patData _ x hx with hx | hb
  · rcases mem_subToks patForm endsWithLit_patForm _ x hx with hx | hb
    · rcases mem_subToks patEmbed endsWithLit_patEmbed _ x hx with hx | hb
      · rcases mem_subToks patObject endsWithLit_patObject _ x hx with hx | hb
        · rcases mem_subToks patIframe endsWithLit_patIframe _ x hx with
            hx | hb
          · rcases mem_subToks patOnEvent endsWithLit_patOnEvent _ x hx with
              hx | hb
            · rcases mem_subToks patJavascript endsWithLit_patJavascript _ x
                hx with hx | hb
              · rcases mem_subToks patScript endsWithLit_patScript _ x hx with
                  hx | hb
                · exact Or.inl hx
                · exact Or.inr hb
              · exact Or.inr hb
            · exact Or.inr hb
          · exact Or.inr hb
        · exact Or.inr hb
      · exact Or.inr hb
    · exact Or.inr hb
  · exact Or.inr hb

theorem noDoubleB_filterDangerous (l : List Char) (h : noDoubleB l = true) :
    noDoubleB (filterDangerous l) = true := by
  rw [filterDangerous_eq]
  apply noDoubleB_subToks patData endsWithLit_patData
  apply noDoubleB_subToks patForm endsWithLit_patForm
  apply noDoubleB_subToks patEmbed endsWithLit_patEmbed
  apply noDoubleB_subToks patObject endsWithLit_patObject
  apply noDoubleB_subToks patIframe endsWithLit_patIframe
  apply noDoubleB_subToks patOnEvent endsWithLit_patOnEvent
  apply noDoubleB_subToks patJavascript endsWithLit_patJavascript
  exact noDoubleB_subToks patScript endsWithLit_patScript l h

/-- On a string with no match of any pattern, the filtering pass is
the identity. -/
theorem filterDangerous_eq_self (l : List Char)
    (h : ∀ q ∈ DANGEROUS_PATTERNS, NM q l) : filterDangerous l = l := by
  rw [filterDangerous_eq]
  rw [subToks_eq_self_of_NM patScript l (h patScript (by simp [DANGEROUS_PATTERNS]))]
  rw [subToks_eq_self_of_NM patJavascript l (h patJavascript (by simp [DANGEROUS_PATTERNS]))]
  rw [subToks_eq_self_of_NM patOnEvent l (h patOnEvent (by simp [DANGEROUS_PATTERNS]))]
  rw [subToks_eq_self_of_NM patIframe l (h patIframe (by simp [DANGEROUS_PATTERNS]))]
  rw [subToks_eq_self_of_NM patObject l (h patObject (by simp [DANGEROUS_PATTERNS]))]
  rw [subToks_eq_self_of_NM patEmbed l (h patEmbed (by simp [DANGEROUS_PATTERNS]))]
  rw [subToks_eq_self_of_NM patForm l (h patForm (by simp [DANGEROUS_PATTERNS]))]
  rw [subToks_eq_self_of_NM patData l (h patData (by simp [DANGEROUS_PATTERNS]))]

end Sanitizer


namespace Sanitizer

theorem mem_collapseSpaces (l : List Char) (x : Char)
    (hx : x ∈ collapseSpaces l) : x ∈ l := by
  induction l with
  | nil => exact absurd hx (List.not_mem_nil x)
  | cons c cs ih =>
    cases cs with
    | nil => exact hx
    | cons d ds =>
      by_cases hcd : (c = ' ' && d = ' ') = true
      · rw [collapseSpaces, if_pos hcd] at hx
        exact List.mem_cons_of_mem c (ih hx)
      · rw [collapseSpaces, if_neg hcd] at hx
        rcases List.mem_cons.mp hx with rfl | hx'
        · exact List.mem_cons_self _ _
        · exact List.mem_cons_of_mem c (ih hx')

theorem collapse_head (c : Char) (cs : List Char) :
    (collapseSpaces (c :: cs)).head? = some c := by
  induction cs generalizing c with
  | nil => rfl
  | cons d ds ih =>
    by_cases hcd : (c = ' ' && d = ' ') = true
    · rw [collapseSpaces, if_pos hcd, ih d]
      rw [Bool.and_eq_true, decide_eq_true_eq, decide_eq_true_eq] at hcd
      rw [hcd.1, hcd.2]
    · rw [collapseSpaces, if_neg hcd]
      rfl

theorem noDouble_collapse (l : List Char) :
    noDoubleB (collapseSpaces l) = true := by
  induction l with
  | nil => rfl
  | cons c cs ih =>
    cases cs with
    | nil => rfl
    | cons d ds =>
      by_cases hcd : (c = ' ' && d = ' ') = true
      · rw [collapseSpaces, if_pos hcd]
        exact ih
      · rw [collapseSpaces, if_neg hcd]
        apply noDoubleB_cons_of_head c _ ih
        intro b hb
        rw [collapse_head d ds] at hb
        injection hb with hb
        subst hb
        exact Bool.eq_false_iff.mpr hcd

theorem collapse_id (l : List Char) (h : noDoubleB l = true) :
    collapseSpaces l = l := by
  induction l with
  | nil => rfl
  | cons c cs ih =>
    cases cs with
    | nil => rfl
    | cons d ds =>
      have hcd : (c = ' ' && d = ' ') = false := by
        have heq : noDoubleB (c :: d :: ds) =
            (!(c = ' ' && d = ' ') && noDoubleB (d :: ds)) := rfl
        rw [heq, Bool.and_eq_true, Bool.not_eq_true'] at h
        exact h.1
      rw [collapseSpaces, if_neg (Bool.eq_false_iff.mp hcd)]
      rw [ih (noDoubleB_tail c _ h)]

theorem map_control_id (l : List Char)
    (h : ∀ c ∈ l, isControlChar c = false) :
    l.map (fun c => if isControlChar c then ' ' else c) = l := by
  induction l with
  | nil => rfl
  | cons c cs ih =>
    rw [List.map_cons, ih (fun x hx => h x (List.mem_cons_of_mem c hx))]
    rw [if_neg (Bool.eq_false_iff.mp (h c (List.mem_cons_self c cs)))]

theorem htmlEscapeChar_id (c : Char) (h : scChar c = true) :
    htmlEscapeChar c = [c] := by
  by_cases h1 : c = '&'
  · subst h1
    exact absurd h (by decide)
  by_cases h2 : c = '<'
  · subst h2
    exact absurd h (by decide)
  by_cases h3 : c = '>'
  · subst h3
    exact absurd h (by decide)
  by_cases h4 : c = Char.ofNat 34
  · subst h4
    exact absurd h (by decide)
  by_cases h5 : c = Char.ofNat 39
  · subst h5
    exact absurd h (by decide)
  rw [htmlEscapeChar, if_neg h1, if_neg h2, if_neg h3, if_neg h4, if_neg h5]

theorem htmlEscape_id (l : List Char) (h : ∀ c ∈ l, scChar c = true) :
    htmlEscape l = l := by
  induction l with
  | nil => rfl
  | cons c cs ih =>
    show (htmlEscapeChar c :: cs.map htmlEscapeChar).flatten = c :: cs
    rw [List.flatten_cons, htmlEscapeChar_id c (h c (List.mem_cons_self c cs))]
    rw [show (cs.map htmlEscapeChar).flatten = htmlEscape cs from rfl,
      ih (fun x hx => h x (List.mem_cons_of_mem c hx))]
    rfl

theorem scChar_blocked : ∀ c ∈ blockedChars, scChar c = true := by decide

theorem scChar_map_control (l : List Char) (h : ∀ c ∈ l, plainChar c = true) :
    ∀ x ∈ l.map (fun c => if isControlChar c then ' ' else c),
      scChar x = true := by
  intro x hx
  rw [List.mem_map] at hx
  obtain ⟨c, hc, rfl⟩ := hx
  by_cases hctl : isControlChar c = true
  · rw [if_pos hctl]
    decide
  · rw [if_neg hctl]
    rw [scChar, Bool.and_eq_true]
    exact ⟨h c hc, by rw [Bool.not_eq_true', Bool.eq_false_iff.mpr hctl]⟩

/-- Among the characters that survive sanitization, the only Python
whitespace character is the plain space. -/
theorem isPySpace_eq_space (c : Char) (h1 : plainChar c = true)
    (h2 : isControlChar c = false) (hp : isPySpace c = true) : c = ' ' := by
  by_cases hsp : c = ' '
  · exact hsp
  exfalso
  have hA : c.toNat < 128 ∧ c.toNat ≠ 38 ∧ c.toNat ≠ 60 ∧ c.toNat ≠ 62 ∧
      c.toNat ≠ 34 ∧ c.toNat ≠ 39 ∧ c.toNat ≠ 9 ∧ c.toNat ≠ 10 ∧
      c.toNat ≠ 13 := by
    simpa [plainChar, Bool.and_eq_true, and_assoc] using h1
  have hB : ¬(c.toNat ≤ 8 ∨ c.toNat = 11 ∨ c.toNat = 12 ∨
      (14 ≤ c.toNat ∧ c.toNat ≤ 31) ∨ (127 ≤ c.toNat ∧ c.toNat ≤ 159)) := by
    intro hcon
    have hc : isControlChar c = true := by
      simp only [isControlChar, Bool.or_eq_true, Bool.and_eq_true,
        decide_eq_true_eq]
      tauto
    rw [hc] at h2
    cases h2
  have hn : c.toNat = 9 ∨ c.toNat = 10 ∨ c.toNat = 11 ∨ c.toNat = 12 ∨
      c.toNat = 13 ∨ (28 ≤ c.toNat ∧ c.toNat ≤ 31) := by
    simp only [isPySpace, isRegexSpace, Bool.or_eq_true, Bool.and_eq_true,
      decide_eq_true_eq] at hp
    tauto
  obtain ⟨hx1, hx2, hx3, hx4, hx5, hx6, hx7, hx8, hx9⟩ := hA
  omega

end Sanitizer


namespace Sanitizer

theorem pyStrip_eq_rdrop (l : List Char) :
    pyStrip l = List.rdropWhile isPySpace (l.dropWhile isPySpace) := rfl

theorem pyStrip_prefix_drop (l : List Char) :
    ∃ a b, pyStrip l = (l.drop a).take b := by
  refine ⟨(l.takeWhile isPySpace).length, (pyStrip l).length, ?_⟩
  rw [← dropWhile_eq_drop]
  have hpre : pyStrip l <+: l.dropWhile isPySpace := by
    rw [pyStrip_eq_rdrop]
    exact List.rdropWhile_prefix isPySpace (l.dropWhile isPySpace)
  exact List.prefix_iff_eq_take.mp hpre

theorem head?_take (l : List Char) (n : Nat) (b : Char)
    (h : (l.take n).head? = some b) : l.head? = some b := by
  cases l with
  | nil => rw [List.take_nil] at h; cases h
  | cons c cs =>
    cases n with
    | zero => cases h
    | succ m =>
      rw [List.take_succ_cons] at h
      exact h

theorem noDoubleB_head (c b : Char) (cs : List Char)
    (h : noDoubleB (c :: cs) = true) (hb : cs.head? = some b) :
    (c = ' ' && b = ' ') = false := by
  cases cs with
  | nil => cases hb
  | cons d ds =>
    injection hb with hb
    subst hb
    have heq : noDoubleB (c :: d :: ds) =
        (!(c = ' ' && d = ' ') && noDoubleB (d :: ds)) := rfl
    rw [heq, Bool.and_eq_true, Bool.not_eq_true'] at h
    exact h.1

theorem noDoubleB_take (l : List Char) (h : noDoubleB l = true) (n : Nat) :
    noDoubleB (l.take n) = true := by
  induction l generalizing n with
  | nil => cases n <;> rfl
  | cons c cs ih =>
    cases n with
    | zero => rfl
    | succ n =>
      rw [List.take_succ_cons]
      apply noDoubleB_cons_of_head c _ (ih (noDoubleB_tail c cs h) n)
      intro b hb
      exact noDoubleB_head c b cs h (head?_take cs n b hb)

theorem mem_pyStrip (l : List Char) (x : Char) (hx : x ∈ pyStrip l) :
    x ∈ l := by
  obtain ⟨a, b, hab⟩ := pyStrip_prefix_drop l
  rw [hab] at hx
  exact List.mem_of_mem_drop (List.mem_of_mem_take hx)

theorem NM_pyStrip (q : List Tok) (hE : endsWithLit q) (l : List Char)
    (h : NM q l) : NM q (pyStrip l) := by
  obtain ⟨a, b, hab⟩ := pyStrip_prefix_drop l
  rw [hab]
  exact NM_take q hE _ (NM_drop q l h a) b

theorem noDoubleB_pyStrip (l : List Char) (h : noDoubleB l = true) :
    noDoubleB (pyStrip l) = true := by
  obtain ⟨a, b, hab⟩ := pyStrip_prefix_drop l
  rw [hab]
  exact noDoubleB_take _ (noDoubleB_drop l h a) b

theorem pyStrip_head (l : List Char) (d : Char)
    (h : (pyStrip l).head? = some d) : isPySpace d = false := by
  have hD : (l.dropWhile isPySpace).head? = some d := by
    obtain ⟨t, ht⟩ : pyStrip l <+: l.dropWhile isPySpace := by
      rw [pyStrip_eq_rdrop]
      exact List.rdropWhile_prefix isPySpace (l.dropWhile isPySpace)
    cases hP : pyStrip l with
    | nil => rw [hP] at h; cases h
    | cons e es =>
      rw [hP] at h ht
      injection h with h
      subst h
      rw [← ht]
      rfl
  exact head_dropWhile_false isPySpace l d hD

theorem pyStrip_last (l : List Char) (d : Char)
    (h : (pyStrip l).getLast? = some d) : isPySpace d = false := by
  rw [pyStrip_eq_rdrop] at h
  have hne : List.rdropWhile isPySpace (l.dropWhile isPySpace) ≠ [] := by
    intro hnil
    rw [hnil] at h
    cases h
  have hlast := List.rdropWhile_last_not isPySpace (l.dropWhile isPySpace) hne
  rw [List.getLast?_eq_getLast _ hne] at h
  injection h with h
  subst h
  exact Bool.eq_false_iff.mpr hlast

theorem pyStrip_id (l : List Char)
    (hh : ∀ d, l.head? = some d → isPySpace d = false)
    (hl : ∀ d, l.getLast? = some d → isPySpace d = false) :
    pyStrip l = l := by
  rw [pyStrip_eq_rdrop]
  have hD : l.dropWhile isPySpace = l := by
    rw [List.dropWhile_eq_self_iff]
    intro hne
    cases l with
    | nil => simp at hne
    | cons c cs =>
      have hc := hh c rfl
      intro hcon
      rw [show (c :: cs).get ⟨0, hne⟩ = c from rfl, hc] at hcon
      cases hcon
  rw [hD, List.rdropWhile_eq_self_iff]
  intro hne
  have hx := hl (l.getLast hne) (List.getLast?_eq_getLast l hne)
  intro hcon
  rw [hx] at hcon
  cases hcon

theorem rfindSpace_lt_length (l : List Char) :
    rfindSpace l < (l.length : Int) := by
  induction l with
  | nil => decide
  | cons c cs ih =>
    simp only [rfindSpace, List.length_cons]
    by_cases hr : rfindSpace cs ≥ 0
    · rw [if_pos hr]
      push_cast
      omega
    · rw [if_neg hr]
      by_cases hc : c = ' '
      · rw [if_pos hc]
        positivity
      · rw [if_neg hc]
        push_cast
        omega

theorem rfindSpace_get (l : List Char) (h : 0 ≤ rfindSpace l) :
    l[(rfindSpace l).toNat]? = some ' ' := by
  induction l with
  | nil => exact absurd h (by decide)
  | cons c cs ih =>
    simp only [rfindSpace] at h ⊢
    by_cases hr : rfindSpace cs ≥ 0
    · rw [if_pos hr] at h ⊢
      have htn : (rfindSpace cs + 1).toNat = (rfindSpace cs).toNat + 1 := by
        omega
      rw [htn, List.getElem?_cons_succ]
      exact ih hr
    · rw [if_neg hr] at h ⊢
      by_cases hc : c = ' '
      · rw [if_pos hc]
        subst hc
        rw [show Int.toNat 0 = 0 from rfl, List.getElem?_cons_zero]
      · rw [if_neg hc] at h
        exact absurd h (by decide)

theorem le_rfindSpace (l : List Char) (j : Nat) (h : l[j]? = some ' ') :
    (j : Int) ≤ rfindSpace l := by
  induction l generalizing j with
  | nil => cases h
  | cons c cs ih =>
    simp only [rfindSpace]
    cases j with
    | zero =>
      by_cases hr : rfindSpace cs ≥ 0
      · rw [if_pos hr]
        omega
      · rw [if_neg hr]
        rw [List.getElem?_cons_zero] at h
        injection h with h
        rw [if_pos h]
        omega
    | succ j =>
      rw [List.getElem?_cons_succ] at h
      have := ih j h
      rw [if_pos (by omega)]
      push_cast
      omega

theorem getLast?_take (l : List Char) (r : Nat) (h1 : 1 ≤ r)
    (h2 : r ≤ l.length) : (l.take r).getLast? = l[r - 1]? := by
  rw [List.getLast?_eq_getElem?, List.length_take, Nat.min_eq_left h2,
    List.getElem?_take, if_pos (by omega)]

end Sanitizer


namespace Sanitizer

theorem toNat_ofNat_valid (n : Nat) (h : n < 0xd800) :
    (Char.ofNat n).toNat = n := by
  unfold Char.ofNat
  rw [dif_pos (Or.inl h)]
  rfl

theorem pyLower_ne_of_toNat (x : Char) (c : Char)
    (hx : x.toNat ≠ c.toNat) (hx2 : x.toNat + 32 ≠ c.toNat) :
    pyLower x ≠ c := by
  intro hcon
  rw [pyLower] at hcon
  by_cases hup : 0x41 ≤ x.toNat ∧ x.toNat ≤ 0x5a
  · rw [if_pos hup] at hcon
    have h1 : (Char.ofNat (x.toNat + 0x20)).toNat = x.toNat + 0x20 :=
      toNat_ofNat_valid _ (by omega)
    rw [hcon] at h1
    omega
  · rw [if_neg hup] at hcon
    rw [hcon] at hx
    exact hx rfl

theorem noDoubleB_adj (x : List Char) (h : noDoubleB x = true) (i : Nat)
    (h1 : x[i]? = some ' ') (h2 : x[i + 1]? = some ' ') : False := by
  induction x generalizing i with
  | nil => cases h1
  | cons c cs ih =>
    cases i with
    | zero =>
      rw [List.getElem?_cons_zero] at h1
      rw [List.getElem?_cons_succ] at h2
      injection h1 with h1
      cases cs with
      | nil => cases h2
      | cons e es =>
        rw [List.getElem?_cons_zero] at h2
        injection h2 with h2
        have heq : noDoubleB (c :: e :: es) =
            (!(c = ' ' && e = ' ') && noDoubleB (e :: es)) := rfl
        rw [heq, Bool.and_eq_true, Bool.not_eq_true'] at h
        have hfalse := h.1
        rw [h1, h2] at hfalse
        exact absurd hfalse (by decide)
    | succ i =>
      rw [List.getElem?_cons_succ] at h1 h2
      exact ih (noDoubleB_tail c cs h) i h1 h2

/-- The trim-and-truncate pass returns either the stripped string or a
prefix of it. -/
theorem trimAndLimit_take (l : List Char) :
    trimAndLimit l = pyStrip l ∨ ∃ r, trimAndLimit l = (pyStrip l).take r := by
  simp only [trimAndLimit]
  by_cases hlen : (pyStrip l).length > MAX_CONTENT_LENGTH
  · rw [if_pos hlen]
    by_cases hls : rfindSpace ((pyStrip l).take MAX_CONTENT_LENGTH) > 360
    · rw [if_pos hls]
      refine Or.inr ⟨(rfindSpace ((pyStrip l).take MAX_CONTENT_LENGTH)).toNat,
        ?_⟩
      rw [List.take_take]
      congr 1
      have := rfindSpace_lt_length ((pyStrip l).take MAX_CONTENT_LENGTH)
      rw [List.length_take] at this
      simp only [MAX_CONTENT_LENGTH] at this hlen ⊢
      omega
    · rw [if_neg hls]
      exact Or.inr ⟨MAX_CONTENT_LENGTH, rfl⟩
  · rw [if_neg hlen]
    exact Or.inl rfl

theorem trimAndLimit_length_le (l : List Char) :
    (trimAndLimit l).length ≤ MAX_CONTENT_LENGTH := by
  simp only [trimAndLimit]
  by_cases hlen : (pyStrip l).length > MAX_CONTENT_LENGTH
  · rw [if_pos hlen]
    by_cases hls : rfindSpace ((pyStrip l).take MAX_CONTENT_LENGTH) > 360
    · rw [if_pos hls]
      have := rfindSpace_lt_length ((pyStrip l).take MAX_CONTENT_LENGTH)
      rw [List.length_take] at this
      rw [List.length_take, List.length_take]
      simp only [MAX_CONTENT_LENGTH] at this hlen ⊢
      omega
    · rw [if_neg hls, List.length_take]
      simp only [MAX_CONTENT_LENGTH]
      omega
  · rw [if_neg hlen]
    omega

theorem mem_trimAndLimit (l : List Char) (x : Char)
    (hx : x ∈ trimAndLimit l) : x ∈ l := by
  rcases trimAndLimit_take l with h | ⟨r, h⟩
  · rw [h] at hx
    exact mem_pyStrip l x hx
  · rw [h] at hx
    exact mem_pyStrip l x (List.mem_of_mem_take hx)

theorem NM_trimAndLimit (q : List Tok) (hE : endsWithLit q) (l : List Char)
    (h : NM q l) : NM q (trimAndLimit l) := by
  rcases trimAndLimit_take l with ht | ⟨r, ht⟩
  · rw [ht]
    exact NM_pyStrip q hE l h
  · rw [ht]
    exact NM_take q hE _ (NM_pyStrip q hE l h) r

theorem trimAndLimit_head (l : List Char) (d : Char)
    (h : (trimAndLimit l).head? = some d) : isPySpace d = false := by
  rcases trimAndLimit_take l with ht | ⟨r, ht⟩
  · rw [ht] at h
    exact pyStrip_head l d h
  · rw [ht] at h
    exact pyStrip_head l d (head?_take _ r d h)

/-- The last character of the trimmed output is never a plain space:
either it is the stripped string's last character (not whitespace), or
truncation cut just before a space of a space-collapsed string, or at
position 449 of a string whose last space lies at or before 360. -/
theorem trimAndLimit_last_ne_space (l : List Char) (hnd : noDoubleB l = true)
    (d : Char) (h : (trimAndLimit l).getLast? = some d) : d ≠ ' ' := by
  have hndP : noDoubleB (pyStrip l) = true := noDoubleB_pyStrip l hnd
  simp only [trimAndLimit] at h
  by_cases hlen : (pyStrip l).length > MAX_CONTENT_LENGTH
  · rw [if_pos hlen] at h
    have hndT : noDoubleB ((pyStrip l).take MAX_CONTENT_LENGTH) = true :=
      noDoubleB_take _ hndP _
    have hTlen : ((pyStrip l).take MAX_CONTENT_LENGTH).length =
        MAX_CONTENT_LENGTH := by
      rw [List.length_take]
      simp only [MAX_CONTENT_LENGTH] at hlen ⊢
      omega
    by_cases hls : rfindSpace ((pyStrip l).take MAX_CONTENT_LENGTH) > 360
    · rw [if_pos hls] at h
      have hge : 0 ≤ rfindSpace ((pyStrip l).take MAX_CONTENT_LENGTH) := by
        omega
      have hlt := rfindSpace_lt_length ((pyStrip l).take MAX_CONTENT_LENGTH)
      have hsp := rfindSpace_get _ hge
      rw [getLast?_take _ _ (by omega) (by rw [hTlen]; omega)] at h
      intro hd
      subst hd
      apply noDoubleB_adj _ hndT
        ((rfindSpace ((pyStrip l).take MAX_CONTENT_LENGTH)).toNat - 1) h
      rw [show (rfindSpace ((pyStrip l).take MAX_CONTENT_LENGTH)).toNat - 1 + 1
        = (rfindSpace ((pyStrip l).take MAX_CONTENT_LENGTH)).toNat from by
          omega]
      exact hsp
    · rw [if_neg hls] at h
      rw [List.getLast?_eq_getElem?, hTlen] at h
      intro hd
      subst hd
      have := le_rfindSpace _ (MAX_CONTENT_LENGTH - 1) h
      simp only [MAX_CONTENT_LENGTH] at this hls
      omega
  · rw [if_neg hlen] at h
    intro hd
    subst hd
    have := pyStrip_last l ' ' h
    exact absurd this (by decide)

end Sanitizer


namespace Sanitizer

theorem scChar_toNat (x : Char) (h : scChar x = true) :
    x.toNat ≠ 60 ∧ x.toNat ≠ 28 := by
  rw [scChar, Bool.and_eq_true, Bool.not_eq_true'] at h
  obtain ⟨hp, hc⟩ := h
  have hA : x.toNat < 128 ∧ x.toNat ≠ 38 ∧ x.toNat ≠ 60 ∧ x.toNat ≠ 62 ∧
      x.toNat ≠ 34 ∧ x.toNat ≠ 39 ∧ x.toNat ≠ 9 ∧ x.toNat ≠ 10 ∧
      x.toNat ≠ 13 := by
    simpa [plainChar, Bool.and_eq_true, and_assoc] using hp
  refine ⟨hA.2.2.1, ?_⟩
  intro h28
  have hct : isControlChar x = true := by
    simp only [isControlChar, Bool.or_eq_true, Bool.and_eq_true,
      decide_eq_true_eq]
    omega
  rw [hct] at hc
  cases hc

/-- A pattern opening with the literal `<` cannot match in a string of
surviving characters (no `<`, and no `\x1c` that would case-fold onto
it). -/
theorem NM_lt_pattern (rest : List Tok) (l : List Char)
    (h : ∀ x ∈ l, scChar x = true) : NM (.lit '<' :: rest) l := by
  apply NM_of_head_lit
  intro x hx
  obtain ⟨h60, h28⟩ := scChar_toNat x (h x hx)
  apply pyLower_ne_of_toNat x '<'
  · exact h60
  · rw [show Char.toNat '<' = 60 from rfl]
    omega

theorem removeControlChars_id (l : List Char)
    (h1 : ∀ c ∈ l, isControlChar c = false) (h2 : noDoubleB l = true) :
    removeControlChars l = l := by
  rw [removeControlChars, map_control_id l h1, collapse_id l h2]

theorem scChar_not_control (c : Char) (h : scChar c = true) :
    isControlChar c = false := by
  rw [scChar, Bool.and_eq_true, Bool.not_eq_true'] at h
  exact h.2

set_option maxHeartbeats 1000000 in
/-- The six structural properties of `sanitize`'s output on an input
of `plainChar` characters: every character survives unescaped, no
double spaces, no pattern matches, the length bound, and no leading or
trailing Python whitespace. -/
theorem sanitize_output_props (s : String) (hs : s ≠ "")
    (h : ∀ c ∈ s.toList, plainChar c = true) :
    (∀ x ∈ (sanitize s).toList, scChar x = true) ∧
    noDoubleB (sanitize s).toList = true ∧
    (∀ q ∈ DANGEROUS_PATTERNS, NM q (sanitize s).toList) ∧
    (sanitize s).toList.length ≤ MAX_CONTENT_LENGTH ∧
    (∀ d, (sanitize s).toList.head? = some d → isPySpace d = false) ∧
    (∀ d, (sanitize s).toList.getLast? = some d → isPySpace d = false) := by
  have hsc2 : ∀ x ∈ removeControlChars s.toList, scChar x = true := by
    intro x hx
    rw [removeControlChars] at hx
    exact scChar_map_control s.toList h x (mem_collapseSpaces _ x hx)
  have hnd2 : noDoubleB (removeControlChars s.toList) = true := by
    rw [removeControlChars]
    exact noDouble_collapse _
  have hsc3 : ∀ x ∈ filterDangerous (removeControlChars s.toList),
      scChar x = true := by
    intro x hx
    rcases mem_filterDangerous _ x hx with h' | h'
    · exact hsc2 x h'
    · exact scChar_blocked x h'
  have hnd3 : noDoubleB (filterDangerous (removeControlChars s.toList)) =
      true := noDoubleB_filterDangerous _ hnd2
  have hesc : htmlEscape (filterDangerous (removeControlChars s.toList)) =
      filterDangerous (removeControlChars s.toList) := htmlEscape_id _ hsc3
  have hOL : (sanitize s).toList =
      trimAndLimit (filterDangerous (removeControlChars s.toList)) := by
    have e : sanitize s = String.mk (trimAndLimit (htmlEscape (filterDangerous
        (removeControlChars s.toList)))) := by
      rw [sanitize, if_neg hs]
      rfl
    rw [e, hesc,
      show ∀ l : List Char, (String.mk l).toList = l from fun _ => rfl]
  have hscO : ∀ x ∈ trimAndLimit (filterDangerous
      (removeControlChars s.toList)), scChar x = true :=
    fun x hx => hsc3 x (mem_trimAndLimit _ x hx)
  rw [hOL]
  refine ⟨hscO, ?_, ?_, trimAndLimit_length_le _,
    fun d hd => trimAndLimit_head _ d hd, ?_⟩
  · rcases trimAndLimit_take (filterDangerous (removeControlChars s.toList))
      with ht | ⟨r, ht⟩
    · rw [ht]
      exact noDoubleB_pyStrip _ hnd3
    · rw [ht]
      exact noDoubleB_take _ (noDoubleB_pyStrip _ hnd3) r
  · intro q hq
    simp only [DANGEROUS_PATTERNS, List.mem_cons, List.not_mem_nil,
      or_false] at hq
    rcases hq with rfl | rfl | rfl | rfl | rfl | rfl | rfl | rfl
    · exact NM_lt_pattern _ _ hscO
    · exact NM_trimAndLimit patJavascript endsWithLit_patJavascript _
        (NM_fd_js _)
    · exact NM_trimAndLimit patOnEvent endsWithLit_patOnEvent _ (NM_fd_on _)
    · exact NM_lt_pattern _ _ hscO
    · exact NM_lt_pattern _ _ hscO
    · exact NM_lt_pattern _ _ hscO
    · exact NM_lt_pattern _ _ hscO
    · exact NM_trimAndLimit patData endsWithLit_patData _ (NM_fd_data _)
  · intro d hd
    have hne := trimAndLimit_last_ne_space _ hnd3 d hd
    have hscd : scChar d = true :=
      hscO d (List.mem_of_mem_getLast? hd)
    cases hps : isPySpace d with
    | false => rfl
    | true =>
      rw [scChar, Bool.and_eq_true, Bool.not_eq_true'] at hscd
      exact absurd (isPySpace_eq_space d hscd.1 hscd.2 hps) hne

end Sanitizer


/-! ## Claim theorems -/

/-- C1.  `route_message m s C` returns `(false, [])` when the message
id is already cached or the local node id occurs in `m.seen_by`;
otherwise it returns `(true, F)` where every forwarded peer is a
connected peer distinct from the source and outside `m.seen_by`, and
`F = []` whenever `m.ttl = 0`. -/
theorem route_message_spec (cache : List String) (local_id : String)
    (m : Message) (s : String) (connected : List String)
    (hl : local_id ≠ "") :
    (m.message_id ∈ cache →
      (route_message cache local_id m (some s) connected).should_process = false ∧
      (route_message cache local_id m (some s) connected).forward_to = []) ∧
    (local_id ∈ m.seen_by →
      (route_message cache local_id m (some s) connected).should_process = false ∧
      (route_message cache local_id m (some s) connected).forward_to = []) ∧
    (m.message_id ∉ cache → local_id ∉ m.seen_by →
      (route_message cache local_id m (some s) connected).should_process = true ∧
      (∀ p ∈ (route_message cache local_id m (some s) connected).forward_to,
        p ∈ connected ∧ p ≠ s ∧ p ∉ m.seen_by) ∧
      (m.ttl = 0 →
        (route_message cache local_id m (some s) connected).forward_to = [])) := by
  have hadd_seen : ∀ a, a ∈ m.seen_by →
      a ∈ ((if local_id ≠ "" then m.add_seen_by local_id else m).seen_by) := by
    intro a ha
    by_cases h : local_id ≠ ""
    · rw [if_pos h]; exact Message.mem_seen_by_add m local_id a ha
    · rw [if_neg h]; exact ha
  have httl_eq : ((if local_id ≠ "" then m.add_seen_by local_id else m).ttl) = m.ttl := by
    by_cases h : local_id ≠ ""
    · rw [if_pos h]; exact Message.ttl_add_seen_by m local_id
    · rw [if_neg h]
  refine ⟨fun hmem => ?_, fun hseen => ?_, fun hmem hseen => ?_⟩
  · simp [route_message, hmem]
  · by_cases hmem : m.message_id ∈ cache
    · simp [route_message, hmem]
    · simp [route_message, hmem, Message.has_been_seen_by, hl, hseen]
  · have hns : ¬ (local_id ≠ "" ∧ m.has_been_seen_by local_id) := by
      simp [Message.has_been_seen_by, hseen]
    refine ⟨by simp [route_message, hmem, hns], fun p hp => ?_, fun httl => ?_⟩
    · simp only [route_message, hmem, hns, if_neg, if_false] at hp
      by_cases hfw : ((if local_id ≠ "" then m.add_seen_by local_id else m).can_forward = true)
      · rw [if_pos hfw, List.mem_filter] at hp
        obtain ⟨hpc, hpred⟩ := hp
        rw [decide_eq_true_eq] at hpred
        obtain ⟨hps, hpseen⟩ := hpred
        refine ⟨hpc, fun h => hps (by rw [h]), fun hmem2 => ?_⟩
        refine hpseen ?_
        simp only [Message.has_been_seen_by, decide_eq_true_eq]
        exact hadd_seen p hmem2
      · rw [if_neg hfw] at hp
        simp at hp
    · have hcf : ¬ ((if local_id ≠ "" then m.add_seen_by local_id else m).can_forward = true) := by
        simp only [Message.can_forward]
        rw [httl_eq]
        simp [httl]
      simp only [route_message]
      rw [if_neg hmem, if_neg hns, if_neg hcf]

/-- Witness for C1 at concrete inputs. -/
theorem route_message_spec_witness :
    ("L" : String) ≠ "" ∧
    (let m := mkMessage "id1" "A" "hi" 0 3 [] .broadcast none
     ("id1" ∈ ([] : List String) →
       (route_message [] "L" m (some "A") ["A", "B", "L"]).should_process = false ∧
       (route_message [] "L" m (some "A") ["A", "B", "L"]).forward_to = []) ∧
     ("L" ∈ m.seen_by →
       (route_message [] "L" m (some "A") ["A", "B", "L"]).should_process = false ∧
       (route_message [] "L" m (some "A") ["A", "B", "L"]).forward_to = []) ∧
     ("id1" ∉ ([] : List String) → "L" ∉ m.seen_by →
       (route_message [] "L" m (some "A") ["A", "B", "L"]).should_process = true ∧
       (∀ p ∈ (route_message [] "L" m (some "A") ["A", "B", "L"]).forward_to,
         p ∈ ["A", "B", "L"] ∧ p ≠ "A" ∧ p ∉ m.seen_by) ∧
       (m.ttl = 0 →
         (route_message [] "L" m (some "A") ["A", "B", "L"]).forward_to = []))) :=
  ⟨by decide, route_message_spec [] "L" (mkMessage "id1" "A" "hi" 0 3 [] .broadcast none)
    "A" ["A", "B", "L"] (by decide)⟩



/-- Counterexample to C8 as stated: `originate_message` overwrites a
message whose `sender_id` is already set ("other") with the local node
id ("me"), so the sender id is not rewritten "only when unset". -/
theorem originate_message_overwrites_sender :
    (mkMessage "id0" "other" "c" 0 3 [] .broadcast none).sender_id ≠ "" ∧
    (originate_message [] "me" (mkMessage "id0" "other" "c" 0 3 [] .broadcast none)
      ["b"]).2.1.sender_id ≠
      (mkMessage "id0" "other" "c" 0 3 [] .broadcast none).sender_id := by
  constructor
  · decide
  · decide

/-- C8 (amended).  When the local node id is set, `originate_message`
sets `m.sender_id` to the local node id unconditionally (overwriting
any existing value), ensures the local node id is in `m.seen_by`,
inserts `m.message_id` into the dedup cache, and returns exactly the
connected-peer list. -/
theorem originate_message_spec (cache : List String) (local_id : String)
    (m : Message) (connected : List String) (hl : local_id ≠ "") :
    (originate_message cache local_id m connected).2.1.sender_id = local_id ∧
    local_id ∈ (originate_message cache local_id m connected).2.1.seen_by ∧
    (originate_message cache local_id m connected).1 = m.message_id :: cache ∧
    (originate_message cache local_id m connected).2.2 = connected := by
  refine ⟨?_, ?_, ?_, ?_⟩ <;> simp only [originate_message] <;> rw [if_pos hl]
  · rw [Message.sender_id_add_seen_by]
  · exact Message.mem_add_seen_by_self _ local_id hl
  · rw [Message.message_id_add_seen_by]

/-- Witness for (amended) C8 at concrete inputs. -/
theorem originate_message_spec_witness :
    ("me" : String) ≠ "" ∧
    ((originate_message ["x"] "me" (mkMessage "id0" "other" "c" 0 3 [] .broadcast none)
        ["b"]).2.1.sender_id = "me" ∧
      "me" ∈ (originate_message ["x"] "me"
        (mkMessage "id0" "other" "c" 0 3 [] .broadcast none) ["b"]).2.1.seen_by ∧
      (originate_message ["x"] "me"
        (mkMessage "id0" "other" "c" 0 3 [] .broadcast none) ["b"]).1 =
        (mkMessage "id0" "other" "c" 0 3 [] .broadcast none).message_id :: ["x"] ∧
      (originate_message ["x"] "me"
        (mkMessage "id0" "other" "c" 0 3 [] .broadcast none) ["b"]).2.2 = ["b"]) :=
  ⟨by decide, originate_message_spec ["x"] "me"
    (mkMessage "id0" "other" "c" 0 3 [] .broadcast none) ["b"] (by decide)⟩

/-- C3.  For a message satisfying the data-model invariants
(`sender_id ∈ seen_by` unless empty, `0 ≤ ttl`) and a non-empty
forwarder id: `prepare_for_forwarding` returns `none` iff `ttl = 0`,
and otherwise a message equal to `m` except that the TTL is
decremented and the forwarder is appended to `seen_by` when not
already present (order preserved, no duplicate introduced).  The input
message is not modified (the embedding is a pure function, matching
the source, which only reads `m` and builds a fresh copy). -/
theorem prepare_for_forwarding_spec (m : Message) (f : String)
    (hf : f ≠ "") (hinv : m.sender_id = "" ∨ m.sender_id ∈ m.seen_by)
    (httl : 0 ≤ m.ttl) :
    (prepare_for_forwarding m f = none ↔ m.ttl = 0) ∧
    (0 < m.ttl → prepare_for_forwarding m f =
      some { m with ttl := m.ttl - 1,
                    seen_by := if f ∈ m.seen_by then m.seen_by
                               else m.seen_by ++ [f] }) ∧
    (m.seen_by.Nodup → ∀ m' ∈ prepare_for_forwarding m f, m'.seen_by.Nodup) := by
  have hpost : ¬ (m.sender_id ≠ "" ∧ m.sender_id ∉ m.seen_by) := by
    rcases hinv with h | h
    · simp [h]
    · simp [h]
  have hfwd : mkMessage m.message_id m.sender_id m.content m.timestamp
      (m.ttl - 1) m.seen_by m.message_type m.sender_name =
      { m with ttl := m.ttl - 1 } := by
    unfold mkMessage
    rw [if_neg hpost]
  have hadd : ({ m with ttl := m.ttl - 1 } : Message).add_seen_by f =
      { m with ttl := m.ttl - 1,
               seen_by := if f ∈ m.seen_by then m.seen_by
                          else m.seen_by ++ [f] } := by
    unfold Message.add_seen_by
    by_cases hmem : f ∈ m.seen_by
    · rw [if_neg (by simp [hmem]), if_pos hmem]
    · rw [if_pos ⟨hf, by simpa using hmem⟩, if_neg hmem]
  have hpos : 0 < m.ttl →
      prepare_for_forwarding m f =
      some { m with ttl := m.ttl - 1,
                    seen_by := if f ∈ m.seen_by then m.seen_by
                               else m.seen_by ++ [f] } := by
    intro h
    unfold prepare_for_forwarding
    rw [if_neg (by simp [Message.can_forward, h]), hfwd, hadd]
  rcases lt_or_eq_of_le httl with h0 | h0
  · refine ⟨?_, fun _ => hpos h0, fun hnd m' hm' => ?_⟩
    · rw [hpos h0]
      simp [ne_of_gt h0]
    · rw [hpos h0] at hm'
      simp only [Option.mem_def, Option.some_inj] at hm'
      subst hm'
      by_cases hmem : f ∈ m.seen_by
      · simpa [hmem] using hnd
      · simp [hmem, List.nodup_append, hnd]
  · have hz : prepare_for_forwarding m f = none := by
      unfold prepare_for_forwarding
      rw [if_pos (by simp [Message.can_forward, ← h0])]
    refine ⟨by simp [hz, ← h0], fun hc => absurd h0 (by omega), ?_⟩
    intro _ m' hm'
    rw [hz] at hm'
    simp at hm'

/-- Witness for C3 at concrete inputs. -/
theorem prepare_for_forwarding_spec_witness :
    ("B" : String) ≠ "" ∧
    ((mkMessage "i" "A" "c" 0 2 [] .broadcast none).sender_id = "" ∨
      (mkMessage "i" "A" "c" 0 2 [] .broadcast none).sender_id ∈
        (mkMessage "i" "A" "c" 0 2 [] .broadcast none).seen_by) ∧
    0 ≤ (mkMessage "i" "A" "c" 0 2 [] .broadcast none).ttl ∧
    ((prepare_for_forwarding (mkMessage "i" "A" "c" 0 2 [] .broadcast none) "B" = none ↔
        (mkMessage "i" "A" "c" 0 2 [] .broadcast none).ttl = 0) ∧
      (0 < (mkMessage "i" "A" "c" 0 2 [] .broadcast none).ttl →
        prepare_for_forwarding (mkMessage "i" "A" "c" 0 2 [] .broadcast none) "B" =
        some { mkMessage "i" "A" "c" 0 2 [] .broadcast none with
                 ttl := (mkMessage "i" "A" "c" 0 2 [] .broadcast none).ttl - 1,
                 seen_by :=
                   if "B" ∈ (mkMessage "i" "A" "c" 0 2 [] .broadcast none).seen_by then
                     (mkMessage "i" "A" "c" 0 2 [] .broadcast none).seen_by
                   else (mkMessage "i" "A" "c" 0 2 [] .broadcast none).seen_by ++ ["B"] }) ∧
      ((mkMessage "i" "A" "c" 0 2 [] .broadcast none).seen_by.Nodup →
        ∀ m' ∈ prepare_for_forwarding (mkMessage "i" "A" "c" 0 2 [] .broadcast none) "B",
          m'.seen_by.Nodup)) :=
  ⟨by decide, by decide, by decide,
    prepare_for_forwarding_spec (mkMessage "i" "A" "c" 0 2 [] .broadcast none) "B"
      (by decide) (by decide) (by decide)⟩
/-- C6 evidence.  At `consecutive_empty_scans = 11` (network state
NO_DEVICES, table target 10 s, current interval 10 s) the code applies
the ×1.5 penalty, yielding `(10 + 15)/2 = 12.5`, whereas the claimed
×2.0 penalty would yield `(10 + min (10·2) 60)/2 = 15`.  The `elif`
ordering makes the ×2.0 branch of the source unreachable. -/
theorem update_scan_interval_at_eleven :
    update_scan_interval 10 .no_devices 11 = 25/2 ∧
    (10 + min ((10 : ℚ) * 2) 60) / 2 = 15 ∧ (25/2 : ℚ) ≠ 15 := by
  refine ⟨?_, by norm_num, by norm_num⟩
  norm_num [update_scan_interval, DISCOVERY_INTERVAL_NO_DEVICES,
    MAX_SCAN_INTERVAL, MIN_SCAN_INTERVAL, min_def, max_def]

set_option maxRecDepth 8192 in
/-- Counterexample to C2 as stated: a message satisfying every
invariant listed in the claim (sender in `seen_by`, TTL in range,
timestamp at most one minute in the future, size within bounds, valid
BROADCAST content) whose timestamp lies more than `MESSAGE_CACHE_TTL`
seconds in the past.  `validate_message` also checks expiry, so
parsing its encoding fails instead of returning the message. -/
theorem parse_encode_fails_on_expired :
    (mkMessage "123e4567-e89b-12d3-a456-426614174000" "A" "hi" 0 3 []
      .broadcast none).sender_id ∈
      (mkMessage "123e4567-e89b-12d3-a456-426614174000" "A" "hi" 0 3 []
        .broadcast none).seen_by ∧
    0 ≤ (mkMessage "123e4567-e89b-12d3-a456-426614174000" "A" "hi" 0 3 []
      .broadcast none).ttl ∧
    (mkMessage "123e4567-e89b-12d3-a456-426614174000" "A" "hi" 0 3 []
      .broadcast none).ttl ≤ MESSAGE_TTL ∧
    (mkMessage "123e4567-e89b-12d3-a456-426614174000" "A" "hi" 0 3 []
      .broadcast none).timestamp ≤ 400 + 60 ∧
    (mkMessage "123e4567-e89b-12d3-a456-426614174000" "A" "hi" 0 3 []
      .broadcast none).get_byte_size ≤ MAX_MESSAGE_SIZE ∧
    (Sanitizer.sanitizeAndValidate
      (mkMessage "123e4567-e89b-12d3-a456-426614174000" "A" "hi" 0 3 []
        .broadcast none).content).2.1 = true ∧
    parse_message (mkMessage "123e4567-e89b-12d3-a456-426614174000" "A" "hi"
      0 3 [] .broadcast none).to_dict "f" 400 = .error "Message has expired" ∧
    parse_message (mkMessage "123e4567-e89b-12d3-a456-426614174000" "A" "hi"
      0 3 [] .broadcast none).to_dict "f" 400 ≠
      .ok (mkMessage "123e4567-e89b-12d3-a456-426614174000" "A" "hi" 0 3 []
        .broadcast none) := by
  refine ⟨by decide, by decide, by decide, by decide, by decide, by decide,
    ?_, ?_⟩
  · rfl
  · intro h
    rw [show parse_message (mkMessage "123e4567-e89b-12d3-a456-426614174000"
      "A" "hi" 0 3 [] .broadcast none).to_dict "f" 400 =
      .error "Message has expired" from rfl] at h
    cases h

/-- C2 (amended).  For every message satisfying the `Message`
invariants plus the two validation conditions the claim omits (a
UUID-shaped `message_id` with a non-empty `sender_id`, and a timestamp
no older than `MESSAGE_CACHE_TTL`): parsing the canonical encoding of
`m` yields exactly `m`. -/
theorem parse_encode_roundtrip (m : Message) (fresh : String) (now : Int)
    (hmem : m.sender_id ∈ m.seen_by) (hsender : m.sender_id ≠ "")
    (hid : Sanitizer.isValidUuid m.message_id = true)
    (httl0 : 0 ≤ m.ttl) (httl1 : m.ttl ≤ MESSAGE_TTL)
    (hfut : m.timestamp ≤ now + 60)
    (hexp : now - m.timestamp ≤ MESSAGE_CACHE_TTL)
    (hsize : m.get_byte_size ≤ MAX_MESSAGE_SIZE)
    (hcontent : m.message_type = .broadcast → m.content ≠ "" ∧
      (Sanitizer.sanitizeAndValidate m.content).2.1 = true) :
    parse_message m.to_dict fresh now = .ok m := by
  have hfd := from_dict_to_dict m fresh now (Or.inr hmem)
  have hv := validate_message_ok m now hid hsender hcontent httl0 httl1
    hfut hexp hsize
  unfold parse_message
  rw [hfd, hv]
  rfl

set_option maxRecDepth 8192 in
/-- Witness for (amended) C2 at concrete inputs. -/
theorem parse_encode_roundtrip_witness :
    (mkMessage "00000000-0000-4000-8000-000000000000" "A" "hi" 100 3 []
      .broadcast (some "alice")).sender_id ∈
      (mkMessage "00000000-0000-4000-8000-000000000000" "A" "hi" 100 3 []
        .broadcast (some "alice")).seen_by ∧
    parse_message (mkMessage "00000000-0000-4000-8000-000000000000" "A" "hi"
      100 3 [] .broadcast (some "alice")).to_dict "f" 120 =
      .ok (mkMessage "00000000-0000-4000-8000-000000000000" "A" "hi" 100 3 []
        .broadcast (some "alice")) :=
  ⟨by decide,
    parse_encode_roundtrip
      (mkMessage "00000000-0000-4000-8000-000000000000" "A" "hi" 100 3 []
        .broadcast (some "alice")) "f" 120 (by decide) (by decide) (by decide)
      (by decide) (by decide) (by decide) (by decide) (by decide)
      (fun _ => ⟨by decide, by decide⟩)⟩

/-- C10.  `parse_message` accepts a datagram missing `message_id`,
`timestamp`, `ttl` and `seen_by`: the defaults (a fresh
`str(uuid.uuid4())`, the current time, `MESSAGE_TTL`, `[]`) are
substituted, the fresh UUID always passes the UUID-shape validation,
and the same id-less datagram parsed with two different fresh UUIDs
yields messages with two different `message_id`s. -/
theorem parse_message_missing_fields (sender content : String) (r : Nat)
    (now : Int) (hsender : sender ≠ "") (hcontent : content ≠ "")
    (hvalid : (Sanitizer.sanitizeAndValidate content).2.1 = true)
    (hsize : (mkMessage (uuid4String r) sender content now MESSAGE_TTL []
      .broadcast none).get_byte_size ≤ MAX_MESSAGE_SIZE) :
    Sanitizer.isValidUuid (uuid4String r) = true ∧
    parse_message ⟨none, some sender, some content, none, none, none,
      some "broadcast", none⟩ (uuid4String r) now =
      .ok (mkMessage (uuid4String r) sender content now MESSAGE_TTL []
        .broadcast none) ∧
    (∀ r₂ m₁ m₂, uuid4String r₂ ≠ uuid4String r →
      parse_message ⟨none, some sender, some content, none, none, none,
        some "broadcast", none⟩ (uuid4String r) now = .ok m₁ →
      parse_message ⟨none, some sender, some content, none, none, none,
        some "broadcast", none⟩ (uuid4String r₂) now = .ok m₂ →
      m₁.message_id ≠ m₂.message_id) := by
  have hfd : ∀ f : String, Message.from_dict ⟨none, some sender, some content,
      none, none, none, some "broadcast", none⟩ f now =
      mkMessage f sender content now MESSAGE_TTL [] .broadcast none :=
    fun f => rfl
  refine ⟨isValidUuid_uuid4String r, ?_, ?_⟩
  · have hv := validate_message_ok
      (mkMessage (uuid4String r) sender content now MESSAGE_TTL []
        .broadcast none) now (isValidUuid_uuid4String r) hsender
      (fun _ => ⟨hcontent, hvalid⟩)
      (show (0 : Int) ≤ MESSAGE_TTL by decide) (le_refl _)
      (show now ≤ now + 60 by omega)
      (show now - now ≤ MESSAGE_CACHE_TTL by
        simp only [MESSAGE_CACHE_TTL]; omega) hsize
    unfold parse_message
    rw [hfd, hv]
    rfl
  · intro r₂ m₁ m₂ hne h₁ h₂
    have e₁ := parse_message_ok_inv _ _ _ _ h₁
    have e₂ := parse_message_ok_inv _ _ _ _ h₂
    rw [e₁, e₂, hfd, hfd]
    exact fun h => hne h.symm

set_option maxRecDepth 8192 in
/-- Witness for C10 at concrete inputs. -/
theorem parse_message_missing_fields_witness :
    ("A" : String) ≠ "" ∧ ("hi" : String) ≠ "" ∧
    (Sanitizer.sanitizeAndValidate "hi").2.1 = true ∧
    (mkMessage (uuid4String 0) "A" "hi" 50 MESSAGE_TTL []
      .broadcast none).get_byte_size ≤ MAX_MESSAGE_SIZE ∧
    (Sanitizer.isValidUuid (uuid4String 0) = true ∧
      parse_message ⟨none, some "A", some "hi", none, none, none,
        some "broadcast", none⟩ (uuid4String 0) 50 =
        .ok (mkMessage (uuid4String 0) "A" "hi" 50 MESSAGE_TTL []
          .broadcast none) ∧
      (∀ r₂ m₁ m₂, uuid4String r₂ ≠ uuid4String 0 →
        parse_message ⟨none, some "A", some "hi", none, none, none,
          some "broadcast", none⟩ (uuid4String 0) 50 = .ok m₁ →
        parse_message ⟨none, some "A", some "hi", none, none, none,
          some "broadcast", none⟩ (uuid4String r₂) 50 = .ok m₂ →
        m₁.message_id ≠ m₂.message_id)) :=
  ⟨by decide, by decide, by decide, by decide,
    parse_message_missing_fields "A" "hi" 0 50 (by decide) (by decide)
      (by decide) (by decide)⟩

/-- C5.  With rate limiting enabled: buckets are pruned to the
60-second window and evaluated global → device → connection; the first
bucket at its cap refuses with that bucket's `limit_type` and
`retry_after = oldest_in_bucket + 60 - now` with `0 < retry_after ≤
60`, recording nothing; on success `now` is appended to each relevant
bucket.  The sortedness hypotheses say the buckets are in
chronological order (they are only ever appended to at the current
time), so the head of a pruned bucket is its oldest entry. -/
theorem check_and_record_spec (st : RateState) (now : ℚ)
    (cid did : Option String)
    (hg : ∀ t ∈ st.global_timestamps, t ≤ now)
    (hgs : st.global_timestamps.Sorted (· ≤ ·))
    (hd : ∀ k, ∀ t ∈ lookupD st.device_counts k, t ≤ now)
    (hds : ∀ k, (lookupD st.device_counts k).Sorted (· ≤ ·))
    (hc : ∀ k, ∀ t ∈ lookupD st.connection_counts k, t ≤ now)
    (hcs : ∀ k, (lookupD st.connection_counts k).Sorted (· ≤ ·)) :
    ((st.global_timestamps.filter (fun t => t > now - 60)).length ≥
        RATE_LIMIT_GLOBAL →
      check_and_record st now cid did true =
        ({ st with global_timestamps :=
             st.global_timestamps.filter (fun t => t > now - 60) },
         some ⟨"global", (st.global_timestamps.filter
           (fun t => t > now - 60)).headD 0 + 60 - now⟩) ∧
      (∀ t ∈ st.global_timestamps.filter (fun t => t > now - 60),
        (st.global_timestamps.filter (fun t => t > now - 60)).headD 0 ≤ t)) ∧
    ((st.global_timestamps.filter (fun t => t > now - 60)).length <
        RATE_LIMIT_GLOBAL →
      ∀ d, did = some d →
      ((lookupD st.device_counts d).filter (fun t => t > now - 60)).length ≥
        RATE_LIMIT_PER_DEVICE →
      (check_and_record st now cid did true).2 =
        some ⟨"device", ((lookupD st.device_counts d).filter
          (fun t => t > now - 60)).headD 0 + 60 - now⟩ ∧
      (∀ t ∈ (lookupD st.device_counts d).filter (fun t => t > now - 60),
        ((lookupD st.device_counts d).filter
          (fun t => t > now - 60)).headD 0 ≤ t)) ∧
    ((st.global_timestamps.filter (fun t => t > now - 60)).length <
        RATE_LIMIT_GLOBAL →
      (did = none ∨ ∃ d, did = some d ∧
        ((lookupD st.device_counts d).filter (fun t => t > now - 60)).length <
          RATE_LIMIT_PER_DEVICE) →
      ∀ c, cid = some c →
      ((lookupD st.connection_counts c).filter (fun t => t > now - 60)).length ≥
        RATE_LIMIT_PER_CONNECTION →
      (check_and_record st now cid did true).2 =
        some ⟨"connection", ((lookupD st.connection_counts c).filter
          (fun t => t > now - 60)).headD 0 + 60 - now⟩ ∧
      (∀ t ∈ (lookupD st.connection_counts c).filter (fun t => t > now - 60),
        ((lookupD st.connection_counts c).filter
          (fun t => t > now - 60)).headD 0 ≤ t)) ∧
    ((st.global_timestamps.filter (fun t => t > now - 60)).length <
        RATE_LIMIT_GLOBAL →
      (did = none ∨ ∃ d, did = some d ∧
        ((lookupD st.device_counts d).filter (fun t => t > now - 60)).length <
          RATE_LIMIT_PER_DEVICE) →
      (cid = none ∨ ∃ c, cid = some c ∧
        ((lookupD st.connection_counts c).filter (fun t => t > now - 60)).length <
          RATE_LIMIT_PER_CONNECTION) →
      (check_and_record st now cid did true).2 = none ∧
      now ∈ (check_and_record st now cid did true).1.global_timestamps ∧
      (∀ d, did = some d →
        now ∈ lookupD (check_and_record st now cid did true).1.device_counts d) ∧
      (∀ c, cid = some c →
        now ∈ lookupD (check_and_record st now cid did true).1.connection_counts c)) ∧
    (∀ lt ra, (check_and_record st now cid did true).2 = some ⟨lt, ra⟩ →
      0 < ra ∧ ra ≤ 60 ∧
      (∀ t ∈ (check_and_record st now cid did true).1.global_timestamps,
        t ∈ st.global_timestamps) ∧
      (∀ k, ∀ t ∈ lookupD (check_and_record st now cid did true).1.device_counts k,
        t ∈ lookupD st.device_counts k) ∧
      (∀ k, ∀ t ∈ lookupD (check_and_record st now cid did true).1.connection_counts k,
        t ∈ lookupD st.connection_counts k)) := by
  have hGne : ∀ cap : Nat, 0 < cap →
      (st.global_timestamps.filter (fun t => t > now - 60)).length ≥ cap →
      st.global_timestamps.filter (fun t => t > now - 60) ≠ [] := by
    intro cap hcap hlen h
    rw [h] at hlen
    simp at hlen
    omega
  refine ⟨?_, ?_, ?_, ?_, ?_⟩
  · intro h1
    refine ⟨?_, headD_min_filter _ _ hgs⟩
    rw [check_and_record_true_eq, if_pos h1]
  · intro h1 d hdid h2
    subst hdid
    refine ⟨?_, headD_min_filter _ _ (hds d)⟩
    rw [check_and_record_true_eq, if_neg (by omega), deviceStep_some]
    simp only []
    rw [if_pos h2]
  · intro h1 hdev c hcid h3
    subst hcid
    refine ⟨?_, headD_min_filter _ _ (hcs c)⟩
    rw [check_and_record_true_eq, if_neg (by omega)]
    rcases hdev with hdev | ⟨d, hdid, h2⟩
    · subst hdev
      rw [deviceStep_none, connStep_some]
      simp only []
      rw [if_pos h3]
    · subst hdid
      rw [deviceStep_some]
      simp only []
      rw [if_neg (by omega), connStep_some]
      simp only []
      rw [if_pos h3]
  · intro h1 hdev hconn
    rw [check_and_record_true_eq, if_neg (by omega)]
    rcases hdev with rfl | ⟨d, rfl, h2⟩
    · rw [deviceStep_none]
      rcases hconn with rfl | ⟨c, rfl, h4⟩
      · rw [connStep_none]
        refine ⟨rfl, mem_global_recordStep _ _ _ _, ?_, ?_⟩
        · rintro d ⟨⟩
        · rintro c ⟨⟩
      · rw [connStep_some]
        simp only []
        rw [if_neg (by omega)]
        refine ⟨rfl, mem_global_recordStep _ _ _ _, ?_, ?_⟩
        · rintro d ⟨⟩
        · rintro c' hc'
          cases hc'
          exact mem_conn_recordStep _ _ _ _
    · rw [deviceStep_some]
      simp only []
      rw [if_neg (by omega)]
      rcases hconn with rfl | ⟨c, rfl, h4⟩
      · rw [connStep_none]
        refine ⟨rfl, mem_global_recordStep _ _ _ _, ?_, ?_⟩
        · rintro d' hd'
          cases hd'
          exact mem_device_recordStep _ _ _ _
        · rintro c ⟨⟩
      · rw [connStep_some]
        simp only []
        rw [if_neg (by omega)]
        refine ⟨rfl, mem_global_recordStep _ _ _ _, ?_, ?_⟩
        · rintro d' hd'
          cases hd'
          exact mem_device_recordStep _ _ _ _
        · rintro c' hc'
          cases hc'
          exact mem_conn_recordStep _ _ _ _
  · have hfne : ∀ (l : List ℚ) (cap : Nat), 0 < cap →
        (l.filter (fun t => t > now - 60)).length ≥ cap →
        l.filter (fun t => t > now - 60) ≠ [] := by
      intro l cap hcap hlen h
      rw [h] at hlen
      simp at hlen
      omega
    intro lt ra hres
    rw [check_and_record_true_eq] at hres ⊢
    by_cases h1 : (st.global_timestamps.filter (fun t => t > now - 60)).length ≥
        RATE_LIMIT_GLOBAL
    · rw [if_pos h1] at hres ⊢
      simp only [Option.some.injEq, RateRefusal.mk.injEq] at hres
      obtain ⟨hlt, hra⟩ := hres
      subst hra
      refine ⟨(retry_bounds _ now hg (hfne _ _ (by decide) h1)).1,
        (retry_bounds _ now hg (hfne _ _ (by decide) h1)).2, ?_, ?_, ?_⟩
      · exact fun t ht => List.mem_of_mem_filter ht
      · exact fun k t ht => ht
      · exact fun k t ht => ht
    · rw [if_neg h1] at hres ⊢
      cases did with
      | none =>
        rw [deviceStep_none] at hres ⊢
        cases cid with
        | none =>
          rw [connStep_none] at hres
          cases hres
        | some c =>
          rw [connStep_some] at hres ⊢
          simp only [] at hres ⊢
          by_cases h3 : ((lookupD st.connection_counts c).filter
              (fun t => t > now - 60)).length ≥ RATE_LIMIT_PER_CONNECTION
          · rw [if_pos h3] at hres ⊢
            simp only [Option.some.injEq, RateRefusal.mk.injEq] at hres
            obtain ⟨hlt, hra⟩ := hres
            subst hra
            refine ⟨(retry_bounds _ now (hc c) (hfne _ _ (by decide) h3)).1,
              (retry_bounds _ now (hc c) (hfne _ _ (by decide) h3)).2, ?_, ?_, ?_⟩
            · exact fun t ht => List.mem_of_mem_filter ht
            · exact fun k t ht => ht
            · exact lookupD_setEntry_sub _ _ _
                (fun t ht => List.mem_of_mem_filter ht)
          · rw [if_neg h3] at hres
            cases hres
      | some d =>
        rw [deviceStep_some] at hres ⊢
        simp only [] at hres ⊢
        by_cases h2 : ((lookupD st.device_counts d).filter
            (fun t => t > now - 60)).length ≥ RATE_LIMIT_PER_DEVICE
        · rw [if_pos h2] at hres ⊢
          simp only [Option.some.injEq, RateRefusal.mk.injEq] at hres
          obtain ⟨hlt, hra⟩ := hres
          subst hra
          refine ⟨(retry_bounds _ now (hd d) (hfne _ _ (by decide) h2)).1,
            (retry_bounds _ now (hd d) (hfne _ _ (by decide) h2)).2, ?_, ?_, ?_⟩
          · exact fun t ht => List.mem_of_mem_filter ht
          · exact lookupD_setEntry_sub _ _ _
              (fun t ht => List.mem_of_mem_filter ht)
          · exact fun k t ht => ht
        · rw [if_neg h2] at hres ⊢
          cases cid with
          | none =>
            rw [connStep_none] at hres
            cases hres
          | some c =>
            rw [connStep_some] at hres ⊢
            simp only [] at hres ⊢
            by_cases h3 : ((lookupD st.connection_counts c).filter
                (fun t => t > now - 60)).length ≥ RATE_LIMIT_PER_CONNECTION
            · rw [if_pos h3] at hres ⊢
              simp only [Option.some.injEq, RateRefusal.mk.injEq] at hres
              obtain ⟨hlt, hra⟩ := hres
              subst hra
              refine ⟨(retry_bounds _ now (hc c) (hfne _ _ (by decide) h3)).1,
                (retry_bounds _ now (hc c) (hfne _ _ (by decide) h3)).2, ?_, ?_, ?_⟩
              · exact fun t ht => List.mem_of_mem_filter ht
              · exact lookupD_setEntry_sub _ _ _
                  (fun t ht => List.mem_of_mem_filter ht)
              · exact lookupD_setEntry_sub _ _ _
                  (fun t ht => List.mem_of_mem_filter ht)
            · rw [if_neg h3] at hres
              cases hres


/-- Witness for C5 at concrete inputs (empty buckets, one device and
one connection id supplied). -/
theorem check_and_record_spec_witness :
    (∀ t ∈ (RateState.mk [] [] []).global_timestamps, t ≤ (0 : ℚ)) ∧
    (RateState.mk [] [] []).global_timestamps.Sorted (· ≤ ·) ∧
    (∀ k, ∀ t ∈ lookupD (RateState.mk [] [] []).device_counts k, t ≤ (0 : ℚ)) ∧
    (∀ k, (lookupD (RateState.mk [] [] []).device_counts k).Sorted (· ≤ ·)) ∧
    (∀ k, ∀ t ∈ lookupD (RateState.mk [] [] []).connection_counts k, t ≤ (0 : ℚ)) ∧
    (∀ k, (lookupD (RateState.mk [] [] []).connection_counts k).Sorted (· ≤ ·)) ∧
    ((((RateState.mk [] [] []).global_timestamps.filter (fun t => t > (0 : ℚ) - 60)).length ≥
        RATE_LIMIT_GLOBAL →
      check_and_record (RateState.mk [] [] []) 0 (some "c") (some "d") true =
        ({ RateState.mk [] [] [] with global_timestamps :=
             (RateState.mk [] [] []).global_timestamps.filter (fun t => t > (0 : ℚ) - 60) },
         some ⟨"global", ((RateState.mk [] [] []).global_timestamps.filter
           (fun t => t > (0 : ℚ) - 60)).headD 0 + 60 - (0 : ℚ)⟩) ∧
      (∀ t ∈ (RateState.mk [] [] []).global_timestamps.filter (fun t => t > (0 : ℚ) - 60),
        ((RateState.mk [] [] []).global_timestamps.filter (fun t => t > (0 : ℚ) - 60)).headD 0 ≤ t)) ∧
    (((RateState.mk [] [] []).global_timestamps.filter (fun t => t > (0 : ℚ) - 60)).length <
        RATE_LIMIT_GLOBAL →
      ∀ d, (some "d" : Option String) = some d →
      ((lookupD (RateState.mk [] [] []).device_counts d).filter (fun t => t > (0 : ℚ) - 60)).length ≥
        RATE_LIMIT_PER_DEVICE →
      (check_and_record (RateState.mk [] [] []) 0 (some "c") (some "d") true).2 =
        some ⟨"device", ((lookupD (RateState.mk [] [] []).device_counts d).filter
          (fun t => t > (0 : ℚ) - 60)).headD 0 + 60 - (0 : ℚ)⟩ ∧
      (∀ t ∈ (lookupD (RateState.mk [] [] []).device_counts d).filter (fun t => t > (0 : ℚ) - 60),
        ((lookupD (RateState.mk [] [] []).device_counts d).filter
          (fun t => t > (0 : ℚ) - 60)).headD 0 ≤ t)) ∧
    (((RateState.mk [] [] []).global_timestamps.filter (fun t => t > (0 : ℚ) - 60)).length <
        RATE_LIMIT_GLOBAL →
      ((some "d" : Option String) = none ∨ ∃ d, (some "d" : Option String) = some d ∧
        ((lookupD (RateState.mk [] [] []).device_counts d).filter (fun t => t > (0 : ℚ) - 60)).length <
          RATE_LIMIT_PER_DEVICE) →
      ∀ c, (some "c" : Option String) = some c →
      ((lookupD (RateState.mk [] [] []).connection_counts c).filter (fun t => t > (0 : ℚ) - 60)).length ≥
        RATE_LIMIT_PER_CONNECTION →
      (check_and_record (RateState.mk [] [] []) 0 (some "c") (some "d") true).2 =
        some ⟨"connection", ((lookupD (RateState.mk [] [] []).connection_counts c).filter
          (fun t => t > (0 : ℚ) - 60)).headD 0 + 60 - (0 : ℚ)⟩ ∧
      (∀ t ∈ (lookupD (RateState.mk [] [] []).connection_counts c).filter (fun t => t > (0 : ℚ) - 60),
        ((lookupD (RateState.mk [] [] []).connection_counts c).filter
          (fun t => t > (0 : ℚ) - 60)).headD 0 ≤ t)) ∧
    (((RateState.mk [] [] []).global_timestamps.filter (fun t => t > (0 : ℚ) - 60)).length <
        RATE_LIMIT_GLOBAL →
      ((some "d" : Option String) = none ∨ ∃ d, (some "d" : Option String) = some d ∧
        ((lookupD (RateState.mk [] [] []).device_counts d).filter (fun t => t > (0 : ℚ) - 60)).length <
          RATE_LIMIT_PER_DEVICE) →
      ((some "c" : Option String) = none ∨ ∃ c, (some "c" : Option String) = some c ∧
        ((lookupD (RateState.mk [] [] []).connection_counts c).filter (fun t => t > (0 : ℚ) - 60)).length <
          RATE_LIMIT_PER_CONNECTION) →
      (check_and_record (RateState.mk [] [] []) 0 (some "c") (some "d") true).2 = none ∧
      (0 : ℚ) ∈ (check_and_record (RateState.mk [] [] []) 0 (some "c") (some "d") true).1.global_timestamps ∧
      (∀ d, (some "d" : Option String) = some d →
        (0 : ℚ) ∈ lookupD (check_and_record (RateState.mk [] [] []) 0 (some "c") (some "d") true).1.device_counts d) ∧
      (∀ c, (some "c" : Option String) = some c →
        (0 : ℚ) ∈ lookupD (check_and_record (RateState.mk [] [] []) 0 (some "c") (some "d") true).1.connection_counts c)) ∧
    (∀ lt ra, (check_and_record (RateState.mk [] [] []) 0 (some "c") (some "d") true).2 = some ⟨lt, ra⟩ →
      0 < ra ∧ ra ≤ 60 ∧
      (∀ t ∈ (check_and_record (RateState.mk [] [] []) 0 (some "c") (some "d") true).1.global_timestamps,
        t ∈ (RateState.mk [] [] []).global_timestamps) ∧
      (∀ k, ∀ t ∈ lookupD (check_and_record (RateState.mk [] [] []) 0 (some "c") (some "d") true).1.device_counts k,
        t ∈ lookupD (RateState.mk [] [] []).device_counts k) ∧
      (∀ k, ∀ t ∈ lookupD (check_and_record (RateState.mk [] [] []) 0 (some "c") (some "d") true).1.connection_counts k,
        t ∈ lookupD (RateState.mk [] [] []).connection_counts k))) :=
  ⟨by simp, by simp, fun k t ht => by simp [lookupD] at ht,
   fun k => by simp [lookupD], fun k t ht => by simp [lookupD] at ht,
   fun k => by simp [lookupD],
   check_and_record_spec (RateState.mk [] [] []) 0 (some "c") (some "d")
     (by simp) (by simp) (fun k t ht => by simp [lookupD] at ht)
     (fun k => by simp [lookupD]) (fun k t ht => by simp [lookupD] at ht)
     (fun k => by simp [lookupD])⟩

/-- If `check_and_record` allows the request, `now` was recorded in
the global bucket of the state it returns. -/
theorem mem_global_of_allowed (st : RateState) (now : ℚ)
    (cid did : Option String)
    (h : (check_and_record st now cid did true).2 = none) :
    now ∈ (check_and_record st now cid did true).1.global_timestamps := by
  rw [check_and_record_true_eq] at h ⊢
  by_cases h1 : (st.global_timestamps.filter (fun t => t > now - 60)).length ≥
      RATE_LIMIT_GLOBAL
  · rw [if_pos h1] at h
    cases h
  · rw [if_neg h1] at h ⊢
    cases did with
    | none =>
      rw [deviceStep_none] at h ⊢
      cases cid with
      | none =>
        rw [connStep_none]
        exact mem_global_recordStep _ _ _ _
      | some c =>
        rw [connStep_some] at h ⊢
        simp only [] at h ⊢
        by_cases h3 : ((lookupD st.connection_counts c).filter
            (fun t => t > now - 60)).length ≥ RATE_LIMIT_PER_CONNECTION
        · rw [if_pos h3] at h
          cases h
        · rw [if_neg h3]
          exact mem_global_recordStep _ _ _ _
    | some d =>
      rw [deviceStep_some] at h ⊢
      simp only [] at h ⊢
      by_cases h2 : ((lookupD st.device_counts d).filter
          (fun t => t > now - 60)).length ≥ RATE_LIMIT_PER_DEVICE
      · rw [if_pos h2] at h
        cases h
      · rw [if_neg h2] at h ⊢
        cases cid with
        | none =>
          rw [connStep_none]
          exact mem_global_recordStep _ _ _ _
        | some c =>
          rw [connStep_some] at h ⊢
          simp only [] at h ⊢
          by_cases h3 : ((lookupD st.connection_counts c).filter
              (fun t => t > now - 60)).length ≥ RATE_LIMIT_PER_CONNECTION
          · rw [if_pos h3] at h
            cases h
          · rw [if_neg h3]
            exact mem_global_recordStep _ _ _ _

/-- C9.  In `MessageHandler.create_message` the rate-limit
check-and-record runs before protocol creation and validation; when
the rate limiter allows the request and `create_broadcast_message`
then fails (validation or size error), the handler returns exactly the
post-record rate-limiter state — in particular the timestamp recorded
at `now` stays in the global bucket, i.e. the consumed slot is not
refunded. -/
theorem handler_create_message_not_refunded (rate : RateState) (now : ℚ)
    (local_device_id : Option String) (content : String)
    (sender_name : Option String) (connection_id : Option String)
    (fresh_id : String) (msg_now : Int) (e : CreateError)
    (hallow : (check_and_record rate now connection_id local_device_id true).2 = none)
    (hfail : create_broadcast_message content (local_device_id.getD "")
      sender_name fresh_id msg_now = .error e) :
    handler_create_message rate now local_device_id content sender_name
      connection_id fresh_id msg_now =
      ((check_and_record rate now connection_id local_device_id true).1,
       .error (.create e)) ∧
    now ∈ (handler_create_message rate now local_device_id content sender_name
      connection_id fresh_id msg_now).1.global_timestamps := by
  have heq : handler_create_message rate now local_device_id content
      sender_name connection_id fresh_id msg_now =
      ((check_and_record rate now connection_id local_device_id true).1,
       .error (.create e)) := by
    simp only [handler_create_message]
    rw [hallow, hfail]
  refine ⟨heq, ?_⟩
  rw [heq]
  exact mem_global_of_allowed rate now connection_id local_device_id hallow

/-- Witness for C9 at concrete inputs (empty rate state, empty content
— which fails validation). -/
theorem handler_create_message_not_refunded_witness :
    (check_and_record (RateState.mk [] [] []) 0 none (some "me") true).2 = none ∧
    create_broadcast_message "" ((some "me" : Option String).getD "") none "f" 0 =
      .error (.validation (some "Message content cannot be empty")) ∧
    (handler_create_message (RateState.mk [] [] []) 0 (some "me") "" none
      none "f" 0 =
      ((check_and_record (RateState.mk [] [] []) 0 none (some "me") true).1,
       .error (.create (.validation (some "Message content cannot be empty")))) ∧
    (0 : ℚ) ∈ (handler_create_message (RateState.mk [] [] []) 0 (some "me") ""
      none none "f" 0).1.global_timestamps) :=
  ⟨rfl, rfl,
    handler_create_message_not_refunded (RateState.mk [] [] []) 0 (some "me")
      "" none none "f" 0 (.validation (some "Message content cannot be empty"))
      rfl rfl⟩

/-- C4.  Adding (and removing) a connection preserves
`|connections| ≤ MAX_CONCURRENT_CONNECTIONS`.  At capacity, with a
fresh address and no active blacklist entry, `add_connection` either
refuses and leaves the connection map unchanged (when every resident
entry has strictly lower numeric priority value than the newcomer,
i.e. strictly higher priority), or evicts exactly one entry — one
drawn from the candidates with `priority.value ≥` the newcomer's,
maximal in priority value (lowest priority) and of minimal health
among candidates of that same priority value — and then inserts the
fresh entry, ending exactly at capacity. -/
theorem add_connection_capacity_spec (pool : ConnectionPool) (now : ℚ)
    (address : String) (di : DeviceInfo) (prio : ConnectionPriority)
    (hinv : pool.connections.length ≤ MAX_CONCURRENT_CONNECTIONS) :
    (add_connection pool now address di prio).1.connections.length ≤
      MAX_CONCURRENT_CONNECTIONS ∧
    (∀ bl : Bool, (remove_connection pool now address bl).1.connections.length ≤
      MAX_CONCURRENT_CONNECTIONS) ∧
    (pool.connections.length = MAX_CONCURRENT_CONNECTIONS →
      (∀ e ∈ pool.connections, e.address ≠ address) →
      (pool.blacklist.lookup address = none ∨
        ∃ u, pool.blacklist.lookup address = some u ∧ u ≤ now) →
      ((∀ e ∈ pool.connections, e.priority.value < prio.value) →
        (add_connection pool now address di prio).2 = false ∧
        (add_connection pool now address di prio).1.connections =
          pool.connections) ∧
      ((∃ e ∈ pool.connections, e.priority.value ≥ prio.value) →
        (add_connection pool now address di prio).2 = true ∧
        ∃ victim ∈ pool.connections,
          victim.priority.value ≥ prio.value ∧
          (∀ c ∈ pool.connections, c.priority.value ≥ prio.value →
            c.priority.value ≤ victim.priority.value ∧
            (c.priority.value = victim.priority.value →
              victim.health_score now ≤ c.health_score now)) ∧
          (add_connection pool now address di prio).1.connections =
            (pool.connections.eraseP (fun e => e.address == victim.address)) ++
              [newEntry address di prio now] ∧
          (add_connection pool now address di prio).1.connections.length =
            MAX_CONCURRENT_CONNECTIONS)) := by
  refine ⟨?_, ?_, ?_⟩
  · unfold add_connection
    cases hlk : pool.blacklist.lookup address with
    | none => exact addAfterBlacklist_len pool now address di prio hinv
    | some u =>
      show ((if now < u then (pool, false)
        else addAfterBlacklist
          { pool with blacklist := pool.blacklist.eraseP (fun q => q.1 == address) }
          now address di prio)).1.connections.length ≤ MAX_CONCURRENT_CONNECTIONS
      by_cases hu : now < u
      · rw [if_pos hu]
        exact hinv
      · rw [if_neg hu]
        exact addAfterBlacklist_len _ now address di prio hinv
  · intro bl
    unfold remove_connection
    by_cases hany : pool.connections.any (fun e => e.address == address) = true
    · rw [if_pos hany]
      cases bl
      · show (pool.connections.eraseP (fun e => e.address == address)).length ≤
          MAX_CONCURRENT_CONNECTIONS
        exact le_trans (List.eraseP_sublist _).length_le hinv
      · show (pool.connections.eraseP (fun e => e.address == address)).length ≤
          MAX_CONCURRENT_CONNECTIONS
        exact le_trans (List.eraseP_sublist _).length_le hinv
    · rw [if_neg hany]
      exact hinv
  · intro hfull hfresh hbl
    rcases hbl with hbl | ⟨u, hbl, hu⟩
    · have hadd : add_connection pool now address di prio =
          addAfterBlacklist pool now address di prio := by
        unfold add_connection
        rw [hbl]
      have hspec := addAfterBlacklist_spec pool now address di prio hfull hfresh
      constructor
      · intro hall
        rw [hadd, hspec.1 hall]
        exact ⟨rfl, rfl⟩
      · intro hex
        rw [hadd]
        exact hspec.2 hex
    · have hadd : add_connection pool now address di prio =
          addAfterBlacklist
            { pool with blacklist := pool.blacklist.eraseP (fun q => q.1 == address) }
            now address di prio := by
        unfold add_connection
        rw [hbl]
        show (if now < u then (pool, false)
          else addAfterBlacklist
            { pool with blacklist := pool.blacklist.eraseP (fun q => q.1 == address) }
            now address di prio) = _
        rw [if_neg (not_lt.mpr hu)]
      have hspec := addAfterBlacklist_spec
        { pool with blacklist := pool.blacklist.eraseP (fun q => q.1 == address) }
        now address di prio hfull hfresh
      constructor
      · intro hall
        rw [hadd, hspec.1 hall]
        exact ⟨rfl, rfl⟩
      · intro hex
        rw [hadd]
        exact hspec.2 hex


/-- Witness for C4 at concrete inputs: a full pool of four NORMAL
entries with health scores 0.9, 0.7, 0.4, 0.8 and a HIGH-priority
newcomer. -/
theorem add_connection_capacity_spec_witness :
    (ConnectionPool.mk [⟨"a1", ⟨"a1", 9/10⟩, .normal, 0, 0, 0, 0, 0, 0, 0, 0⟩, ⟨"a2", ⟨"a2", 7/10⟩, .normal, 0, 0, 0, 0, 0, 0, 0, 0⟩, ⟨"a3", ⟨"a3", 4/10⟩, .normal, 0, 0, 0, 0, 0, 0, 0, 0⟩, ⟨"a4", ⟨"a4", 8/10⟩, .normal, 0, 0, 0, 0, 0, 0, 0, 0⟩] []).connections.length ≤ MAX_CONCURRENT_CONNECTIONS ∧
    ((add_connection (ConnectionPool.mk [⟨"a1", ⟨"a1", 9/10⟩, .normal, 0, 0, 0, 0, 0, 0, 0, 0⟩, ⟨"a2", ⟨"a2", 7/10⟩, .normal, 0, 0, 0, 0, 0, 0, 0, 0⟩, ⟨"a3", ⟨"a3", 4/10⟩, .normal, 0, 0, 0, 0, 0, 0, 0, 0⟩, ⟨"a4", ⟨"a4", 8/10⟩, .normal, 0, 0, 0, 0, 0, 0, 0, 0⟩] []) 0 "X" ⟨"X", 1⟩ .high).1.connections.length ≤
      MAX_CONCURRENT_CONNECTIONS ∧
    (∀ bl : Bool, (remove_connection (ConnectionPool.mk [⟨"a1", ⟨"a1", 9/10⟩, .normal, 0, 0, 0, 0, 0, 0, 0, 0⟩, ⟨"a2", ⟨"a2", 7/10⟩, .normal, 0, 0, 0, 0, 0, 0, 0, 0⟩, ⟨"a3", ⟨"a3", 4/10⟩, .normal, 0, 0, 0, 0, 0, 0, 0, 0⟩, ⟨"a4", ⟨"a4", 8/10⟩, .normal, 0, 0, 0, 0, 0, 0, 0, 0⟩] []) 0 "X" bl).1.connections.length ≤
      MAX_CONCURRENT_CONNECTIONS) ∧
    ((ConnectionPool.mk [⟨"a1", ⟨"a1", 9/10⟩, .normal, 0, 0, 0, 0, 0, 0, 0, 0⟩, ⟨"a2", ⟨"a2", 7/10⟩, .normal, 0, 0, 0, 0, 0, 0, 0, 0⟩, ⟨"a3", ⟨"a3", 4/10⟩, .normal, 0, 0, 0, 0, 0, 0, 0, 0⟩, ⟨"a4", ⟨"a4", 8/10⟩, .normal, 0, 0, 0, 0, 0, 0, 0, 0⟩] []).connections.length = MAX_CONCURRENT_CONNECTIONS →
      (∀ e ∈ (ConnectionPool.mk [⟨"a1", ⟨"a1", 9/10⟩, .normal, 0, 0, 0, 0, 0, 0, 0, 0⟩, ⟨"a2", ⟨"a2", 7/10⟩, .normal, 0, 0, 0, 0, 0, 0, 0, 0⟩, ⟨"a3", ⟨"a3", 4/10⟩, .normal, 0, 0, 0, 0, 0, 0, 0, 0⟩, ⟨"a4", ⟨"a4", 8/10⟩, .normal, 0, 0, 0, 0, 0, 0, 0, 0⟩] []).connections, e.address ≠ "X") →
      ((ConnectionPool.mk [⟨"a1", ⟨"a1", 9/10⟩, .normal, 0, 0, 0, 0, 0, 0, 0, 0⟩, ⟨"a2", ⟨"a2", 7/10⟩, .normal, 0, 0, 0, 0, 0, 0, 0, 0⟩, ⟨"a3", ⟨"a3", 4/10⟩, .normal, 0, 0, 0, 0, 0, 0, 0, 0⟩, ⟨"a4", ⟨"a4", 8/10⟩, .normal, 0, 0, 0, 0, 0, 0, 0, 0⟩] []).blacklist.lookup "X" = none ∨
        ∃ u, (ConnectionPool.mk [⟨"a1", ⟨"a1", 9/10⟩, .normal, 0, 0, 0, 0, 0, 0, 0, 0⟩, ⟨"a2", ⟨"a2", 7/10⟩, .normal, 0, 0, 0, 0, 0, 0, 0, 0⟩, ⟨"a3", ⟨"a3", 4/10⟩, .normal, 0, 0, 0, 0, 0, 0, 0, 0⟩, ⟨"a4", ⟨"a4", 8/10⟩, .normal, 0, 0, 0, 0, 0, 0, 0, 0⟩] []).blacklist.lookup "X" = some u ∧ u ≤ (0 : ℚ)) →
      ((∀ e ∈ (ConnectionPool.mk [⟨"a1", ⟨"a1", 9/10⟩, .normal, 0, 0, 0, 0, 0, 0, 0, 0⟩, ⟨"a2", ⟨"a2", 7/10⟩, .normal, 0, 0, 0, 0, 0, 0, 0, 0⟩, ⟨"a3", ⟨"a3", 4/10⟩, .normal, 0, 0, 0, 0, 0, 0, 0, 0⟩, ⟨"a4", ⟨"a4", 8/10⟩, .normal, 0, 0, 0, 0, 0, 0, 0, 0⟩] []).connections, e.priority.value < (ConnectionPriority.high).value) →
        (add_connection (ConnectionPool.mk [⟨"a1", ⟨"a1", 9/10⟩, .normal, 0, 0, 0, 0, 0, 0, 0, 0⟩, ⟨"a2", ⟨"a2", 7/10⟩, .normal, 0, 0, 0, 0, 0, 0, 0, 0⟩, ⟨"a3", ⟨"a3", 4/10⟩, .normal, 0, 0, 0, 0, 0, 0, 0, 0⟩, ⟨"a4", ⟨"a4", 8/10⟩, .normal, 0, 0, 0, 0, 0, 0, 0, 0⟩] []) 0 "X" ⟨"X", 1⟩ .high).2 = false ∧
        (add_connection (ConnectionPool.mk [⟨"a1", ⟨"a1", 9/10⟩, .normal, 0, 0, 0, 0, 0, 0, 0, 0⟩, ⟨"a2", ⟨"a2", 7/10⟩, .normal, 0, 0, 0, 0, 0, 0, 0, 0⟩, ⟨"a3", ⟨"a3", 4/10⟩, .normal, 0, 0, 0, 0, 0, 0, 0, 0⟩, ⟨"a4", ⟨"a4", 8/10⟩, .normal, 0, 0, 0, 0, 0, 0, 0, 0⟩] []) 0 "X" ⟨"X", 1⟩ .high).1.connections =
          (ConnectionPool.mk [⟨"a1", ⟨"a1", 9/10⟩, .normal, 0, 0, 0, 0, 0, 0, 0, 0⟩, ⟨"a2", ⟨"a2", 7/10⟩, .normal, 0, 0, 0, 0, 0, 0, 0, 0⟩, ⟨"a3", ⟨"a3", 4/10⟩, .normal, 0, 0, 0, 0, 0, 0, 0, 0⟩, ⟨"a4", ⟨"a4", 8/10⟩, .normal, 0, 0, 0, 0, 0, 0, 0, 0⟩] []).connections) ∧
      ((∃ e ∈ (ConnectionPool.mk [⟨"a1", ⟨"a1", 9/10⟩, .normal, 0, 0, 0, 0, 0, 0, 0, 0⟩, ⟨"a2", ⟨"a2", 7/10⟩, .normal, 0, 0, 0, 0, 0, 0, 0, 0⟩, ⟨"a3", ⟨"a3", 4/10⟩, .normal, 0, 0, 0, 0, 0, 0, 0, 0⟩, ⟨"a4", ⟨"a4", 8/10⟩, .normal, 0, 0, 0, 0, 0, 0, 0, 0⟩] []).connections, e.priority.value ≥ (ConnectionPriority.high).value) →
        (add_connection (ConnectionPool.mk [⟨"a1", ⟨"a1", 9/10⟩, .normal, 0, 0, 0, 0, 0, 0, 0, 0⟩, ⟨"a2", ⟨"a2", 7/10⟩, .normal, 0, 0, 0, 0, 0, 0, 0, 0⟩, ⟨"a3", ⟨"a3", 4/10⟩, .normal, 0, 0, 0, 0, 0, 0, 0, 0⟩, ⟨"a4", ⟨"a4", 8/10⟩, .normal, 0, 0, 0, 0, 0, 0, 0, 0⟩] []) 0 "X" ⟨"X", 1⟩ .high).2 = true ∧
        ∃ victim ∈ (ConnectionPool.mk [⟨"a1", ⟨"a1", 9/10⟩, .normal, 0, 0, 0, 0, 0, 0, 0, 0⟩, ⟨"a2", ⟨"a2", 7/10⟩, .normal, 0, 0, 0, 0, 0, 0, 0, 0⟩, ⟨"a3", ⟨"a3", 4/10⟩, .normal, 0, 0, 0, 0, 0, 0, 0, 0⟩, ⟨"a4", ⟨"a4", 8/10⟩, .normal, 0, 0, 0, 0, 0, 0, 0, 0⟩] []).connections,
          victim.priority.value ≥ (ConnectionPriority.high).value ∧
          (∀ c ∈ (ConnectionPool.mk [⟨"a1", ⟨"a1", 9/10⟩, .normal, 0, 0, 0, 0, 0, 0, 0, 0⟩, ⟨"a2", ⟨"a2", 7/10⟩, .normal, 0, 0, 0, 0, 0, 0, 0, 0⟩, ⟨"a3", ⟨"a3", 4/10⟩, .normal, 0, 0, 0, 0, 0, 0, 0, 0⟩, ⟨"a4", ⟨"a4", 8/10⟩, .normal, 0, 0, 0, 0, 0, 0, 0, 0⟩] []).connections, c.priority.value ≥ (ConnectionPriority.high).value →
            c.priority.value ≤ victim.priority.value ∧
            (c.priority.value = victim.priority.value →
              victim.health_score 0 ≤ c.health_score 0)) ∧
          (add_connection (ConnectionPool.mk [⟨"a1", ⟨"a1", 9/10⟩, .normal, 0, 0, 0, 0, 0, 0, 0, 0⟩, ⟨"a2", ⟨"a2", 7/10⟩, .normal, 0, 0, 0, 0, 0, 0, 0, 0⟩, ⟨"a3", ⟨"a3", 4/10⟩, .normal, 0, 0, 0, 0, 0, 0, 0, 0⟩, ⟨"a4", ⟨"a4", 8/10⟩, .normal, 0, 0, 0, 0, 0, 0, 0, 0⟩] []) 0 "X" ⟨"X", 1⟩ .high).1.connections =
            ((ConnectionPool.mk [⟨"a1", ⟨"a1", 9/10⟩, .normal, 0, 0, 0, 0, 0, 0, 0, 0⟩, ⟨"a2", ⟨"a2", 7/10⟩, .normal, 0, 0, 0, 0, 0, 0, 0, 0⟩, ⟨"a3", ⟨"a3", 4/10⟩, .normal, 0, 0, 0, 0, 0, 0, 0, 0⟩, ⟨"a4", ⟨"a4", 8/10⟩, .normal, 0, 0, 0, 0, 0, 0, 0, 0⟩] []).connections.eraseP (fun e => e.address == victim.address)) ++
              [newEntry "X" ⟨"X", 1⟩ .high 0] ∧
          (add_connection (ConnectionPool.mk [⟨"a1", ⟨"a1", 9/10⟩, .normal, 0, 0, 0, 0, 0, 0, 0, 0⟩, ⟨"a2", ⟨"a2", 7/10⟩, .normal, 0, 0, 0, 0, 0, 0, 0, 0⟩, ⟨"a3", ⟨"a3", 4/10⟩, .normal, 0, 0, 0, 0, 0, 0, 0, 0⟩, ⟨"a4", ⟨"a4", 8/10⟩, .normal, 0, 0, 0, 0, 0, 0, 0, 0⟩] []) 0 "X" ⟨"X", 1⟩ .high).1.connections.length =
            MAX_CONCURRENT_CONNECTIONS))) :=
  ⟨by decide,
    add_connection_capacity_spec (ConnectionPool.mk [⟨"a1", ⟨"a1", 9/10⟩, .normal, 0, 0, 0, 0, 0, 0, 0, 0⟩, ⟨"a2", ⟨"a2", 7/10⟩, .normal, 0, 0, 0, 0, 0, 0, 0, 0⟩, ⟨"a3", ⟨"a3", 4/10⟩, .normal, 0, 0, 0, 0, 0, 0, 0, 0⟩, ⟨"a4", ⟨"a4", 8/10⟩, .normal, 0, 0, 0, 0, 0, 0, 0, 0⟩] []) 0 "X" ⟨"X", 1⟩ .high (by decide)⟩


set_option maxRecDepth 8192 in
/-- C7 counterexample: `sanitize` is not idempotent.  On the input
`"&"` the first pass HTML-escapes the ampersand to `"&amp;"`, and a
second pass escapes the escape, yielding `"&amp;amp;"`. -/
theorem sanitize_not_idempotent :
    Sanitizer.sanitize (Sanitizer.sanitize "&") ≠ Sanitizer.sanitize "&" ∧
    Sanitizer.sanitize "&" = "&amp;" ∧
    Sanitizer.sanitize (Sanitizer.sanitize "&") = "&amp;amp;" := by
  decide

/-- C7 (amended): `sanitize` is idempotent on every string whose
characters are plain — ASCII and none of the five HTML-escaped
characters `& < > " '` nor the whitespace characters `\t`, `\n`,
`\r` that `str.strip` removes but the control-character pass leaves
in place.  On such strings the output of `sanitize` contains only
surviving characters, has no double spaces, no dangerous-pattern
match, no leading or trailing whitespace and at most 450 characters,
so every pass of a second application is the identity. -/
theorem sanitize_idempotent_on_plain (s : String)
    (h : ∀ c ∈ s.toList, Sanitizer.plainChar c = true) :
    Sanitizer.sanitize (Sanitizer.sanitize s) = Sanitizer.sanitize s := by
  by_cases hs : s = ""
  · subst hs
    rfl
  obtain ⟨hsc, hnd, hNM, hlen, hhead, hlast⟩ :=
    Sanitizer.sanitize_output_props s hs h
  by_cases hO : Sanitizer.sanitize s = ""
  · rw [hO]
    rfl
  · have e2 : Sanitizer.sanitize (Sanitizer.sanitize s) =
        String.mk (Sanitizer.trimAndLimit (Sanitizer.htmlEscape
          (Sanitizer.filterDangerous (Sanitizer.removeControlChars
            (Sanitizer.sanitize s).toList)))) := by
      rw [Sanitizer.sanitize, if_neg hO]
      rfl
    rw [e2,
      Sanitizer.removeControlChars_id _
        (fun c hc => Sanitizer.scChar_not_control c (hsc c hc)) hnd,
      Sanitizer.filterDangerous_eq_self _ hNM,
      Sanitizer.htmlEscape_id _ hsc]
    have e4 : Sanitizer.trimAndLimit (Sanitizer.sanitize s).toList =
        (Sanitizer.sanitize s).toList := by
      simp only [Sanitizer.trimAndLimit]
      rw [Sanitizer.pyStrip_id _ hhead hlast, if_neg (Nat.not_lt.mpr hlen)]
    rw [e4]
    exact (show ∀ t : String, String.mk t.toList = t from fun t => rfl) _

set_option maxRecDepth 8192 in
/-- Witness for the amended C7 at the concrete plain input
`"hi data:x there"`, which exercises a dangerous-pattern
replacement. -/
theorem sanitize_idempotent_on_plain_witness :
    (∀ c ∈ ("hi data:x there" : String).toList,
      Sanitizer.plainChar c = true) ∧
    Sanitizer.sanitize (Sanitizer.sanitize "hi data:x there") =
      Sanitizer.sanitize "hi data:x there" :=
  ⟨by decide, sanitize_idempotent_on_plain "hi data:x there" (by decide)⟩

end Beacon

